import Mathlib

/-!
Federation controller: config synthesis (ConfigFactory).

A shallow embedding of `internal/pkg/istio/config_factory.go`.

* Go strings are Lean strings; `fmt.Sprintf` with `%s` and `%d` verbs is string concatenation.
* Go maps with string keys are association lists with at most one pair per key
  (`mapGet`, `mapSet`).
* A Go function returning `(value, error)` returns an `Except`; where the body can also hit an
  index that is out of range it returns an `Outcome`, whose third case is the runtime failure.
* The service lister, the imported-service store and the methods of the packages `config` and
  `networking` are collaborators whose code is not part of the sources; they are parameters.
-/

namespace Federation

/-! ## Strings, sorting and maps of the Go runtime -/

/-- The order `sort.Strings` sorts by. Go compares strings byte by byte; on UTF-8 text that is
the order of the code points, which is the lexicographic order of the characters. -/
def stringLE (a b : String) : Prop := a.data ≤ b.data

instance stringLE.decidable : DecidableRel stringLE :=
  fun a b => inferInstanceAs (Decidable (a.data ≤ b.data))

instance stringLE.isTotal : IsTotal String stringLE :=
  ⟨fun a b => (le_total a b).imp String.le_iff_toList_le.mp String.le_iff_toList_le.mp⟩

instance stringLE.isTrans : IsTrans String stringLE :=
  ⟨fun _ _ _ hab hbc =>
    String.le_iff_toList_le.mp
      (le_trans (String.le_iff_toList_le.mpr hab) (String.le_iff_toList_le.mpr hbc))⟩

instance stringLE.isAntisymm : IsAntisymm String stringLE :=
  ⟨fun _ _ hab hba =>
    le_antisymm (String.le_iff_toList_le.mpr hab) (String.le_iff_toList_le.mpr hba)⟩

/-- The function `sort.Strings`: the ascending arrangement of the slice. Equal strings cannot be
told apart, so every sorting algorithm gives this list. -/
def sortStrings (xs : List String) : List String := List.insertionSort stringLE xs

/-- Pieces of a character list between the occurrences of `sep`. -/
def splitChars (sep : Char) : List Char → List (List Char)
  | [] => [[]]
  | c :: cs =>
    if c = sep then [] :: splitChars sep cs
    else
      match splitChars sep cs with
      | [] => [[c]]
      | w :: ws => (c :: w) :: ws

/-- The function `strings.Split(s, sep)` for a separator of one character. -/
def stringsSplit (s : String) (sep : Char) : List String :=
  (splitChars sep s.data).map String.mk

/-- The function `strings.Join(elems, sep)`. -/
def stringsJoin (elems : List String) (sep : String) : String := sep.intercalate elems

/-- A `map[string]string`. -/
abbrev Labels := List (String × String)

/-- Reading `m[k]` with the comma-ok form. -/
def mapGet {V : Type} (m : List (String × V)) (k : String) : Option V :=
  match m with
  | [] => none
  | (k', v) :: rest => if k' = k then some v else mapGet rest k

/-- The assignment `m[k] = v`. -/
def mapSet {V : Type} (m : List (String × V)) (k : String) (v : V) : List (String × V) :=
  match m with
  | [] => [(k, v)]
  | (k', v') :: rest => if k' = k then (k, v) :: rest else (k', v') :: mapSet rest k v

/-- The values stored in a map, in the order of the association list. -/
def mapValues {V : Type} (m : List (String × V)) : List V := m.map Prod.snd

/-- The function `maps.MergeCopy(base, override)` of istio: a fresh map holding `base`, then
overwritten with `override`. -/
def MergeCopy (base override : Labels) : Labels :=
  override.foldl (fun dst kv => mapSet dst kv.1 kv.2)
    (base.foldl (fun dst kv => mapSet dst kv.1 kv.2) [])

/-! ## Configuration (package `config`) -/

inductive IngressType where
  | Istio
  | OpenShiftRouter
  deriving DecidableEq, Repr

structure Remote where
  Name : String
  Addresses : List String
  IngressType : IngressType
  Network : String
  deriving DecidableEq, Repr

structure ControlPlane where
  Namespace : String
  deriving DecidableEq, Repr

structure PortConfig where
  Name : String
  Number : Nat
  deriving DecidableEq, Repr

structure IngressConfig where
  Selector : Labels
  Port : PortConfig
  deriving DecidableEq, Repr

structure Gateways where
  Ingress : IngressConfig
  deriving DecidableEq, Repr

structure Local where
  Name : String
  ControlPlane : ControlPlane
  Gateways : Gateways
  IngressType : IngressType
  deriving DecidableEq, Repr

structure MeshPeers where
  Local : Local
  Remotes : List Remote
  deriving DecidableEq, Repr

structure LabelSelectors where
  MatchLabels : Labels
  deriving DecidableEq, Repr

/-- The exported service set, read through `GetLabelSelectors()`. -/
structure ExportedServices where
  GetLabelSelectors : List LabelSelectors
  deriving DecidableEq, Repr

structure FederationConfig where
  MeshPeers : MeshPeers
  ExportedServiceSet : ExportedServices
  deriving DecidableEq, Repr

/-- Methods of `config.Remote` and functions of `networking` that the factory calls. -/
structure Deps where
  ServiceName : Remote → String
  ServiceFQDN : Remote → String
  ServicePort : Remote → Nat
  GetPort : Remote → Nat
  IsIP : String → Bool
  Resolve : List String → List String

/-! ## Cluster collaborators -/

/-- A Kubernetes service as far as the factory reads it: name, namespace and `Spec.Ports[].Port`. -/
structure Service where
  Name : String
  Namespace : String
  Ports : List Nat
  deriving DecidableEq, Repr

/-- An error of the cluster API, with the status reason `errors.IsNotFound` looks at. -/
structure APIError where
  Reason : String
  Message : String
  deriving DecidableEq, Repr

/-- The function `errors.IsNotFound`. -/
def IsNotFound (err : APIError) : Bool := err.Reason == "NotFound"

deriving instance DecidableEq for Except

/-- The interface `v1.ServiceLister`: `List(selector)` and `Services(ns).Get(name)`. The selector
built by `labels.SelectorFromSet` is represented by the label set it was built from. -/
structure ServiceLister where
  List : Labels → Except APIError (List Service)
  Get : String → String → Except APIError Service

structure ServicePort where
  Name : String
  Number : Nat
  Protocol : String
  TargetPort : Nat
  deriving DecidableEq, Repr

/-- A service learned from a peer (`v1alpha1`), as kept in the imported-service store. -/
structure ImportedService where
  Hostname : String
  Labels : Labels
  Ports : List ServicePort
  deriving DecidableEq, Repr

structure ConfigFactory where
  cfg : FederationConfig
  serviceLister : ServiceLister
  /-- The call `importedServiceStore.From(remote)`. -/
  importedServiceStore : Remote → List ImportedService
  namespace_ : String

/-! ## Produced objects (istio networking API) -/

structure ObjectMeta where
  Name : String
  Namespace : String
  Labels : Labels
  deriving DecidableEq, Repr

inductive ClientTLSMode where
  | DISABLE
  | ISTIO_MUTUAL
  deriving DecidableEq, Repr

structure ClientTLSSettings where
  Mode : ClientTLSMode
  Sni : String
  deriving DecidableEq, Repr

structure PortTrafficPolicy where
  /-- The field `Port.Number` of the port selector. -/
  Port : Nat
  Tls : ClientTLSSettings
  deriving DecidableEq, Repr

structure TrafficPolicy where
  Tls : Option ClientTLSSettings
  PortLevelSettings : List PortTrafficPolicy
  deriving DecidableEq, Repr

structure DestinationRuleSpec where
  Host : String
  TrafficPolicy : TrafficPolicy
  deriving DecidableEq, Repr

structure DestinationRule where
  ObjectMeta : ObjectMeta
  Spec : DestinationRuleSpec
  deriving DecidableEq, Repr

structure GatewayPort where
  Number : Nat
  Name : String
  Protocol : String
  deriving DecidableEq, Repr

inductive ServerTLSMode where
  | PASSTHROUGH
  | AUTO_PASSTHROUGH
  deriving DecidableEq, Repr

structure Server where
  Hosts : List String
  Port : GatewayPort
  Tls : ServerTLSMode
  deriving DecidableEq, Repr

structure GatewaySpec where
  Selector : Labels
  Servers : List Server
  deriving DecidableEq, Repr

structure Gateway where
  ObjectMeta : ObjectMeta
  Spec : GatewaySpec
  deriving DecidableEq, Repr

structure WorkloadEntrySpec where
  Address : String
  Labels : Labels
  Ports : List (String × Nat)
  Network : String
  deriving DecidableEq, Repr

structure WorkloadEntry where
  ObjectMeta : ObjectMeta
  Spec : WorkloadEntrySpec
  deriving DecidableEq, Repr

inductive Location where
  | MESH_EXTERNAL
  | MESH_INTERNAL
  deriving DecidableEq, Repr

inductive Resolution where
  | NONE
  | STATIC
  | DNS
  deriving DecidableEq, Repr

structure ServiceEntrySpec where
  Hosts : List String
  Ports : List ServicePort
  Endpoints : List WorkloadEntrySpec
  Location : Location
  Resolution : Resolution
  deriving DecidableEq, Repr

structure ServiceEntry where
  ObjectMeta : ObjectMeta
  Spec : ServiceEntrySpec
  deriving DecidableEq, Repr

/-! ## Results -/

/-- The errors the factory builds with `fmt.Errorf`, each wrapping the error of the lister. -/
inductive Error where
  /-- The text `error listing services (selector=%s): %w`. -/
  | listServices (selector : Labels) (cause : APIError)
  /-- The text `failed to get Service %s/%s: %w`. -/
  | getService (svcNs svcName : String) (cause : APIError)
  deriving DecidableEq, Repr

/-- How a call ends: a value with a nil error, a nil value with an error, or a runtime failure
at an index that is out of range (`site` names the expression). -/
inductive Outcome (α : Type) where
  | ok (value : α)
  | error (err : Error)
  | panic (site : String)
  deriving DecidableEq, Repr

/-! ## Helpers at the end of `config_factory.go` -/

def federationIngressGatewayName : String := "federation-ingress-gateway"

/-- The label every produced object carries. -/
def peerLabels : Labels := [("federation.openshift-service-mesh.io/peer", "todo")]

/-- SNI in the form the OpenShift router accepts: `<svcName>-<port>.<svcNs>.svc.cluster.local`. -/
def routerCompatibleSNI (svcName svcNs : String) (port : Nat) : String :=
  svcName ++ "-" ++ toString port ++ "." ++ svcNs ++ ".svc.cluster.local"

def makePortsMap (ports : List ServicePort) (remotePort : Nat) : List (String × Nat) :=
  ports.foldl (fun m p => mapSet m p.Name remotePort) []

def separateWithDash (hostname : String) : String :=
  stringsJoin (stringsSplit hostname '.') "-"

/-- The first two labels of the hostname; `none` when `domainLabels[1]` is out of range. -/
def getServiceNameAndNs (hostname : String) : Option (String × String) :=
  match stringsSplit hostname '.' with
  | svcName :: svcNs :: _ => some (svcName, svcNs)
  | _ => none

/-- The site of the runtime failure inside `getServiceNameAndNs`. -/
def siteDomainLabels : String := "getServiceNameAndNs: domainLabels[1]"

/-- The site of the runtime failure when a remote without addresses is indexed. -/
def siteAddresses : String := "remote.Addresses[0]"

/-! ## IngressGateway -/

/-- The hostname `<name>.<namespace>.svc.cluster.local` of a local service. -/
def serviceHost (svc : Service) : String :=
  svc.Name ++ "." ++ svc.Namespace ++ ".svc.cluster.local"

/-- The hostname of the local discovery endpoint, the first element of `hosts`. -/
def localDiscoveryHost (cf : ConfigFactory) : String :=
  "federation-discovery-service-" ++ cf.cfg.MeshPeers.Local.Name ++ "." ++ cf.namespace_ ++
    ".svc.cluster.local"

/-- The loop over the export selectors in `IngressGateway`: list the services of each selector
and append their hostnames; the first listing that fails ends the loop with the wrapped error. -/
def collectExportedHosts (lister : ServiceLister) :
    List LabelSelectors → List String → Except Error (List String)
  | [], hosts => .ok hosts
  | exportLabelSelector :: rest, hosts =>
    let matchLabels := exportLabelSelector.MatchLabels
    match lister.List matchLabels with
    | .error err => .error (Error.listServices matchLabels err)
    | .ok services =>
      collectExportedHosts lister rest
        (services.foldl (fun hosts svc => hosts ++ [serviceHost svc]) hosts)

def IngressGateway (cf : ConfigFactory) : Except Error Gateway :=
  match collectExportedHosts cf.serviceLister cf.cfg.ExportedServiceSet.GetLabelSelectors
      [localDiscoveryHost cf] with
  | .error err => .error err
  | .ok hosts =>
    .ok {
      ObjectMeta := {
        Name := federationIngressGatewayName
        Namespace := cf.cfg.MeshPeers.Local.ControlPlane.Namespace
        Labels := peerLabels }
      Spec := {
        Selector := cf.cfg.MeshPeers.Local.Gateways.Ingress.Selector
        Servers := [{
          Hosts := sortStrings hosts
          Port := {
            Number := cf.cfg.MeshPeers.Local.Gateways.Ingress.Port.Number
            Name := cf.cfg.MeshPeers.Local.Gateways.Ingress.Port.Name
            Protocol := "TLS" }
          Tls := ServerTLSMode.AUTO_PASSTHROUGH }] } }

/-- The host list of the first server of a gateway, `gateway.Spec.Servers[0].Hosts`. -/
def gatewayHosts (gateway : Gateway) : List String :=
  match gateway.Spec.Servers with
  | [] => []
  | server :: _ => server.Hosts

/-! ## DestinationRules -/

/-- The closure `createObjectMeta` of `DestinationRules`. -/
def createObjectMeta (cf : ConfigFactory) (hostname : String) : ObjectMeta :=
  { Name := "mtls-sni-" ++ separateWithDash hostname
    Namespace := cf.cfg.MeshPeers.Local.ControlPlane.Namespace
    Labels := peerLabels }

/-- The rule for the discovery endpoint of a remote behind an OpenShift router. -/
def discoveryDestinationRule (deps : Deps) (cf : ConfigFactory) (remote : Remote) :
    DestinationRule :=
  { ObjectMeta :=
      createObjectMeta cf (deps.ServiceName remote ++ "." ++ "istio-system" ++ ".svc.cluster.local")
    Spec := {
      Host := deps.ServiceFQDN remote
      TrafficPolicy := {
        Tls := some {
          Mode := ClientTLSMode.ISTIO_MUTUAL
          Sni := routerCompatibleSNI (deps.ServiceName remote) "istio-system"
            (deps.ServicePort remote) }
        PortLevelSettings := [] } } }

/-- The loop over `svc.Ports`: one port-level policy per port. The hostname is split anew for
every port, so a hostname without a second label fails at the first port. -/
def portLevelSettings (hostname : String) :
    List ServicePort → List PortTrafficPolicy → Outcome (List PortTrafficPolicy)
  | [], settings => .ok settings
  | port :: rest, settings =>
    match getServiceNameAndNs hostname with
    | none => .panic siteDomainLabels
    | some (svcName, svcNs) =>
      portLevelSettings hostname rest
        (settings ++ [{
          Port := port.Number
          Tls := {
            Mode := ClientTLSMode.ISTIO_MUTUAL
            Sni := routerCompatibleSNI svcName svcNs port.Number } }])

/-- The loop over the services imported from one remote. The map
`destinationRulesAlreadyCreated` is only read: no statement of the function writes to it. -/
def destinationRulesForImported (cf : ConfigFactory)
    (destinationRulesAlreadyCreated : List (String × Bool)) :
    List ImportedService → List DestinationRule → Outcome (List DestinationRule)
  | [], destinationRules => .ok destinationRules
  | svc :: rest, destinationRules =>
    let drMeta := createObjectMeta cf svc.Hostname
    if !((mapGet destinationRulesAlreadyCreated drMeta.Name).getD false) then
      match portLevelSettings svc.Hostname svc.Ports [] with
      | .panic site => .panic site
      | .error err => .error err
      | .ok settings =>
        destinationRulesForImported cf destinationRulesAlreadyCreated rest
          (destinationRules ++ [{
            ObjectMeta := drMeta
            Spec := {
              Host := svc.Hostname
              TrafficPolicy := { Tls := none, PortLevelSettings := settings } } }])
    else
      destinationRulesForImported cf destinationRulesAlreadyCreated rest destinationRules

/-- The loop over the remotes in `DestinationRules`. -/
def destinationRulesLoop (deps : Deps) (cf : ConfigFactory)
    (destinationRulesAlreadyCreated : List (String × Bool)) :
    List Remote → List DestinationRule → Outcome (List DestinationRule)
  | [], destinationRules => .ok destinationRules
  | remote :: rest, destinationRules =>
    if remote.IngressType ≠ IngressType.OpenShiftRouter then
      destinationRulesLoop deps cf destinationRulesAlreadyCreated rest destinationRules
    else
      match destinationRulesForImported cf destinationRulesAlreadyCreated
          (cf.importedServiceStore remote)
          (destinationRules ++ [discoveryDestinationRule deps cf remote]) with
      | .panic site => .panic site
      | .error err => .error err
      | .ok destinationRules =>
        destinationRulesLoop deps cf destinationRulesAlreadyCreated rest destinationRules

def DestinationRules (deps : Deps) (cf : ConfigFactory) : Outcome (List DestinationRule) :=
  destinationRulesLoop deps cf [] cf.cfg.MeshPeers.Remotes []

/-! ## ServiceEntries -/

/-- The resolution mode chosen from the first address of a remote. -/
def resolutionFor (deps : Deps) (firstAddress : String) : Resolution :=
  if deps.IsIP firstAddress then Resolution.STATIC else Resolution.DNS

/-- The entry for the discovery endpoint of a remote; `none` when `remote.Addresses[0]` is out
of range. -/
def serviceEntryForRemoteFederationController (deps : Deps) (cf : ConfigFactory)
    (remote : Remote) : Option ServiceEntry :=
  match remote.Addresses with
  | [] => none
  | firstAddress :: _ =>
    some {
      ObjectMeta := {
        Name := deps.ServiceName remote
        Namespace := cf.cfg.MeshPeers.Local.ControlPlane.Namespace
        Labels := peerLabels }
      Spec := {
        Hosts := [deps.ServiceFQDN remote]
        Ports := [{ Name := "grpc", Number := deps.ServicePort remote, Protocol := "GRPC",
                    TargetPort := 0 }]
        Endpoints := remote.Addresses.map fun addr =>
          { Address := addr
            Labels := [("security.istio.io/tlsMode", "istio")]
            Ports := [("grpc", deps.GetPort remote)]
            Network := remote.Network }
        Location := Location.MESH_INTERNAL
        Resolution := resolutionFor deps firstAddress } }

/-- The endpoints built from the addresses of a remote for an imported service. -/
def importedEndpoints (deps : Deps) (remote : Remote) (importedSvc : ImportedService) :
    List WorkloadEntrySpec :=
  remote.Addresses.map fun addr =>
    { Address := addr
      Labels := MergeCopy importedSvc.Labels [("security.istio.io/tlsMode", "istio")]
      Ports := makePortsMap importedSvc.Ports (deps.GetPort remote)
      Network := remote.Network }

/-- The name `import-<hostname dashed>-<remote name>`, also the key in `serviceEntriesByName`. -/
def svcEntryName (importedSvc : ImportedService) (remote : Remote) : String :=
  "import-" ++ separateWithDash importedSvc.Hostname ++ "-" ++ remote.Name

/-- The body of the inner loop of `ServiceEntries` for one imported service. -/
def serviceEntriesStep (deps : Deps) (cf : ConfigFactory) (remote : Remote)
    (resolution : Resolution) (serviceEntriesByName : List (String × ServiceEntry))
    (importedSvc : ImportedService) : Outcome (List (String × ServiceEntry)) :=
  match getServiceNameAndNs importedSvc.Hostname with
  | none => .panic siteDomainLabels
  | some (svcName, svcNs) =>
    match cf.serviceLister.Get svcNs svcName with
    | .ok _ => .ok serviceEntriesByName
    | .error err =>
      if !IsNotFound err then .error (Error.getService svcNs svcName err)
      else
        let ports := importedSvc.Ports.map fun port =>
          ({ Name := port.Name, Number := port.Number, Protocol := port.Protocol,
             TargetPort := port.TargetPort } : ServicePort)
        let endpoints := importedEndpoints deps remote importedSvc
        let name := svcEntryName importedSvc remote
        match mapGet serviceEntriesByName name with
        | some serviceEntry =>
          .ok (mapSet serviceEntriesByName name
            { serviceEntry with
              Spec := { serviceEntry.Spec with
                Endpoints := serviceEntry.Spec.Endpoints ++ endpoints } })
        | none =>
          .ok (mapSet serviceEntriesByName name
            { ObjectMeta := {
                Name := name
                Namespace := cf.cfg.MeshPeers.Local.ControlPlane.Namespace
                Labels := peerLabels }
              Spec := {
                Hosts := [importedSvc.Hostname]
                Ports := ports
                Endpoints := endpoints
                Location := Location.MESH_INTERNAL
                Resolution := resolution } })

/-- The inner loop of `ServiceEntries` over the services imported from one remote. -/
def serviceEntriesForImported (deps : Deps) (cf : ConfigFactory) (remote : Remote)
    (resolution : Resolution) :
    List ImportedService → List (String × ServiceEntry) → Outcome (List (String × ServiceEntry))
  | [], serviceEntriesByName => .ok serviceEntriesByName
  | importedSvc :: rest, serviceEntriesByName =>
    match serviceEntriesStep deps cf remote resolution serviceEntriesByName importedSvc with
    | .panic site => .panic site
    | .error err => .error err
    | .ok serviceEntriesByName =>
      serviceEntriesForImported deps cf remote resolution rest serviceEntriesByName

/-- The loop over the remotes in `ServiceEntries`, on the pair of the slice `serviceEntries` and
the map `serviceEntriesByName`. -/
def serviceEntriesLoop (deps : Deps) (cf : ConfigFactory) :
    List Remote → List ServiceEntry × List (String × ServiceEntry) →
      Outcome (List ServiceEntry × List (String × ServiceEntry))
  | [], state => .ok state
  | remote :: rest, (serviceEntries, serviceEntriesByName) =>
    if remote.Addresses.length = 0 then
      serviceEntriesLoop deps cf rest (serviceEntries, serviceEntriesByName)
    else
      match serviceEntryForRemoteFederationController deps cf remote, remote.Addresses with
      | some discoveryEntry, firstAddress :: _ =>
        match serviceEntriesForImported deps cf remote (resolutionFor deps firstAddress)
            (cf.importedServiceStore remote) serviceEntriesByName with
        | .panic site => .panic site
        | .error err => .error err
        | .ok serviceEntriesByName =>
          serviceEntriesLoop deps cf rest
            (serviceEntries ++ [discoveryEntry], serviceEntriesByName)
      | _, _ => .panic siteAddresses

/-- The function `ServiceEntries`. The order in which `maps.Values` walks the map is not fixed
by Go; `valuesOrder` is the order of one call. -/
def ServiceEntries (deps : Deps) (cf : ConfigFactory)
    (valuesOrder : List ServiceEntry → List ServiceEntry) : Outcome (List ServiceEntry) :=
  match serviceEntriesLoop deps cf cf.cfg.MeshPeers.Remotes ([], []) with
  | .panic site => .panic site
  | .error err => .error err
  | .ok (serviceEntries, serviceEntriesByName) =>
    .ok (serviceEntries ++ valuesOrder (mapValues serviceEntriesByName))

/-! ## WorkloadEntries -/

/-- The entries for one imported service that exists locally: one per resolved address. -/
def workloadEntriesFor (deps : Deps) (remote : Remote) (importedSvc : ImportedService)
    (svcName svcNs : String) : List WorkloadEntry :=
  (deps.Resolve remote.Addresses).enum.map fun (idx, ip) =>
    { ObjectMeta := {
        Name := "import-" ++ remote.Name ++ "-" ++ svcName ++ "-" ++ toString idx
        Namespace := svcNs
        Labels := peerLabels }
      Spec := {
        Address := ip
        Labels := MergeCopy importedSvc.Labels [("security.istio.io/tlsMode", "istio")]
        Ports := makePortsMap importedSvc.Ports (deps.GetPort remote)
        Network := remote.Network } }

/-- The inner loop of `WorkloadEntries` over the services imported from one remote. -/
def workloadEntriesForImported (deps : Deps) (cf : ConfigFactory) (remote : Remote) :
    List ImportedService → List WorkloadEntry → Outcome (List WorkloadEntry)
  | [], workloadEntries => .ok workloadEntries
  | importedSvc :: rest, workloadEntries =>
    match getServiceNameAndNs importedSvc.Hostname with
    | none => .panic siteDomainLabels
    | some (svcName, svcNs) =>
      match cf.serviceLister.Get svcNs svcName with
      | .error err =>
        if !IsNotFound err then .error (Error.getService svcNs svcName err)
        else workloadEntriesForImported deps cf remote rest workloadEntries
      | .ok _ =>
        workloadEntriesForImported deps cf remote rest
          (workloadEntries ++ workloadEntriesFor deps remote importedSvc svcName svcNs)

/-- The loop over the remotes in `WorkloadEntries`. -/
def workloadEntriesLoop (deps : Deps) (cf : ConfigFactory) :
    List Remote → List WorkloadEntry → Outcome (List WorkloadEntry)
  | [], workloadEntries => .ok workloadEntries
  | remote :: rest, workloadEntries =>
    match workloadEntriesForImported deps cf remote (cf.importedServiceStore remote)
        workloadEntries with
    | .panic site => .panic site
    | .error err => .error err
    | .ok workloadEntries => workloadEntriesLoop deps cf rest workloadEntries

def WorkloadEntries (deps : Deps) (cf : ConfigFactory) : Outcome (List WorkloadEntry) :=
  workloadEntriesLoop deps cf cf.cfg.MeshPeers.Remotes []

/-! ## EnvoyFilters -/

inductive ApplyTo where
  | LISTENER
  | FILTER_CHAIN
  deriving DecidableEq, Repr

inductive PatchOperation where
  | ADD
  | MERGE
  deriving DecidableEq, Repr

/-- A `structpb.Struct` as far as the factory builds one: the object whose field
`filter_chain_match` holds the list `server_names`, or what unmarshalling leaves for a text
that is not read here (the text is kept). -/
inductive PatchValue where
  | serverNames (names : List String)
  | unparsed (config : String)
  deriving DecidableEq, Repr

/-- The listener match of a patch: the listener name and `FilterChain.Sni`. -/
structure ListenerMatch where
  Name : String
  Sni : String
  deriving DecidableEq, Repr

structure EnvoyFilterPatch where
  Operation : PatchOperation
  Value : PatchValue
  deriving DecidableEq, Repr

structure EnvoyConfigObjectPatch where
  ApplyTo : ApplyTo
  Match : ListenerMatch
  Patch : EnvoyFilterPatch
  deriving DecidableEq, Repr

structure EnvoyFilterSpec where
  /-- The labels of the workload selector. -/
  WorkloadSelector : Labels
  ConfigPatches : List EnvoyConfigObjectPatch
  deriving DecidableEq, Repr

structure EnvoyFilter where
  ObjectMeta : ObjectMeta
  Spec : EnvoyFilterSpec
  deriving DecidableEq, Repr

/-- The text before the server name in the patch of `createEnvoyFilter`. -/
def patchPrefix : String := "\x7b\"filter_chain_match\":\x7b\"server_names\":[\""

/-- The text after the server name in the patch of `createEnvoyFilter`. -/
def patchSuffix : String := "\"]\x7d\x7d"

/-- The text of the patch, the format string of `createEnvoyFilter` filled in. -/
def patchConfig (serverName : String) : String := patchPrefix ++ serverName ++ patchSuffix

/-- A text that stands for itself between the quotes of a JSON string: no quote, no backslash
and no control character. -/
def jsonPlain (s : String) : Bool :=
  s.data.all fun c => decide (32 ≤ c.toNat ∧ c.toNat ≠ 34 ∧ c.toNat ≠ 92)

/-- The function `protomarshal.UnmarshalString` into a fresh struct, on the texts
`createEnvoyFilter` builds: a text made of the prefix, a plain server name and the suffix gives
the object with that one server name; any other text is not read here. -/
def unmarshalString (config : String) : PatchValue :=
  let body := config.data.drop patchPrefix.data.length
  let name := body.take (body.length - patchSuffix.data.length)
  if config.data = patchPrefix.data ++ name ++ patchSuffix.data ∧ jsonPlain (String.mk name) then
    PatchValue.serverNames [String.mk name]
  else PatchValue.unparsed config

/-- The closure `buildPatchStruct`: an error of the unmarshalling is printed and the struct is
returned as it is. -/
def buildPatchStruct (config : String) : PatchValue := unmarshalString config

/-- The closure `createEnvoyFilter` of `EnvoyFilters`. The port is the `int32` of the service
port, a positive number. -/
def createEnvoyFilter (cf : ConfigFactory) (svcName svcNamespace : String) (port : Nat) :
    EnvoyFilter :=
  { ObjectMeta := {
      Name := "sni-" ++ svcName ++ "-" ++ svcNamespace ++ "-" ++ toString port
      Namespace := cf.cfg.MeshPeers.Local.ControlPlane.Namespace
      Labels := peerLabels }
    Spec := {
      WorkloadSelector := cf.cfg.MeshPeers.Local.Gateways.Ingress.Selector
      ConfigPatches := [{
        ApplyTo := ApplyTo.FILTER_CHAIN
        Match := {
          Name := "0.0.0.0_" ++ toString cf.cfg.MeshPeers.Local.Gateways.Ingress.Port.Number
          Sni := "outbound_." ++ toString port ++ "_._." ++ svcName ++ "." ++ svcNamespace ++
            ".svc.cluster.local" }
        Patch := {
          Operation := PatchOperation.MERGE
          Value := buildPatchStruct
            (patchConfig (routerCompatibleSNI svcName svcNamespace port)) } }] } }

/-- The loop over the export selectors in `EnvoyFilters`: one filter per port of every listed
service. A listing that fails is printed; the loop goes on with the nil slice of services. -/
def envoyFiltersLoop (cf : ConfigFactory) :
    List LabelSelectors → List EnvoyFilter → List EnvoyFilter
  | [], envoyFilters => envoyFilters
  | exportLabelSelector :: rest, envoyFilters =>
    let services :=
      match cf.serviceLister.List exportLabelSelector.MatchLabels with
      | .ok services => services
      | .error _ => []
    envoyFiltersLoop cf rest
      (services.foldl
        (fun envoyFilters svc =>
          svc.Ports.foldl
            (fun envoyFilters port =>
              envoyFilters ++ [createEnvoyFilter cf svc.Name svc.Namespace port])
            envoyFilters)
        envoyFilters)

/-- The function `EnvoyFilters`; it has no error result. -/
def EnvoyFilters (cf : ConfigFactory) : List EnvoyFilter :=
  if cf.cfg.MeshPeers.Local.IngressType ≠ IngressType.OpenShiftRouter then []
  else
    envoyFiltersLoop cf cf.cfg.ExportedServiceSet.GetLabelSelectors
      [createEnvoyFilter cf ("federation-discovery-service-" ++ cf.cfg.MeshPeers.Local.Name)
        "istio-system" 15080]

/-! ## Discovery client (package `adsc`) -/

/-- A `discovery.DiscoveryResponse` as far as the receive loop reads it; a resource is opaque. -/
structure DiscoveryResponse where
  TypeUrl : String
  Resources : List String
  deriving DecidableEq, Repr

/-- The interface `ResponseHandler`: `Handle(resources)` returns an error or nil (`none`). -/
structure ResponseHandler where
  Handle : List String → Option String

structure ADSCConfig where
  DiscoveryAddr : String
  InitialDiscoveryRequests : List String
  Handlers : List (String × ResponseHandler)

/-- What the receive loop does, in order: the lines it logs and the calls of handlers. The call
`handle typeUrl resources` is the call of `Handle` on the handler registered under `typeUrl`. -/
inductive RecvEvent where
  | logClosed (err : String)
  | logReceived (typeUrl : String)
  | logBody (resources : List String)
  | logHandlerFound (typeUrl : String)
  | handle (typeUrl : String) (resources : List String)
  | logHandleError (typeUrl : String) (err : String)
  | logNoHandler (typeUrl : String)
  deriving DecidableEq, Repr

/-- The method `handleRecv`, run on the results of the successive calls of `stream.Recv()`. The
loop returns at the first receive error; when the results run out the next `Recv` blocks and
nothing more happens. -/
def handleRecv (cfg : ADSCConfig) : List (Except String DiscoveryResponse) → List RecvEvent
  | [] => []
  | .error err :: _ => [RecvEvent.logClosed err]
  | .ok msg :: rest =>
    [RecvEvent.logReceived msg.TypeUrl, RecvEvent.logBody msg.Resources] ++
      (match mapGet cfg.Handlers msg.TypeUrl with
        | some handler =>
          [RecvEvent.logHandlerFound msg.TypeUrl, RecvEvent.handle msg.TypeUrl msg.Resources] ++
            (match handler.Handle msg.Resources with
              | some err => [RecvEvent.logHandleError msg.TypeUrl err]
              | none => [])
        | none => [RecvEvent.logNoHandler msg.TypeUrl]) ++
      handleRecv cfg rest

/-! ## Notions used to state the properties -/

/-- The hostnames of the services the lister returns for the selectors, in selector order and,
within a selector, in the order of the lister; a selector whose listing fails gives none. -/
def listedHosts (lister : ServiceLister) : List LabelSelectors → List String
  | [] => []
  | sel :: rest =>
    (match lister.List sel.MatchLabels with
      | .ok services => services.map serviceHost
      | .error _ => []) ++ listedHosts lister rest

/-- Two results of a listing that differ at most in the order of the services. -/
def sameUpToOrder : Except APIError (List Service) → Except APIError (List Service) → Prop
  | .ok xs, .ok ys => xs.Perm ys
  | .error e₁, .error e₂ => e₁ = e₂
  | _, _ => False

/-- No listing of an export selector of the configuration fails. -/
def noListingFails (cf : ConfigFactory) : Prop :=
  ∀ sel ∈ cf.cfg.ExportedServiceSet.GetLabelSelectors,
    ∃ services, cf.serviceLister.List sel.MatchLabels = .ok services

/-- How the probe for the local service named by an imported hostname ends: the service exists,
it does not exist (the lister answers not-found), the lister fails with another error (given
wrapped, as the factory returns it), or the hostname has no second label to look up. -/
inductive Probe where
  | found
  | notFound
  | failed (err : Error)
  | outOfRange
  deriving DecidableEq, Repr

/-- The probe `serviceLister.Services(svcNs).Get(svcName)` for an imported hostname, as both
`ServiceEntries` and `WorkloadEntries` perform it. -/
def probe (cf : ConfigFactory) (hostname : String) : Probe :=
  match getServiceNameAndNs hostname with
  | none => Probe.outOfRange
  | some (svcName, svcNs) =>
    match cf.serviceLister.Get svcNs svcName with
    | .ok _ => Probe.found
    | .error err =>
      if IsNotFound err then Probe.notFound else Probe.failed (Error.getService svcNs svcName err)

/-- The probe ends with found or not-found. -/
def Probe.completes : Probe → Bool
  | Probe.found => true
  | Probe.notFound => true
  | _ => false

/-- The first probe, in the order of the hostnames, that does not end with found or
not-found; `none` when every probe does. -/
def firstStop (cf : ConfigFactory) : List String → Option Probe
  | [] => none
  | hostname :: rest =>
    if (probe cf hostname).completes then firstStop cf rest else some (probe cf hostname)

/-- What ended a call early: nothing, a failed probe, or an index out of range. -/
def stopOf {α : Type} : Outcome α → Option Probe
  | .ok _ => none
  | .error err => some (Probe.failed err)
  | .panic _ => some Probe.outOfRange

/-- The remotes with at least one address. -/
def remotesWithAddress (remotes : List Remote) : List Remote :=
  remotes.filter fun remote => remote.Addresses ≠ []

/-- The hostnames imported from the remotes, in the order the loops visit them. -/
def importedHostnames (cf : ConfigFactory) (remotes : List Remote) : List String :=
  remotes.flatMap fun remote => (cf.importedServiceStore remote).map (·.Hostname)

/-- The entry `entry`, stored under the name `key`, was created for a remote with at least one
address and a service imported from it that has no local counterpart: it carries the name of
that pair, the hostname of that service and the resolution mode of that remote. -/
def CreatedFor (deps : Deps) (cf : ConfigFactory) (key : String) (entry : ServiceEntry) : Prop :=
  ∃ remote ∈ cf.cfg.MeshPeers.Remotes, ∃ firstAddress others,
    remote.Addresses = firstAddress :: others ∧
    ∃ svc ∈ cf.importedServiceStore remote,
      probe cf svc.Hostname = Probe.notFound ∧
      key = svcEntryName svc remote ∧
      entry.ObjectMeta.Name = svcEntryName svc remote ∧
      entry.Spec.Hosts = [svc.Hostname] ∧
      entry.Spec.Resolution = resolutionFor deps firstAddress

/-- The map has an entry under `key` whose endpoints include `endpoints`. -/
def Holds (byName : List (String × ServiceEntry)) (key : String)
    (endpoints : List WorkloadEntrySpec) : Prop :=
  ∃ entry, mapGet byName key = some entry ∧ ∀ endpoint ∈ endpoints, endpoint ∈ entry.Spec.Endpoints

/-- The discovery entries of the remotes that have an address, in the order of the remotes. -/
def discoveryEntries (deps : Deps) (cf : ConfigFactory) (remotes : List Remote) :
    List ServiceEntry :=
  (remotesWithAddress remotes).filterMap (serviceEntryForRemoteFederationController deps cf)

/-- The workload entries `WorkloadEntries` builds for one service imported from a remote: those
for the resolved addresses when the probe finds the local service, none otherwise. -/
def workloadEntriesOf (deps : Deps) (cf : ConfigFactory) (remote : Remote)
    (svc : ImportedService) : List WorkloadEntry :=
  match getServiceNameAndNs svc.Hostname with
  | none => []
  | some (svcName, svcNs) =>
    match cf.serviceLister.Get svcNs svcName with
    | .ok _ => workloadEntriesFor deps remote svc svcName svcNs
    | .error _ => []

/-- The services the lister returns for the selectors, in selector order and, within a selector,
in the order of the lister; a selector whose listing fails gives none. -/
def listedServices (lister : ServiceLister) : List LabelSelectors → List Service
  | [] => []
  | sel :: rest =>
    (match lister.List sel.MatchLabels with
      | .ok services => services
      | .error _ => []) ++ listedServices lister rest

/-- The filters `EnvoyFilters` builds for one service: one per port, in port order. -/
def envoyFiltersOf (cf : ConfigFactory) (svc : Service) : List EnvoyFilter :=
  svc.Ports.map (createEnvoyFilter cf svc.Name svc.Namespace)

/-- The pieces put together again with `sep` between every two of them. -/
def joinChars (sep : Char) : List (List Char) → List Char
  | [] => []
  | [w] => w
  | w :: w' :: ws => w ++ sep :: joinChars sep (w' :: ws)

/-- The hostname with every dot replaced by a dash. -/
def dotsToDashes (hostname : String) : String :=
  String.mk (hostname.data.map fun c => if c = '.' then '-' else c)

/-- The rule `DestinationRules` builds for an imported service: named after the hostname, for
the hostname, with one port-level policy per port whose SNI is made of the first two labels of
the hostname. -/
def importedDestinationRule (cf : ConfigFactory) (svc : ImportedService) : DestinationRule :=
  { ObjectMeta := createObjectMeta cf svc.Hostname
    Spec := {
      Host := svc.Hostname
      TrafficPolicy := {
        Tls := none
        PortLevelSettings :=
          match getServiceNameAndNs svc.Hostname with
          | none => []
          | some (svcName, svcNs) =>
            svc.Ports.map fun port =>
              { Port := port.Number
                Tls := {
                  Mode := ClientTLSMode.ISTIO_MUTUAL
                  Sni := routerCompatibleSNI svcName svcNs port.Number } } } } }

/-- The remotes behind an OpenShift router. -/
def routerRemotes (remotes : List Remote) : List Remote :=
  remotes.filter fun remote => remote.IngressType = IngressType.OpenShiftRouter

/-- The handler calls among the events, in order: type identifier and resources. -/
def invocations (events : List RecvEvent) : List (String × List String) :=
  events.filterMap fun event =>
    match event with
    | RecvEvent.handle typeUrl resources => some (typeUrl, resources)
    | _ => none

/-- The messages the loop took up, in order: the type identifiers it logged on receipt. -/
def received (events : List RecvEvent) : List String :=
  events.filterMap fun event =>
    match event with
    | RecvEvent.logReceived typeUrl => some typeUrl
    | _ => none

/-- The characters before the first dot, all of them when there is no dot. -/
def beforeDot (cs : List Char) : List Char := cs.takeWhile fun c => decide (c ≠ '.')

/-- The characters after the first dot, none when there is no dot. -/
def afterDot (cs : List Char) : List Char := (cs.dropWhile fun c => decide (c ≠ '.')).drop 1

/-- The hostnames a call probes, in order: every hostname up to and including the first one
whose probe does not end with found or not-found. -/
def probedHostnames (cf : ConfigFactory) : List String → List String
  | [] => []
  | hostname :: rest =>
    if (probe cf hostname).completes then hostname :: probedHostnames cf rest else [hostname]

/-! ## Concrete configurations -/

/-- A local peer named `west` with the control plane in `istio-system`. -/
def sampleLocal : Local :=
  { Name := "west"
    ControlPlane := { Namespace := "istio-system" }
    Gateways := { Ingress := {
      Selector := [("app", "federation-ingress-gateway")]
      Port := { Name := "tls", Number := 15443 } } }
    IngressType := IngressType.Istio }

def selectorExport : LabelSelectors := { MatchLabels := [("export", "true")] }

def selectorTeam : LabelSelectors := { MatchLabels := [("team", "payments")] }

def svcBilling : Service := { Name := "billing", Namespace := "ns1", Ports := [7070] }

def svcCatalog : Service := { Name := "catalog", Namespace := "ns2", Ports := [8080] }

/-- A local service whose hostname is the one of the local discovery endpoint. -/
def svcDiscovery : Service :=
  { Name := "federation-discovery-service-west", Namespace := "istio-system", Ports := [15080] }

def errUnavailable : APIError := { Reason := "ServiceUnavailable", Message := "cache not synced" }

def errNotFound : APIError := { Reason := "NotFound", Message := "service not found" }

/-- A lister that knows no service by name. -/
def getNothing (_svcNs _svcName : String) : Except APIError Service := .error errNotFound

/-- A factory over the given selectors and listing function, without remotes. -/
def factoryWith (selectors : List LabelSelectors)
    (list : Labels → Except APIError (List Service)) : ConfigFactory :=
  { cfg := {
      MeshPeers := { Local := sampleLocal, Remotes := [] }
      ExportedServiceSet := { GetLabelSelectors := selectors } }
    serviceLister := { List := list, Get := getNothing }
    importedServiceStore := fun _ => []
    namespace_ := "istio-system" }

/-- One selector; the lister returns `catalog` before `billing`. -/
def factoryCatalogFirst : ConfigFactory :=
  factoryWith [selectorExport] (fun _ => .ok [svcCatalog, svcBilling])

/-- One selector; the lister returns `billing` before `catalog`. -/
def listerBillingFirst : ServiceLister :=
  { List := fun _ => .ok [svcBilling, svcCatalog], Get := getNothing }

/-- Two selectors that both match the service `billing`. -/
def factoryMatchedTwice : ConfigFactory :=
  factoryWith [selectorExport, selectorTeam] (fun _ => .ok [svcBilling])

/-- One selector matching a service that has the hostname of the local discovery endpoint. -/
def factoryDiscoveryExported : ConfigFactory :=
  factoryWith [selectorExport] (fun _ => .ok [svcDiscovery])

/-- Two selectors; the listing of the second one fails. -/
def factorySecondFails : ConfigFactory :=
  factoryWith [selectorExport, selectorTeam]
    (fun labels => if labels = selectorTeam.MatchLabels then .error errUnavailable
      else .ok [svcBilling])

/-- The gateway of `factoryCatalogFirst`. -/
def gatewayCatalogFirst : Gateway :=
  { ObjectMeta := {
      Name := "federation-ingress-gateway"
      Namespace := "istio-system"
      Labels := [("federation.openshift-service-mesh.io/peer", "todo")] }
    Spec := {
      Selector := [("app", "federation-ingress-gateway")]
      Servers := [{
        Hosts := ["billing.ns1.svc.cluster.local", "catalog.ns2.svc.cluster.local",
          "federation-discovery-service-west.istio-system.svc.cluster.local"]
        Port := { Number := 15443, Name := "tls", Protocol := "TLS" }
        Tls := ServerTLSMode.AUTO_PASSTHROUGH }] } }

/-- Remote `rA` behind an OpenShift router, reached at one IP address. -/
def remoteA : Remote :=
  { Name := "rA", Addresses := ["10.0.0.1"], IngressType := IngressType.OpenShiftRouter,
    Network := "network-a" }

/-- Remote `rB` behind an OpenShift router, reached at one IP address. -/
def remoteB : Remote :=
  { Name := "rB", Addresses := ["10.0.0.2"], IngressType := IngressType.OpenShiftRouter,
    Network := "network-b" }

/-- The service `billing` of namespace `ns1` as a peer exports it. -/
def importedBilling : ImportedService :=
  { Hostname := "billing.ns1.svc.cluster.local"
    Labels := [("app", "billing")]
    Ports := [{ Name := "grpc", Number := 7070, Protocol := "GRPC", TargetPort := 7070 }] }

/-- A factory over the given remotes, store and `Get` function, without export selectors. -/
def factoryOver (remotes : List Remote) (store : Remote → List ImportedService)
    (get : String → String → Except APIError Service) : ConfigFactory :=
  { cfg := {
      MeshPeers := { Local := sampleLocal, Remotes := remotes }
      ExportedServiceSet := { GetLabelSelectors := [] } }
    serviceLister := { List := fun _ => .ok [], Get := get }
    importedServiceStore := store
    namespace_ := "istio-system" }

/-- Remotes `rA` and `rB` both import `billing.ns1.svc.cluster.local`; no local service has that
name. -/
def factoryTwoRemotes : ConfigFactory :=
  factoryOver [remoteA, remoteB] (fun _ => [importedBilling]) getNothing

/-- Stand-ins for the methods of `config.Remote` and for `networking`, used to evaluate the
factory on concrete inputs: the discovery service of a remote is
`federation-discovery-service-<name>` in `istio-system`, an address made of digits and dots is
an IP literal, and resolving keeps the addresses. -/
def sampleDeps : Deps :=
  { ServiceName := fun remote => "federation-discovery-service-" ++ remote.Name
    ServiceFQDN := fun remote =>
      "federation-discovery-service-" ++ remote.Name ++ ".istio-system.svc.cluster.local"
    ServicePort := fun _ => 15080
    GetPort := fun _ => 15443
    IsIP := fun addr => addr.data.all fun c => c.isDigit || c = '.'
    Resolve := fun addrs => addrs }

/-- Remote `rD`, whose first address is a DNS name and whose second one is an IP literal. -/
def remoteD : Remote :=
  { Name := "rD", Addresses := ["peer.example.com", "10.0.0.4"],
    IngressType := IngressType.Istio, Network := "network-d" }

/-- Remote `rN`, which has no address. -/
def remoteN : Remote :=
  { Name := "rN", Addresses := [], IngressType := IngressType.Istio, Network := "network-n" }

/-- Remotes `rA`, `rN` and `rD`, each importing `billing.ns1.svc.cluster.local`; no local service
has that name. -/
def factoryThreeRemotes : ConfigFactory :=
  factoryOver [remoteA, remoteN, remoteD] (fun _ => [importedBilling]) getNothing

/-- The service `catalog` of namespace `ns2` as a peer exports it. -/
def importedCatalog : ImportedService :=
  { Hostname := "catalog.ns2.svc.cluster.local"
    Labels := [("app", "catalog")]
    Ports := [{ Name := "http", Number := 8080, Protocol := "HTTP", TargetPort := 8080 }] }

/-- Remote `x`, reached at one IP address. -/
def remoteX : Remote :=
  { Name := "x", Addresses := ["10.0.0.1"], IngressType := IngressType.Istio,
    Network := "network-x" }

/-- Service `web-team` of namespace `a-prod`. -/
def importedWebTeam : ImportedService :=
  { Hostname := "web-team.a-prod.svc.cluster.local", Labels := [], Ports := [] }

/-- Service `web` of namespace `team-a-prod`. -/
def importedWeb : ImportedService :=
  { Hostname := "web.team-a-prod.svc.cluster.local", Labels := [], Ports := [] }

/-- Service `web-team-a` of namespace `prod`. -/
def importedWebTeamA : ImportedService :=
  { Hostname := "web-team-a.prod.svc.cluster.local", Labels := [], Ports := [] }

/-- Remote `x` imports three services whose hostnames differ only in where the dots are; of the
three, only `web-team-a` of namespace `prod` exists locally. -/
def factoryNameClash : ConfigFactory :=
  factoryOver [remoteX] (fun _ => [importedWebTeam, importedWeb, importedWebTeamA])
    (fun svcNs svcName =>
      if svcNs = "prod" ∧ svcName = "web-team-a" then
        .ok { Name := "web-team-a", Namespace := "prod", Ports := [80] }
      else .error errNotFound)

/-- Remote `rA` imports `billing`, which exists locally in `ns1`, and `catalog`, which does not
exist locally. -/
def factoryMixed : ConfigFactory :=
  factoryOver [remoteA] (fun _ => [importedBilling, importedCatalog])
    (fun svcNs svcName =>
      if svcNs = "ns1" ∧ svcName = "billing" then .ok svcBilling else .error errNotFound)

/-- Scenario A with the service present: remote `rA` imports `billing.ns1.svc.cluster.local` and
the service `billing` exists in `ns1`. -/
def factoryBillingLocal : ConfigFactory :=
  factoryOver [remoteA] (fun _ => [importedBilling])
    (fun svcNs svcName =>
      if svcNs = "ns1" ∧ svcName = "billing" then .ok svcBilling else .error errNotFound)

/-- Scenario A with the service absent: remote `rA` imports `billing.ns1.svc.cluster.local` and
no local service has that name. -/
def factoryBillingAbsent : ConfigFactory :=
  factoryOver [remoteA] (fun _ => [importedBilling]) getNothing

/-- The local peer `west` behind an OpenShift router. -/
def routerLocal : Local := { sampleLocal with IngressType := IngressType.OpenShiftRouter }

/-- A factory of the router-fronted local peer over the given selectors and listing function. -/
def routerFactoryWith (selectors : List LabelSelectors)
    (list : Labels → Except APIError (List Service)) : ConfigFactory :=
  { cfg := {
      MeshPeers := { Local := routerLocal, Remotes := [] }
      ExportedServiceSet := { GetLabelSelectors := selectors } }
    serviceLister := { List := list, Get := getNothing }
    importedServiceStore := fun _ => []
    namespace_ := "istio-system" }

/-- Scenario B: the local ingress is an OpenShift router and the service `catalog` of `ns2`, on
port 8080, is exported. -/
def factoryScenarioB : ConfigFactory :=
  routerFactoryWith [selectorExport] (fun _ => .ok [svcCatalog])

/-- Router-fronted local peer with two selectors; the listing of the first one fails, the second
one matches `catalog`. -/
def routerFactoryFirstFails : ConfigFactory :=
  routerFactoryWith [selectorTeam, selectorExport]
    (fun labels => if labels = selectorTeam.MatchLabels then .error errUnavailable
      else .ok [svcCatalog])

/-- A factory for which every operation produces objects: the local peer `west` is behind an
OpenShift router and exports `catalog`; the remote `rA`, behind a router too, imports `billing`,
which does not exist locally, and `catalog`, which does. -/
def factoryAllObjects : ConfigFactory :=
  { cfg := {
      MeshPeers := { Local := routerLocal, Remotes := [remoteA] }
      ExportedServiceSet := { GetLabelSelectors := [selectorExport] } }
    serviceLister := {
      List := fun _ => .ok [svcCatalog]
      Get := fun svcNs svcName =>
        if svcNs = "ns2" ∧ svcName = "catalog" then .ok svcCatalog else .error errNotFound }
    importedServiceStore := fun _ => [importedBilling, importedCatalog]
    namespace_ := "istio-system" }

/-- A client with one handler, registered for the type `exported-services`, that returns an
error on every call. -/
def adscFailingHandler : ADSCConfig :=
  { DiscoveryAddr := "peer:15080"
    InitialDiscoveryRequests := []
    Handlers := [("exported-services", { Handle := fun _ => some "cannot store" })] }

/-- Two messages, one of the registered type and one of another type. -/
def sampleMessages : List DiscoveryResponse :=
  [{ TypeUrl := "exported-services", Resources := ["billing"] },
    { TypeUrl := "unknown", Resources := ["x"] }]

/-- Remote `rA` imports a service whose hostname has no dot. -/
def factoryDotless : ConfigFactory :=
  factoryOver [remoteA] (fun _ => [{ Hostname := "localhost", Labels := [], Ports := [] }])
    getNothing

/-- Scenario B with the controller in the namespace `federation` instead of `istio-system`. -/
def routerFactoryOtherNamespace : ConfigFactory :=
  { factoryScenarioB with namespace_ := "federation" }

/-! ## Facts about strings and sorting -/

theorem stringLE_iff (a b : String) : stringLE a b ↔ a ≤ b := by
  unfold stringLE
  exact String.le_iff_toList_le.symm

theorem sortStrings_sorted (xs : List String) : List.Sorted stringLE (sortStrings xs) :=
  List.sorted_insertionSort stringLE xs

theorem sortStrings_perm (xs : List String) : (sortStrings xs).Perm xs :=
  List.perm_insertionSort stringLE xs

theorem sortStrings_eq_of_perm {xs ys : List String} (h : xs.Perm ys) :
    sortStrings xs = sortStrings ys :=
  List.eq_of_perm_of_sorted
    (((sortStrings_perm xs).trans h).trans (sortStrings_perm ys).symm)
    (sortStrings_sorted xs) (sortStrings_sorted ys)

/-! ## Facts about the loop of IngressGateway -/

theorem foldl_append_serviceHost (services : List Service) (hosts : List String) :
    services.foldl (fun hosts svc => hosts ++ [serviceHost svc]) hosts =
      hosts ++ services.map serviceHost := by
  induction services generalizing hosts with
  | nil => simp
  | cons svc rest ih => simp [ih]

theorem collectExportedHosts_ok_eq (lister : ServiceLister) (sels : List LabelSelectors)
    (hosts out : List String) (h : collectExportedHosts lister sels hosts = .ok out) :
    out = hosts ++ listedHosts lister sels := by
  induction sels generalizing hosts with
  | nil =>
    simp only [collectExportedHosts, Except.ok.injEq] at h
    simp [listedHosts, h]
  | cons sel rest ih =>
    unfold collectExportedHosts at h
    cases hl : lister.List sel.MatchLabels with
    | error err => simp [hl] at h
    | ok services =>
      simp only [hl] at h
      rw [ih _ h, foldl_append_serviceHost]
      simp [listedHosts, hl]

theorem collectExportedHosts_of_ok (lister : ServiceLister) (sels : List LabelSelectors)
    (hosts : List String)
    (hok : ∀ sel ∈ sels, ∃ services, lister.List sel.MatchLabels = .ok services) :
    collectExportedHosts lister sels hosts = .ok (hosts ++ listedHosts lister sels) := by
  induction sels generalizing hosts with
  | nil => simp [collectExportedHosts, listedHosts]
  | cons sel rest ih =>
    obtain ⟨services, hl⟩ := hok sel (List.mem_cons_self _ _)
    unfold collectExportedHosts
    simp only [hl]
    rw [ih _ (fun s hs => hok s (List.mem_cons_of_mem _ hs)), foldl_append_serviceHost]
    simp [listedHosts, hl]

theorem collectExportedHosts_first_failure (lister : ServiceLister)
    (before after : List LabelSelectors) (sel : LabelSelectors) (cause : APIError)
    (hosts : List String)
    (hok : ∀ s ∈ before, ∃ services, lister.List s.MatchLabels = .ok services)
    (hfail : lister.List sel.MatchLabels = .error cause) :
    collectExportedHosts lister (before ++ sel :: after) hosts =
      .error (Error.listServices sel.MatchLabels cause) := by
  induction before generalizing hosts with
  | nil => simp [collectExportedHosts, hfail]
  | cons s rest ih =>
    obtain ⟨services, hl⟩ := hok s (List.mem_cons_self _ _)
    simp only [List.cons_append, collectExportedHosts, hl]
    exact ih _ (fun t ht => hok t (List.mem_cons_of_mem _ ht))

theorem collectExportedHosts_error_iff (lister : ServiceLister) (sels : List LabelSelectors)
    (hosts : List String) :
    (∃ err, collectExportedHosts lister sels hosts = .error err) ↔
      ∃ sel ∈ sels, ∃ cause, lister.List sel.MatchLabels = .error cause := by
  induction sels generalizing hosts with
  | nil => simp [collectExportedHosts]
  | cons sel rest ih =>
    unfold collectExportedHosts
    cases hl : lister.List sel.MatchLabels with
    | error cause =>
      simp only [List.mem_cons, exists_eq_or_imp, hl]
      constructor
      · intro _
        exact Or.inl ⟨cause, rfl⟩
      · intro _
        exact ⟨_, rfl⟩
    | ok services =>
      simp only [List.mem_cons, exists_eq_or_imp, hl]
      rw [ih]
      simp

theorem mem_listedHosts (lister : ServiceLister) (sels : List LabelSelectors) (h : String) :
    h ∈ listedHosts lister sels ↔
      ∃ sel ∈ sels, ∃ services, lister.List sel.MatchLabels = .ok services ∧
        ∃ svc ∈ services, h = svc.Name ++ "." ++ svc.Namespace ++ ".svc.cluster.local" := by
  induction sels with
  | nil => simp [listedHosts]
  | cons sel rest ih =>
    simp only [listedHosts, List.mem_append, ih, List.mem_cons, exists_eq_or_imp]
    apply or_congr_left
    cases hl : lister.List sel.MatchLabels with
    | error cause => simp
    | ok services =>
      simp only [List.mem_map, serviceHost, Except.ok.injEq, exists_eq_left']
      constructor
      · rintro ⟨svc, hsvc, rfl⟩
        exact ⟨svc, hsvc, rfl⟩
      · rintro ⟨svc, hsvc, rfl⟩
        exact ⟨svc, hsvc, rfl⟩

theorem IngressGateway_ok_hosts (cf : ConfigFactory) (gateway : Gateway)
    (h : IngressGateway cf = .ok gateway) :
    gatewayHosts gateway = sortStrings (localDiscoveryHost cf ::
      listedHosts cf.serviceLister cf.cfg.ExportedServiceSet.GetLabelSelectors) := by
  unfold IngressGateway at h
  cases hc : collectExportedHosts cf.serviceLister cf.cfg.ExportedServiceSet.GetLabelSelectors
      [localDiscoveryHost cf] with
  | error err => simp [hc] at h
  | ok hosts =>
    simp only [hc, Except.ok.injEq] at h
    rw [← h, collectExportedHosts_ok_eq _ _ _ _ hc]
    simp [gatewayHosts]


theorem collectExportedHosts_perm (l₁ l₂ : ServiceLister) (sels : List LabelSelectors)
    (hosts₁ hosts₂ : List String) (hp : hosts₁.Perm hosts₂)
    (h : ∀ sel ∈ sels, sameUpToOrder (l₁.List sel.MatchLabels) (l₂.List sel.MatchLabels)) :
    match collectExportedHosts l₁ sels hosts₁, collectExportedHosts l₂ sels hosts₂ with
    | .ok out₁, .ok out₂ => out₁.Perm out₂
    | .error e₁, .error e₂ => e₁ = e₂
    | _, _ => False := by
  induction sels generalizing hosts₁ hosts₂ with
  | nil => simpa [collectExportedHosts] using hp
  | cons sel rest ih =>
    have hsel := h sel (List.mem_cons_self _ _)
    have hrest := fun s hs => h s (List.mem_cons_of_mem sel hs)
    unfold collectExportedHosts
    cases h₁ : l₁.List sel.MatchLabels <;> cases h₂ : l₂.List sel.MatchLabels <;>
      simp only [h₁, h₂, sameUpToOrder] at hsel ⊢
    · rw [hsel]
    · apply ih _ _ _ hrest
      rw [foldl_append_serviceHost, foldl_append_serviceHost]
      exact hp.append (hsel.map _)

/-! ## Facts about maps -/

theorem mem_mapSet {V : Type} (m : List (String × V)) (k : String) (v : V) (p : String × V)
    (h : p ∈ mapSet m k v) : p ∈ m ∨ p = (k, v) := by
  induction m with
  | nil =>
    simp only [mapSet, List.mem_singleton] at h
    exact Or.inr h
  | cons kv rest ih =>
    obtain ⟨k', v'⟩ := kv
    simp only [mapSet] at h
    split at h
    · rcases List.mem_cons.mp h with h | h
      · exact Or.inr h
      · exact Or.inl (List.mem_cons_of_mem _ h)
    · rcases List.mem_cons.mp h with h | h
      · exact Or.inl (h ▸ List.mem_cons_self _ _)
      · rcases ih h with h | h
        · exact Or.inl (List.mem_cons_of_mem _ h)
        · exact Or.inr h

theorem mapGet_mapSet_self {V : Type} (m : List (String × V)) (k : String) (v : V) :
    mapGet (mapSet m k v) k = some v := by
  induction m with
  | nil => simp [mapSet, mapGet]
  | cons kv rest ih =>
    obtain ⟨k', v'⟩ := kv
    by_cases hk : k' = k
    · simp [mapSet, mapGet, hk]
    · simp [mapSet, mapGet, hk, ih]

theorem mapGet_mapSet_of_ne {V : Type} (m : List (String × V)) (k k' : String) (v : V)
    (hne : k' ≠ k) : mapGet (mapSet m k v) k' = mapGet m k' := by
  induction m with
  | nil =>
    have hne' : ¬ k = k' := fun h => hne h.symm
    simp [mapSet, mapGet, hne']
  | cons kv rest ih =>
    obtain ⟨k₀, v₀⟩ := kv
    by_cases hk : k₀ = k
    · subst hk
      have hne' : ¬ k₀ = k' := fun h => hne h.symm
      simp [mapSet, mapGet, hne']
    · by_cases hk' : k₀ = k'
      · subst hk'
        simp [mapSet, mapGet, hk]
      · simp [mapSet, mapGet, hk, hk', ih]

theorem mem_of_mapGet {V : Type} (m : List (String × V)) (k : String) (v : V)
    (h : mapGet m k = some v) : (k, v) ∈ m := by
  induction m with
  | nil => simp [mapGet] at h
  | cons kv rest ih =>
    obtain ⟨k', v'⟩ := kv
    simp only [mapGet] at h
    split at h
    · rename_i hk
      simp only [Option.some.injEq] at h
      subst hk h
      exact List.mem_cons_self _ _
    · exact List.mem_cons_of_mem _ (ih h)

/-! ## Probes and early ends of the loops -/

theorem firstStop_append (cf : ConfigFactory) (xs ys : List String) :
    firstStop cf (xs ++ ys) =
      match firstStop cf xs with
      | some stop => some stop
      | none => firstStop cf ys := by
  induction xs with
  | nil => simp [firstStop]
  | cons x rest ih =>
    simp only [List.cons_append, firstStop]
    split
    · exact ih
    · rfl

theorem firstStop_eq_none_iff (cf : ConfigFactory) (hs : List String) :
    firstStop cf hs = none ↔ ∀ h ∈ hs, (probe cf h).completes = true := by
  induction hs with
  | nil => simp [firstStop]
  | cons x rest ih =>
    simp only [firstStop, List.mem_cons, forall_eq_or_imp]
    split
    · rename_i hx
      simp [ih, hx]
    · rename_i hx
      simp [hx]

theorem serviceEntriesStep_found (deps : Deps) (cf : ConfigFactory) (remote : Remote)
    (resolution : Resolution) (byName : List (String × ServiceEntry)) (svc : ImportedService)
    (h : probe cf svc.Hostname = Probe.found) :
    serviceEntriesStep deps cf remote resolution byName svc = .ok byName := by
  unfold probe at h
  unfold serviceEntriesStep
  cases hn : getServiceNameAndNs svc.Hostname with
  | none => simp [hn] at h
  | some names =>
    obtain ⟨svcName, svcNs⟩ := names
    simp only [hn] at h ⊢
    cases hg : cf.serviceLister.Get svcNs svcName with
    | ok found => rfl
    | error err =>
      simp only [hg] at h
      split at h <;> simp at h

theorem serviceEntriesStep_stop (deps : Deps) (cf : ConfigFactory) (remote : Remote)
    (resolution : Resolution) (byName : List (String × ServiceEntry)) (svc : ImportedService)
    (h : (probe cf svc.Hostname).completes = false) :
    stopOf (serviceEntriesStep deps cf remote resolution byName svc) =
      some (probe cf svc.Hostname) := by
  unfold probe at h ⊢
  unfold serviceEntriesStep
  cases hn : getServiceNameAndNs svc.Hostname with
  | none => simp [stopOf]
  | some names =>
    obtain ⟨svcName, svcNs⟩ := names
    simp only [hn] at h ⊢
    cases hg : cf.serviceLister.Get svcNs svcName with
    | ok found => simp [hg, Probe.completes] at h
    | error err =>
      simp only [hg] at h ⊢
      by_cases hnf : IsNotFound err = true
      · simp [hnf, Probe.completes] at h
      · simp [hnf, stopOf]

theorem serviceEntriesStep_notFound (deps : Deps) (cf : ConfigFactory) (remote : Remote)
    (resolution : Resolution) (byName : List (String × ServiceEntry)) (svc : ImportedService)
    (h : probe cf svc.Hostname = Probe.notFound) :
    (∃ entry, mapGet byName (svcEntryName svc remote) = some entry ∧
      serviceEntriesStep deps cf remote resolution byName svc =
        .ok (mapSet byName (svcEntryName svc remote)
          { entry with
            Spec := { entry.Spec with
              Endpoints := entry.Spec.Endpoints ++ importedEndpoints deps remote svc } })) ∨
    (mapGet byName (svcEntryName svc remote) = none ∧
      ∃ ports, serviceEntriesStep deps cf remote resolution byName svc =
        .ok (mapSet byName (svcEntryName svc remote)
          { ObjectMeta := {
              Name := svcEntryName svc remote
              Namespace := cf.cfg.MeshPeers.Local.ControlPlane.Namespace
              Labels := peerLabels }
            Spec := {
              Hosts := [svc.Hostname]
              Ports := ports
              Endpoints := importedEndpoints deps remote svc
              Location := Location.MESH_INTERNAL
              Resolution := resolution } })) := by
  unfold probe at h
  unfold serviceEntriesStep
  cases hn : getServiceNameAndNs svc.Hostname with
  | none => simp [hn] at h
  | some names =>
    obtain ⟨svcName, svcNs⟩ := names
    simp only [hn] at h ⊢
    cases hg : cf.serviceLister.Get svcNs svcName with
    | ok found => simp [hg] at h
    | error err =>
      simp only [hg] at h ⊢
      by_cases hnf : IsNotFound err = true
      · simp only [hnf, Bool.not_true, Bool.false_eq_true, if_false]
        cases hm : mapGet byName (svcEntryName svc remote) with
        | none => exact Or.inr ⟨rfl, _, rfl⟩
        | some entry => exact Or.inl ⟨entry, rfl, rfl⟩
      · simp [hnf] at h

theorem Probe.completes_iff (p : Probe) :
    p.completes = true ↔ p = Probe.found ∨ p = Probe.notFound := by
  cases p <;> simp [Probe.completes]

theorem serviceEntriesStep_ok_of_completes (deps : Deps) (cf : ConfigFactory) (remote : Remote)
    (resolution : Resolution) (byName : List (String × ServiceEntry)) (svc : ImportedService)
    (h : (probe cf svc.Hostname).completes = true) :
    ∃ byName', serviceEntriesStep deps cf remote resolution byName svc = .ok byName' := by
  rcases (Probe.completes_iff _).mp h with hf | hnf
  · exact ⟨_, serviceEntriesStep_found deps cf remote resolution byName svc hf⟩
  · rcases serviceEntriesStep_notFound deps cf remote resolution byName svc hnf with
      ⟨entry, _, hs⟩ | ⟨_, ports, hs⟩
    · exact ⟨_, hs⟩
    · exact ⟨_, hs⟩

/-! ## How the loops of ServiceEntries end -/

theorem serviceEntriesForImported_stop (deps : Deps) (cf : ConfigFactory) (remote : Remote)
    (resolution : Resolution) (svcs : List ImportedService)
    (byName : List (String × ServiceEntry)) :
    stopOf (serviceEntriesForImported deps cf remote resolution svcs byName) =
      firstStop cf (svcs.map (·.Hostname)) := by
  induction svcs generalizing byName with
  | nil => simp [serviceEntriesForImported, firstStop, stopOf]
  | cons svc rest ih =>
    simp only [serviceEntriesForImported, List.map_cons, firstStop]
    by_cases hc : (probe cf svc.Hostname).completes = true
    · obtain ⟨byName', hs⟩ :=
        serviceEntriesStep_ok_of_completes deps cf remote resolution byName svc hc
      simp only [hs, hc, if_true]
      exact ih byName'
    · have hc' : (probe cf svc.Hostname).completes = false := by simpa using hc
      have hs := serviceEntriesStep_stop deps cf remote resolution byName svc hc'
      simp only [hc', Bool.false_eq_true, if_false]
      cases hstep : serviceEntriesStep deps cf remote resolution byName svc with
      | ok value => simp [hstep, stopOf] at hs
      | error err => simpa [hstep, stopOf] using hs
      | panic site => simpa [hstep, stopOf] using hs

theorem remotesWithAddress_cons (remote : Remote) (rest : List Remote) :
    remotesWithAddress (remote :: rest) =
      if remote.Addresses = [] then remotesWithAddress rest
      else remote :: remotesWithAddress rest := by
  unfold remotesWithAddress
  by_cases h : remote.Addresses = [] <;> simp [List.filter_cons, h]

theorem serviceEntriesLoop_stop (deps : Deps) (cf : ConfigFactory) (remotes : List Remote)
    (serviceEntries : List ServiceEntry) (byName : List (String × ServiceEntry)) :
    stopOf (serviceEntriesLoop deps cf remotes (serviceEntries, byName)) =
      firstStop cf (importedHostnames cf (remotesWithAddress remotes)) := by
  induction remotes generalizing serviceEntries byName with
  | nil => simp [serviceEntriesLoop, importedHostnames, remotesWithAddress, firstStop, stopOf]
  | cons remote rest ih =>
    rw [remotesWithAddress_cons]
    simp only [serviceEntriesLoop]
    cases haddr : remote.Addresses with
    | nil => simpa using ih serviceEntries byName
    | cons firstAddress others =>
      simp only [List.length_cons, Nat.add_one_ne_zero, if_false, reduceCtorEq,
        serviceEntryForRemoteFederationController, haddr]
      have hinner := serviceEntriesForImported_stop deps cf remote
        (resolutionFor deps firstAddress) (cf.importedServiceStore remote) byName
      simp only [importedHostnames, List.flatMap_cons]
      rw [firstStop_append, ← hinner]
      cases hi : serviceEntriesForImported deps cf remote (resolutionFor deps firstAddress)
          (cf.importedServiceStore remote) byName with
      | ok byName' =>
        simp only [stopOf]
        exact ih _ byName'
      | error err => simp [stopOf]
      | panic site => simp [stopOf]

theorem ServiceEntries_stop (deps : Deps) (cf : ConfigFactory)
    (valuesOrder : List ServiceEntry → List ServiceEntry) :
    stopOf (ServiceEntries deps cf valuesOrder) =
      firstStop cf (importedHostnames cf (remotesWithAddress cf.cfg.MeshPeers.Remotes)) := by
  rw [← serviceEntriesLoop_stop deps cf cf.cfg.MeshPeers.Remotes [] []]
  unfold ServiceEntries
  cases serviceEntriesLoop deps cf cf.cfg.MeshPeers.Remotes ([], []) with
  | ok state => rfl
  | error err => rfl
  | panic site => rfl

/-! ## How the loops of WorkloadEntries end -/

theorem workloadEntriesForImported_stop (deps : Deps) (cf : ConfigFactory) (remote : Remote)
    (svcs : List ImportedService) (workloadEntries : List WorkloadEntry) :
    stopOf (workloadEntriesForImported deps cf remote svcs workloadEntries) =
      firstStop cf (svcs.map (·.Hostname)) := by
  induction svcs generalizing workloadEntries with
  | nil => simp [workloadEntriesForImported, firstStop, stopOf]
  | cons svc rest ih =>
    simp only [workloadEntriesForImported, List.map_cons, firstStop, probe]
    cases hn : getServiceNameAndNs svc.Hostname with
    | none => simp [stopOf, Probe.completes]
    | some names =>
      obtain ⟨svcName, svcNs⟩ := names
      simp only
      cases hg : cf.serviceLister.Get svcNs svcName with
      | ok found =>
        simp only [Probe.completes, if_true]
        exact ih _
      | error err =>
        by_cases hnf : IsNotFound err = true
        · simp only [hnf, Bool.not_true, Bool.false_eq_true, if_false, if_true,
            Probe.completes]
          exact ih _
        · simp [hnf, stopOf, Probe.completes]

theorem workloadEntriesLoop_stop (deps : Deps) (cf : ConfigFactory) (remotes : List Remote)
    (workloadEntries : List WorkloadEntry) :
    stopOf (workloadEntriesLoop deps cf remotes workloadEntries) =
      firstStop cf (importedHostnames cf remotes) := by
  induction remotes generalizing workloadEntries with
  | nil => simp [workloadEntriesLoop, importedHostnames, firstStop, stopOf]
  | cons remote rest ih =>
    have hinner := workloadEntriesForImported_stop deps cf remote
      (cf.importedServiceStore remote) workloadEntries
    simp only [workloadEntriesLoop, importedHostnames, List.flatMap_cons]
    rw [firstStop_append, ← hinner]
    cases hi : workloadEntriesForImported deps cf remote (cf.importedServiceStore remote)
        workloadEntries with
    | ok workloadEntries' =>
      simp only [stopOf]
      exact ih workloadEntries'
    | error err => simp [stopOf]
    | panic site => simp [stopOf]

/-! ## What the loops of ServiceEntries keep true of the map -/

theorem Holds_mapSet_append (byName : List (String × ServiceEntry)) (key : String)
    (entry : ServiceEntry) (added : List WorkloadEntrySpec)
    (hget : mapGet byName key = some entry) (key' : String) (endpoints : List WorkloadEntrySpec)
    (h : Holds byName key' endpoints) :
    Holds (mapSet byName key
      { entry with Spec := { entry.Spec with Endpoints := entry.Spec.Endpoints ++ added } })
      key' endpoints := by
  obtain ⟨held, hheld, hsub⟩ := h
  by_cases hk : key' = key
  · subst hk
    rw [hget] at hheld
    simp only [Option.some.injEq] at hheld
    subst hheld
    exact ⟨_, mapGet_mapSet_self _ _ _, fun ep hep => List.mem_append_left _ (hsub ep hep)⟩
  · exact ⟨held, by rw [mapGet_mapSet_of_ne _ _ _ _ hk]; exact hheld, hsub⟩

theorem Holds_mapSet_new (byName : List (String × ServiceEntry)) (key : String)
    (entry : ServiceEntry) (hget : mapGet byName key = none) (key' : String)
    (endpoints : List WorkloadEntrySpec) (h : Holds byName key' endpoints) :
    Holds (mapSet byName key entry) key' endpoints := by
  obtain ⟨held, hheld, hsub⟩ := h
  by_cases hk : key' = key
  · subst hk
    rw [hget] at hheld
    exact absurd hheld (by simp)
  · exact ⟨held, by rw [mapGet_mapSet_of_ne _ _ _ _ hk]; exact hheld, hsub⟩

theorem serviceEntriesStep_mono (deps : Deps) (cf : ConfigFactory) (remote : Remote)
    (resolution : Resolution) (byName byName' : List (String × ServiceEntry))
    (svc : ImportedService)
    (hstep : serviceEntriesStep deps cf remote resolution byName svc = .ok byName')
    (key : String) (endpoints : List WorkloadEntrySpec) (h : Holds byName key endpoints) :
    Holds byName' key endpoints := by
  have hc : (probe cf svc.Hostname).completes = true := by
    by_contra hc
    have hs := serviceEntriesStep_stop deps cf remote resolution byName svc (by simpa using hc)
    simp [hstep, stopOf] at hs
  rcases (Probe.completes_iff _).mp hc with hf | hnf
  · rw [serviceEntriesStep_found deps cf remote resolution byName svc hf] at hstep
    simp only [Outcome.ok.injEq] at hstep
    exact hstep ▸ h
  · rcases serviceEntriesStep_notFound deps cf remote resolution byName svc hnf with
      ⟨entry, hget, hs⟩ | ⟨hget, ports, hs⟩
    · rw [hs] at hstep
      simp only [Outcome.ok.injEq] at hstep
      exact hstep ▸ Holds_mapSet_append byName _ entry _ hget key endpoints h
    · rw [hs] at hstep
      simp only [Outcome.ok.injEq] at hstep
      exact hstep ▸ Holds_mapSet_new byName _ _ hget key endpoints h

theorem serviceEntriesStep_holds (deps : Deps) (cf : ConfigFactory) (remote : Remote)
    (resolution : Resolution) (byName byName' : List (String × ServiceEntry))
    (svc : ImportedService) (hnf : probe cf svc.Hostname = Probe.notFound)
    (hstep : serviceEntriesStep deps cf remote resolution byName svc = .ok byName') :
    Holds byName' (svcEntryName svc remote) (importedEndpoints deps remote svc) := by
  rcases serviceEntriesStep_notFound deps cf remote resolution byName svc hnf with
    ⟨entry, hget, hs⟩ | ⟨hget, ports, hs⟩
  · rw [hs] at hstep
    simp only [Outcome.ok.injEq] at hstep
    exact hstep ▸ ⟨_, mapGet_mapSet_self _ _ _, fun ep hep => List.mem_append_right _ hep⟩
  · rw [hs] at hstep
    simp only [Outcome.ok.injEq] at hstep
    exact hstep ▸ ⟨_, mapGet_mapSet_self _ _ _, fun ep hep => hep⟩

theorem serviceEntriesStep_created (deps : Deps) (cf : ConfigFactory) (remote : Remote)
    (firstAddress : String) (others : List String)
    (byName byName' : List (String × ServiceEntry)) (svc : ImportedService)
    (hremote : remote ∈ cf.cfg.MeshPeers.Remotes)
    (haddr : remote.Addresses = firstAddress :: others)
    (hsvc : svc ∈ cf.importedServiceStore remote)
    (hinv : ∀ kv ∈ byName, CreatedFor deps cf kv.1 kv.2)
    (hstep : serviceEntriesStep deps cf remote (resolutionFor deps firstAddress) byName svc =
      .ok byName') :
    ∀ kv ∈ byName', CreatedFor deps cf kv.1 kv.2 := by
  have hc : (probe cf svc.Hostname).completes = true := by
    by_contra hc
    have hs := serviceEntriesStep_stop deps cf remote (resolutionFor deps firstAddress) byName svc
      (by simpa using hc)
    simp [hstep, stopOf] at hs
  rcases (Probe.completes_iff _).mp hc with hf | hnf
  · rw [serviceEntriesStep_found deps cf remote _ byName svc hf] at hstep
    simp only [Outcome.ok.injEq] at hstep
    exact hstep ▸ hinv
  · rcases serviceEntriesStep_notFound deps cf remote (resolutionFor deps firstAddress) byName svc
        hnf with ⟨entry, hget, hs⟩ | ⟨hget, ports, hs⟩
    · rw [hs] at hstep
      simp only [Outcome.ok.injEq] at hstep
      subst hstep
      intro kv hkv
      rcases mem_mapSet _ _ _ _ hkv with hold | hnew
      · exact hinv kv hold
      · subst hnew
        obtain ⟨r, hr, a, o, ha, s, hs', hp, hk, hn, hh, hres⟩ :=
          hinv _ (mem_of_mapGet _ _ _ hget)
        exact ⟨r, hr, a, o, ha, s, hs', hp, hk, hn, hh, hres⟩
    · rw [hs] at hstep
      simp only [Outcome.ok.injEq] at hstep
      subst hstep
      intro kv hkv
      rcases mem_mapSet _ _ _ _ hkv with hold | hnew
      · exact hinv kv hold
      · subst hnew
        exact ⟨remote, hremote, firstAddress, others, haddr, svc, hsvc, hnf, rfl, rfl, rfl, rfl⟩

theorem serviceEntriesForImported_spec (deps : Deps) (cf : ConfigFactory) (remote : Remote)
    (firstAddress : String) (others : List String)
    (hremote : remote ∈ cf.cfg.MeshPeers.Remotes)
    (haddr : remote.Addresses = firstAddress :: others)
    (svcs : List ImportedService) (byName byName' : List (String × ServiceEntry))
    (hsvcs : ∀ svc ∈ svcs, svc ∈ cf.importedServiceStore remote)
    (hinv : ∀ kv ∈ byName, CreatedFor deps cf kv.1 kv.2)
    (hloop : serviceEntriesForImported deps cf remote (resolutionFor deps firstAddress) svcs
      byName = .ok byName') :
    (∀ kv ∈ byName', CreatedFor deps cf kv.1 kv.2) ∧
    (∀ key endpoints, Holds byName key endpoints → Holds byName' key endpoints) ∧
    (∀ svc ∈ svcs, probe cf svc.Hostname = Probe.notFound →
      Holds byName' (svcEntryName svc remote) (importedEndpoints deps remote svc)) := by
  induction svcs generalizing byName with
  | nil =>
    simp only [serviceEntriesForImported, Outcome.ok.injEq] at hloop
    subst hloop
    exact ⟨hinv, fun _ _ h => h, by simp⟩
  | cons svc rest ih =>
    simp only [serviceEntriesForImported] at hloop
    cases hstep : serviceEntriesStep deps cf remote (resolutionFor deps firstAddress) byName svc with
    | error err => simp [hstep] at hloop
    | panic site => simp [hstep] at hloop
    | ok mid =>
      simp only [hstep] at hloop
      have hmid := serviceEntriesStep_created deps cf remote firstAddress others byName mid svc
        hremote haddr (hsvcs svc (List.mem_cons_self _ _)) hinv hstep
      obtain ⟨hinv', hmono, hhas⟩ :=
        ih mid (fun s hs => hsvcs s (List.mem_cons_of_mem _ hs)) hmid hloop
      refine ⟨hinv', ?_, ?_⟩
      · intro key endpoints h
        exact hmono _ _ (serviceEntriesStep_mono deps cf remote _ byName mid svc hstep _ _ h)
      · intro s hs hnf
        rcases List.mem_cons.mp hs with rfl | hs
        · exact hmono _ _ (serviceEntriesStep_holds deps cf remote _ byName mid s hnf hstep)
        · exact hhas s hs hnf

theorem serviceEntriesLoop_spec (deps : Deps) (cf : ConfigFactory) (remotes : List Remote)
    (serviceEntries serviceEntries' : List ServiceEntry)
    (byName byName' : List (String × ServiceEntry))
    (hremotes : ∀ remote ∈ remotes, remote ∈ cf.cfg.MeshPeers.Remotes)
    (hinv : ∀ kv ∈ byName, CreatedFor deps cf kv.1 kv.2)
    (hloop : serviceEntriesLoop deps cf remotes (serviceEntries, byName) =
      .ok (serviceEntries', byName')) :
    serviceEntries' = serviceEntries ++ discoveryEntries deps cf remotes ∧
    (∀ kv ∈ byName', CreatedFor deps cf kv.1 kv.2) ∧
    (∀ key endpoints, Holds byName key endpoints → Holds byName' key endpoints) ∧
    (∀ remote ∈ remotes, remote.Addresses ≠ [] → ∀ svc ∈ cf.importedServiceStore remote,
      probe cf svc.Hostname = Probe.notFound →
      Holds byName' (svcEntryName svc remote) (importedEndpoints deps remote svc)) := by
  induction remotes generalizing serviceEntries byName with
  | nil =>
    simp only [serviceEntriesLoop, Outcome.ok.injEq, Prod.mk.injEq] at hloop
    obtain ⟨rfl, rfl⟩ := hloop
    exact ⟨by simp [discoveryEntries, remotesWithAddress], hinv, fun _ _ h => h, by simp⟩
  | cons remote rest ih =>
    have hrest : ∀ r ∈ rest, r ∈ cf.cfg.MeshPeers.Remotes :=
      fun r hr => hremotes r (List.mem_cons_of_mem _ hr)
    simp only [serviceEntriesLoop] at hloop
    cases haddr : remote.Addresses with
    | nil =>
      simp only [haddr, List.length_nil, if_true] at hloop
      obtain ⟨hses, hinv', hmono, hhas⟩ := ih serviceEntries byName hrest hinv hloop
      refine ⟨?_, hinv', hmono, ?_⟩
      · rw [hses]
        simp [discoveryEntries, remotesWithAddress_cons, haddr]
      · intro r hr hne svc hsvc hnf
        rcases List.mem_cons.mp hr with rfl | hr
        · exact absurd haddr hne
        · exact hhas r hr hne svc hsvc hnf
    | cons firstAddress others =>
      simp only [haddr, List.length_cons, Nat.add_one_ne_zero, if_false,
        serviceEntryForRemoteFederationController] at hloop
      cases hi : serviceEntriesForImported deps cf remote (resolutionFor deps firstAddress)
          (cf.importedServiceStore remote) byName with
      | error err => simp [hi] at hloop
      | panic site => simp [hi] at hloop
      | ok mid =>
        simp only [hi] at hloop
        obtain ⟨hmidinv, hmidmono, hmidhas⟩ :=
          serviceEntriesForImported_spec deps cf remote firstAddress others
            (hremotes remote (List.mem_cons_self _ _)) haddr (cf.importedServiceStore remote)
            byName mid (fun _ h => h) hinv hi
        obtain ⟨hses, hinv', hmono, hhas⟩ := ih _ mid hrest hmidinv hloop
        refine ⟨?_, hinv', fun key eps h => hmono _ _ (hmidmono _ _ h), ?_⟩
        · rw [hses]
          simp [discoveryEntries, remotesWithAddress_cons, haddr,
            serviceEntryForRemoteFederationController]
        · intro r hr hne svc hsvc hnf
          rcases List.mem_cons.mp hr with rfl | hr
          · exact hmono _ _ (hmidhas svc hsvc hnf)
          · exact hhas r hr hne svc hsvc hnf

/-! ## The results of ServiceEntries and WorkloadEntries -/

theorem stopOf_eq_none {α : Type} (outcome : Outcome α) (h : stopOf outcome = none) :
    ∃ value, outcome = .ok value := by
  cases outcome with
  | ok value => exact ⟨value, rfl⟩
  | error err => simp [stopOf] at h
  | panic site => simp [stopOf] at h

theorem ServiceEntries_eq_ok (deps : Deps) (cf : ConfigFactory)
    (valuesOrder : List ServiceEntry → List ServiceEntry) (out : List ServiceEntry)
    (h : ServiceEntries deps cf valuesOrder = .ok out) :
    ∃ byName, out = discoveryEntries deps cf cf.cfg.MeshPeers.Remotes ++
        valuesOrder (mapValues byName) ∧
      (∀ kv ∈ byName, CreatedFor deps cf kv.1 kv.2) ∧
      (∀ remote ∈ cf.cfg.MeshPeers.Remotes, remote.Addresses ≠ [] →
        ∀ svc ∈ cf.importedServiceStore remote, probe cf svc.Hostname = Probe.notFound →
        Holds byName (svcEntryName svc remote) (importedEndpoints deps remote svc)) := by
  unfold ServiceEntries at h
  cases hl : serviceEntriesLoop deps cf cf.cfg.MeshPeers.Remotes ([], []) with
  | error err => simp [hl] at h
  | panic site => simp [hl] at h
  | ok state =>
    obtain ⟨serviceEntries, byName⟩ := state
    simp only [hl, Outcome.ok.injEq] at h
    obtain ⟨hses, hinv, _, hhas⟩ := serviceEntriesLoop_spec deps cf cf.cfg.MeshPeers.Remotes
      [] serviceEntries [] byName (fun _ hr => hr) (by simp) hl
    refine ⟨byName, ?_, hinv, hhas⟩
    rw [← h, hses]
    simp

theorem workloadEntriesForImported_eq (deps : Deps) (cf : ConfigFactory) (remote : Remote)
    (svcs : List ImportedService) (workloadEntries out : List WorkloadEntry)
    (h : workloadEntriesForImported deps cf remote svcs workloadEntries = .ok out) :
    out = workloadEntries ++ svcs.flatMap (workloadEntriesOf deps cf remote) := by
  induction svcs generalizing workloadEntries with
  | nil =>
    simp only [workloadEntriesForImported, Outcome.ok.injEq] at h
    simp [h]
  | cons svc rest ih =>
    simp only [workloadEntriesForImported] at h
    simp only [List.flatMap_cons, workloadEntriesOf]
    cases hn : getServiceNameAndNs svc.Hostname with
    | none => simp [hn] at h
    | some names =>
      obtain ⟨svcName, svcNs⟩ := names
      simp only [hn] at h ⊢
      cases hg : cf.serviceLister.Get svcNs svcName with
      | ok found =>
        simp only [hg] at h
        rw [ih _ h]
        simp
      | error err =>
        simp only [hg] at h
        by_cases hnf : IsNotFound err = true
        · simp only [hnf, Bool.not_true, Bool.false_eq_true, if_false] at h
          rw [ih _ h]
          simp
        · simp [hnf] at h

theorem workloadEntriesLoop_eq (deps : Deps) (cf : ConfigFactory) (remotes : List Remote)
    (workloadEntries out : List WorkloadEntry)
    (h : workloadEntriesLoop deps cf remotes workloadEntries = .ok out) :
    out = workloadEntries ++ remotes.flatMap fun remote =>
      (cf.importedServiceStore remote).flatMap (workloadEntriesOf deps cf remote) := by
  induction remotes generalizing workloadEntries with
  | nil =>
    simp only [workloadEntriesLoop, Outcome.ok.injEq] at h
    simp [h]
  | cons remote rest ih =>
    simp only [workloadEntriesLoop] at h
    cases hi : workloadEntriesForImported deps cf remote (cf.importedServiceStore remote)
        workloadEntries with
    | error err => simp [hi] at h
    | panic site => simp [hi] at h
    | ok mid =>
      simp only [hi] at h
      rw [ih _ h, workloadEntriesForImported_eq deps cf remote _ _ _ hi]
      simp

theorem WorkloadEntries_eq_ok (deps : Deps) (cf : ConfigFactory) (out : List WorkloadEntry)
    (h : WorkloadEntries deps cf = .ok out) :
    out = cf.cfg.MeshPeers.Remotes.flatMap fun remote =>
      (cf.importedServiceStore remote).flatMap (workloadEntriesOf deps cf remote) := by
  simpa using workloadEntriesLoop_eq deps cf cf.cfg.MeshPeers.Remotes [] out h

theorem completes_of_cases (cf : ConfigFactory) (hs : List String)
    (h : ∀ x ∈ hs, probe cf x = Probe.found ∨ probe cf x = Probe.notFound) :
    firstStop cf hs = none :=
  (firstStop_eq_none_iff cf hs).mpr fun x hx => (Probe.completes_iff _).mpr (h x hx)

theorem mem_importedHostnames (cf : ConfigFactory) (remotes : List Remote) (remote : Remote)
    (svc : ImportedService) (hr : remote ∈ remotes) (hs : svc ∈ cf.importedServiceStore remote) :
    svc.Hostname ∈ importedHostnames cf remotes := by
  unfold importedHostnames
  exact List.mem_flatMap.mpr ⟨remote, hr, List.mem_map_of_mem _ hs⟩

theorem mem_remotesWithAddress (remotes : List Remote) (remote : Remote) :
    remote ∈ remotesWithAddress remotes ↔ remote ∈ remotes ∧ remote.Addresses ≠ [] := by
  simp [remotesWithAddress]

theorem importedHostnames_withAddress_subset (cf : ConfigFactory) (remotes : List Remote)
    (x : String) (hx : x ∈ importedHostnames cf (remotesWithAddress remotes)) :
    x ∈ importedHostnames cf remotes := by
  unfold importedHostnames at hx ⊢
  obtain ⟨remote, hr, hmem⟩ := List.mem_flatMap.mp hx
  exact List.mem_flatMap.mpr ⟨remote, ((mem_remotesWithAddress _ _).mp hr).1, hmem⟩

theorem workloadEntriesOf_ne_nil (deps : Deps) (cf : ConfigFactory) (remote : Remote)
    (svc : ImportedService) (h : workloadEntriesOf deps cf remote svc ≠ []) :
    probe cf svc.Hostname = Probe.found := by
  unfold workloadEntriesOf at h
  unfold probe
  cases hn : getServiceNameAndNs svc.Hostname with
  | none => simp [hn] at h
  | some names =>
    obtain ⟨svcName, svcNs⟩ := names
    simp only [hn] at h ⊢
    cases hg : cf.serviceLister.Get svcNs svcName with
    | ok found => rfl
    | error err => simp [hg] at h

/-! ## Remotes without address and the discovery entries -/

theorem serviceEntriesStep_congr (deps : Deps) (cf cf' : ConfigFactory)
    (hlister : cf'.serviceLister = cf.serviceLister)
    (hlocal : cf'.cfg.MeshPeers.Local = cf.cfg.MeshPeers.Local) (remote : Remote)
    (resolution : Resolution) (byName : List (String × ServiceEntry)) (svc : ImportedService) :
    serviceEntriesStep deps cf' remote resolution byName svc =
      serviceEntriesStep deps cf remote resolution byName svc := by
  unfold serviceEntriesStep
  rw [hlister, hlocal]

theorem serviceEntriesForImported_congr (deps : Deps) (cf cf' : ConfigFactory)
    (hlister : cf'.serviceLister = cf.serviceLister)
    (hlocal : cf'.cfg.MeshPeers.Local = cf.cfg.MeshPeers.Local) (remote : Remote)
    (resolution : Resolution) (svcs : List ImportedService)
    (byName : List (String × ServiceEntry)) :
    serviceEntriesForImported deps cf' remote resolution svcs byName =
      serviceEntriesForImported deps cf remote resolution svcs byName := by
  induction svcs generalizing byName with
  | nil => rfl
  | cons svc rest ih =>
    simp only [serviceEntriesForImported,
      serviceEntriesStep_congr deps cf cf' hlister hlocal, ih]

theorem serviceEntriesLoop_congr (deps : Deps) (cf' cf : ConfigFactory)
    (hlister : cf'.serviceLister = cf.serviceLister)
    (hstore : cf'.importedServiceStore = cf.importedServiceStore)
    (hlocal : cf'.cfg.MeshPeers.Local = cf.cfg.MeshPeers.Local) (remotes : List Remote)
    (state : List ServiceEntry × List (String × ServiceEntry)) :
    serviceEntriesLoop deps cf' remotes state = serviceEntriesLoop deps cf remotes state := by
  induction remotes generalizing state with
  | nil => rfl
  | cons remote rest ih =>
    obtain ⟨serviceEntries, byName⟩ := state
    simp only [serviceEntriesLoop, serviceEntryForRemoteFederationController, hstore, hlocal,
      serviceEntriesForImported_congr deps cf cf' hlister hlocal, ih]

theorem serviceEntriesLoop_withAddress (deps : Deps) (cf : ConfigFactory)
    (remotes : List Remote) (state : List ServiceEntry × List (String × ServiceEntry)) :
    serviceEntriesLoop deps cf (remotes.filter fun remote => remote.Addresses ≠ []) state =
      serviceEntriesLoop deps cf remotes state := by
  induction remotes generalizing state with
  | nil => rfl
  | cons remote rest ih =>
    obtain ⟨serviceEntries, byName⟩ := state
    cases haddr : remote.Addresses with
    | nil =>
      simp only [List.filter_cons, haddr, ne_eq, not_true_eq_false, decide_False,
        Bool.false_eq_true, if_false, serviceEntriesLoop, List.length_nil, if_true]
      exact ih _
    | cons firstAddress others =>
      simp only [List.filter_cons, haddr, ne_eq, reduceCtorEq, not_false_eq_true, decide_True,
        if_true, serviceEntriesLoop, List.length_cons, Nat.add_one_ne_zero, if_false,
        serviceEntryForRemoteFederationController]
      cases serviceEntriesForImported deps cf remote (resolutionFor deps firstAddress)
          (cf.importedServiceStore remote) byName with
      | ok mid => exact ih _
      | error err => rfl
      | panic site => rfl

theorem discoveryEntries_forall₂ (deps : Deps) (cf : ConfigFactory) (remotes : List Remote) :
    List.Forall₂
      (fun remote entry => ∃ firstAddress others,
        remote.Addresses = firstAddress :: others ∧
        serviceEntryForRemoteFederationController deps cf remote = some entry ∧
        entry.ObjectMeta.Name = deps.ServiceName remote ∧
        entry.Spec.Hosts = [deps.ServiceFQDN remote] ∧
        entry.Spec.Resolution =
          if deps.IsIP firstAddress then Resolution.STATIC else Resolution.DNS)
      (remotes.filter fun remote => remote.Addresses ≠ []) (discoveryEntries deps cf remotes) := by
  induction remotes with
  | nil => simp [discoveryEntries, remotesWithAddress]
  | cons remote rest ih =>
    cases haddr : remote.Addresses with
    | nil =>
      simpa [discoveryEntries, remotesWithAddress, List.filter_cons, haddr] using ih
    | cons firstAddress others =>
      have hcons : discoveryEntries deps cf (remote :: rest) =
          { ObjectMeta := {
              Name := deps.ServiceName remote
              Namespace := cf.cfg.MeshPeers.Local.ControlPlane.Namespace
              Labels := peerLabels }
            Spec := {
              Hosts := [deps.ServiceFQDN remote]
              Ports := [{ Name := "grpc", Number := deps.ServicePort remote, Protocol := "GRPC",
                          TargetPort := 0 }]
              Endpoints := (firstAddress :: others).map fun addr =>
                { Address := addr
                  Labels := [("security.istio.io/tlsMode", "istio")]
                  Ports := [("grpc", deps.GetPort remote)]
                  Network := remote.Network }
              Location := Location.MESH_INTERNAL
              Resolution := resolutionFor deps firstAddress } } ::
            discoveryEntries deps cf rest := by
        simp [discoveryEntries, remotesWithAddress, List.filter_cons, haddr,
          serviceEntryForRemoteFederationController]
      rw [hcons]
      simp only [List.filter_cons, haddr, ne_eq, reduceCtorEq, not_false_eq_true, decide_True,
        if_true]
      refine List.Forall₂.cons ?_ ih
      refine ⟨firstAddress, others, haddr, ?_, rfl, rfl, rfl⟩
      simp [serviceEntryForRemoteFederationController, haddr]

theorem ServiceEntries_withAddress (deps : Deps) (cf' cf : ConfigFactory)
    (valuesOrder : List ServiceEntry → List ServiceEntry)
    (hlister : cf'.serviceLister = cf.serviceLister)
    (hstore : cf'.importedServiceStore = cf.importedServiceStore)
    (hlocal : cf'.cfg.MeshPeers.Local = cf.cfg.MeshPeers.Local)
    (hremotes : cf'.cfg.MeshPeers.Remotes =
      cf.cfg.MeshPeers.Remotes.filter fun remote => remote.Addresses ≠ []) :
    ServiceEntries deps cf' valuesOrder = ServiceEntries deps cf valuesOrder := by
  unfold ServiceEntries
  rw [hremotes, serviceEntriesLoop_congr deps cf' cf hlister hstore hlocal,
    serviceEntriesLoop_withAddress]

theorem foldl_append_createEnvoyFilter (cf : ConfigFactory) (svc : Service) (ports : List Nat)
    (envoyFilters : List EnvoyFilter) :
    ports.foldl
        (fun envoyFilters port =>
          envoyFilters ++ [createEnvoyFilter cf svc.Name svc.Namespace port])
        envoyFilters =
      envoyFilters ++ ports.map (createEnvoyFilter cf svc.Name svc.Namespace) := by
  induction ports generalizing envoyFilters with
  | nil => simp
  | cons port rest ih => simp [ih]

theorem foldl_services_envoyFilters (cf : ConfigFactory) (services : List Service)
    (envoyFilters : List EnvoyFilter) :
    services.foldl
        (fun envoyFilters svc =>
          svc.Ports.foldl
            (fun envoyFilters port =>
              envoyFilters ++ [createEnvoyFilter cf svc.Name svc.Namespace port])
            envoyFilters)
        envoyFilters =
      envoyFilters ++ services.flatMap (envoyFiltersOf cf) := by
  induction services generalizing envoyFilters with
  | nil => simp
  | cons svc rest ih =>
    rw [List.foldl_cons, foldl_append_createEnvoyFilter, ih]
    simp [envoyFiltersOf]

theorem envoyFiltersLoop_eq (cf : ConfigFactory) (sels : List LabelSelectors)
    (envoyFilters : List EnvoyFilter) :
    envoyFiltersLoop cf sels envoyFilters =
      envoyFilters ++ (listedServices cf.serviceLister sels).flatMap (envoyFiltersOf cf) := by
  induction sels generalizing envoyFilters with
  | nil => simp [envoyFiltersLoop, listedServices]
  | cons sel rest ih =>
    simp only [envoyFiltersLoop, listedServices, ih, foldl_services_envoyFilters,
      List.flatMap_append, List.append_assoc]

theorem EnvoyFilters_router (cf : ConfigFactory)
    (h : cf.cfg.MeshPeers.Local.IngressType = IngressType.OpenShiftRouter) :
    EnvoyFilters cf =
      createEnvoyFilter cf ("federation-discovery-service-" ++ cf.cfg.MeshPeers.Local.Name)
          "istio-system" 15080 ::
        (listedServices cf.serviceLister cf.cfg.ExportedServiceSet.GetLabelSelectors).flatMap
          (envoyFiltersOf cf) := by
  unfold EnvoyFilters
  simp [h, envoyFiltersLoop_eq]

theorem length_flatMap_envoyFiltersOf (cf : ConfigFactory) (services : List Service) :
    (services.flatMap (envoyFiltersOf cf)).length =
      (services.map fun svc => svc.Ports.length).sum := by
  induction services with
  | nil => simp
  | cons svc rest ih => simp [List.flatMap_cons, envoyFiltersOf, ih]

theorem sum_ports_listedServices (lister : ServiceLister) (sels : List LabelSelectors) :
    ((listedServices lister sels).map fun svc => svc.Ports.length).sum =
      (sels.map fun sel =>
        match lister.List sel.MatchLabels with
        | .ok services => (services.map fun svc => svc.Ports.length).sum
        | .error _ => 0).sum := by
  induction sels with
  | nil => simp [listedServices]
  | cons sel rest ih =>
    simp only [listedServices, List.map_append, List.sum_append, ih, List.map_cons, List.sum_cons]
    cases lister.List sel.MatchLabels <;> simp

/-! ## Splitting at dots and joining with dashes -/

theorem splitChars_ne_nil (sep : Char) (cs : List Char) : splitChars sep cs ≠ [] := by
  cases cs with
  | nil => simp [splitChars]
  | cons c rest =>
    simp only [splitChars]
    split
    · simp
    · split <;> simp

theorem joinChars_splitChars (cs : List Char) :
    joinChars '-' (splitChars '.' cs) = cs.map fun c => if c = '.' then '-' else c := by
  induction cs with
  | nil => simp [splitChars, joinChars]
  | cons c rest ih =>
    simp only [splitChars, List.map_cons]
    by_cases hc : c = '.'
    · simp only [hc, if_true]
      cases hs : splitChars '.' rest with
      | nil => exact absurd hs (splitChars_ne_nil _ _)
      | cons w ws =>
        rw [hs] at ih
        simp only [joinChars, List.nil_append, ih]
    · simp only [hc, if_false]
      cases hs : splitChars '.' rest with
      | nil => exact absurd hs (splitChars_ne_nil _ _)
      | cons w ws =>
        rw [hs] at ih
        cases ws with
        | nil =>
          simp only [joinChars] at ih ⊢
          rw [ih]
        | cons w' ws' =>
          simp only [joinChars, List.cons_append] at ih ⊢
          rw [ih]

theorem intercalate_go_data (acc sep : String) (pieces : List (List Char)) :
    (String.intercalate.go acc sep (pieces.map String.mk)).data =
      acc.data ++ pieces.flatMap fun w => sep.data ++ w := by
  induction pieces generalizing acc with
  | nil => simp [String.intercalate.go]
  | cons w ws ih =>
    simp only [List.map_cons, String.intercalate.go, ih, String.data_append, List.flatMap_cons,
      List.append_assoc]

theorem flatMap_dash_eq (w : List Char) (ws : List (List Char)) :
    (w ++ ws.flatMap fun x => "-".data ++ x) = joinChars '-' (w :: ws) := by
  induction ws generalizing w with
  | nil => simp [joinChars]
  | cons w' ws' ih =>
    simp only [List.flatMap_cons, joinChars, List.append_assoc]
    rw [ih w']
    rfl

theorem separateWithDash_eq (hostname : String) :
    separateWithDash hostname = dotsToDashes hostname := by
  unfold separateWithDash stringsJoin stringsSplit dotsToDashes
  apply String.ext
  cases hs : splitChars '.' hostname.data with
  | nil => exact absurd hs (splitChars_ne_nil _ _)
  | cons w ws =>
    simp only [List.map_cons, String.intercalate, intercalate_go_data]
    rw [flatMap_dash_eq, ← hs, joinChars_splitChars]

/-! ## Facts about DestinationRules -/

theorem portLevelSettings_some (hostname svcName svcNs : String)
    (hn : getServiceNameAndNs hostname = some (svcName, svcNs)) (ports : List ServicePort)
    (settings : List PortTrafficPolicy) :
    portLevelSettings hostname ports settings =
      .ok (settings ++ ports.map fun port =>
        { Port := port.Number
          Tls := {
            Mode := ClientTLSMode.ISTIO_MUTUAL
            Sni := routerCompatibleSNI svcName svcNs port.Number } }) := by
  induction ports generalizing settings with
  | nil => simp [portLevelSettings]
  | cons port rest ih =>
    simp only [portLevelSettings, hn, ih, List.map_cons, List.append_assoc,
      List.singleton_append]

theorem portLevelSettings_none (hostname : String) (hn : getServiceNameAndNs hostname = none)
    (ports : List ServicePort) (settings : List PortTrafficPolicy) :
    portLevelSettings hostname ports settings =
      if ports = [] then .ok settings else .panic siteDomainLabels := by
  cases ports with
  | nil => simp [portLevelSettings]
  | cons port rest => simp [portLevelSettings, hn]

theorem portLevelSettings_ok (cf : ConfigFactory) (svc : ImportedService)
    (settings : List PortTrafficPolicy)
    (h : portLevelSettings svc.Hostname svc.Ports [] = .ok settings) :
    settings = (importedDestinationRule cf svc).Spec.TrafficPolicy.PortLevelSettings := by
  unfold importedDestinationRule
  cases hn : getServiceNameAndNs svc.Hostname with
  | none =>
    rw [portLevelSettings_none _ hn] at h
    split at h
    · simp only [Outcome.ok.injEq] at h
      exact h.symm
    · simp at h
  | some names =>
    obtain ⟨svcName, svcNs⟩ := names
    rw [portLevelSettings_some _ _ _ hn] at h
    simp only [List.nil_append, Outcome.ok.injEq] at h
    exact h.symm

theorem portLevelSettings_of_labels (svc : ImportedService)
    (h : svc.Ports ≠ [] → ∃ names, getServiceNameAndNs svc.Hostname = some names) :
    ∃ settings, portLevelSettings svc.Hostname svc.Ports [] = .ok settings := by
  cases hn : getServiceNameAndNs svc.Hostname with
  | none =>
    rw [portLevelSettings_none _ hn]
    by_cases hp : svc.Ports = []
    · exact ⟨_, by rw [if_pos hp]⟩
    · obtain ⟨names, hnames⟩ := h hp
      rw [hn] at hnames
      exact absurd hnames (by simp)
  | some names =>
    obtain ⟨svcName, svcNs⟩ := names
    exact ⟨_, portLevelSettings_some _ _ _ hn _ _⟩

theorem portLevelSettings_ne_error (hostname : String) (ports : List ServicePort)
    (settings : List PortTrafficPolicy) (err : Error) :
    portLevelSettings hostname ports settings ≠ .error err := by
  cases hn : getServiceNameAndNs hostname with
  | none =>
    rw [portLevelSettings_none _ hn]
    split <;> simp
  | some names =>
    obtain ⟨svcName, svcNs⟩ := names
    rw [portLevelSettings_some _ _ _ hn]
    simp

theorem destinationRulesForImported_ok (cf : ConfigFactory) (svcs : List ImportedService)
    (destinationRules out : List DestinationRule)
    (h : destinationRulesForImported cf [] svcs destinationRules = .ok out) :
    out = destinationRules ++ svcs.map (importedDestinationRule cf) := by
  induction svcs generalizing destinationRules with
  | nil =>
    simp only [destinationRulesForImported, Outcome.ok.injEq] at h
    simp [h]
  | cons svc rest ih =>
    simp only [destinationRulesForImported, mapGet, Option.getD_none, Bool.not_false,
      if_true] at h
    cases hp : portLevelSettings svc.Hostname svc.Ports [] with
    | panic site => simp [hp] at h
    | error err => simp [hp] at h
    | ok settings =>
      simp only [hp] at h
      rw [ih _ h, portLevelSettings_ok cf svc settings hp]
      simp [importedDestinationRule]

theorem destinationRulesForImported_of_labels (cf : ConfigFactory)
    (svcs : List ImportedService) (destinationRules : List DestinationRule)
    (h : ∀ svc ∈ svcs, svc.Ports ≠ [] →
      ∃ names, getServiceNameAndNs svc.Hostname = some names) :
    ∃ out, destinationRulesForImported cf [] svcs destinationRules = .ok out := by
  induction svcs generalizing destinationRules with
  | nil => exact ⟨_, rfl⟩
  | cons svc rest ih =>
    obtain ⟨settings, hp⟩ := portLevelSettings_of_labels svc (h svc (List.mem_cons_self _ _))
    simp only [destinationRulesForImported, mapGet, Option.getD_none, Bool.not_false,
      if_true, hp]
    exact ih _ (fun s hs => h s (List.mem_cons_of_mem _ hs))

theorem routerRemotes_cons (remote : Remote) (rest : List Remote) :
    routerRemotes (remote :: rest) =
      if remote.IngressType = IngressType.OpenShiftRouter then remote :: routerRemotes rest
      else routerRemotes rest := by
  unfold routerRemotes
  by_cases h : remote.IngressType = IngressType.OpenShiftRouter <;> simp [List.filter_cons, h]

theorem destinationRulesLoop_ok (deps : Deps) (cf : ConfigFactory) (remotes : List Remote)
    (destinationRules out : List DestinationRule)
    (h : destinationRulesLoop deps cf [] remotes destinationRules = .ok out) :
    out = destinationRules ++ (routerRemotes remotes).flatMap fun remote =>
      discoveryDestinationRule deps cf remote ::
        (cf.importedServiceStore remote).map (importedDestinationRule cf) := by
  induction remotes generalizing destinationRules with
  | nil =>
    simp only [destinationRulesLoop, Outcome.ok.injEq] at h
    simp [h, routerRemotes]
  | cons remote rest ih =>
    rw [routerRemotes_cons]
    simp only [destinationRulesLoop] at h
    by_cases hr : remote.IngressType = IngressType.OpenShiftRouter
    · simp only [hr, ne_eq, not_true_eq_false, if_false, if_true] at h ⊢
      cases hi : destinationRulesForImported cf [] (cf.importedServiceStore remote)
          (destinationRules ++ [discoveryDestinationRule deps cf remote]) with
      | panic site => simp [hi] at h
      | error err => simp [hi] at h
      | ok mid =>
        simp only [hi] at h
        rw [ih _ h, destinationRulesForImported_ok cf _ _ _ hi]
        simp
    · simp only [hr, ne_eq, not_false_eq_true, if_true, if_false] at h ⊢
      exact ih _ h

theorem destinationRulesLoop_of_labels (deps : Deps) (cf : ConfigFactory)
    (remotes : List Remote) (destinationRules : List DestinationRule)
    (h : ∀ remote ∈ remotes, remote.IngressType = IngressType.OpenShiftRouter →
      ∀ svc ∈ cf.importedServiceStore remote, svc.Ports ≠ [] →
        ∃ names, getServiceNameAndNs svc.Hostname = some names) :
    ∃ out, destinationRulesLoop deps cf [] remotes destinationRules = .ok out := by
  induction remotes generalizing destinationRules with
  | nil => exact ⟨_, rfl⟩
  | cons remote rest ih =>
    have hrest := fun r hr => h r (List.mem_cons_of_mem remote hr)
    simp only [destinationRulesLoop]
    by_cases hr : remote.IngressType = IngressType.OpenShiftRouter
    · obtain ⟨mid, hi⟩ := destinationRulesForImported_of_labels cf
        (cf.importedServiceStore remote)
        (destinationRules ++ [discoveryDestinationRule deps cf remote])
        (h remote (List.mem_cons_self _ _) hr)
      simp only [hr, ne_eq, not_true_eq_false, if_false, hi]
      exact ih _ hrest
    · simp only [hr, ne_eq, not_false_eq_true, if_true]
      exact ih _ hrest

/-! ## Properties that every entry of the map keeps -/

theorem copyPorts_eq (ports : List ServicePort) :
    (ports.map fun port =>
      ({ Name := port.Name, Number := port.Number, Protocol := port.Protocol,
         TargetPort := port.TargetPort } : ServicePort)) = ports := by
  induction ports with
  | nil => rfl
  | cons port rest ih => simp [ih]

theorem serviceEntriesStep_notFound_created (deps : Deps) (cf : ConfigFactory) (remote : Remote)
    (resolution : Resolution) (byName : List (String × ServiceEntry)) (svc : ImportedService)
    (h : probe cf svc.Hostname = Probe.notFound)
    (hget : mapGet byName (svcEntryName svc remote) = none) :
    serviceEntriesStep deps cf remote resolution byName svc =
      .ok (mapSet byName (svcEntryName svc remote)
        { ObjectMeta := {
            Name := svcEntryName svc remote
            Namespace := cf.cfg.MeshPeers.Local.ControlPlane.Namespace
            Labels := peerLabels }
          Spec := {
            Hosts := [svc.Hostname]
            Ports := svc.Ports
            Endpoints := importedEndpoints deps remote svc
            Location := Location.MESH_INTERNAL
            Resolution := resolution } }) := by
  unfold probe at h
  unfold serviceEntriesStep
  cases hn : getServiceNameAndNs svc.Hostname with
  | none => simp [hn] at h
  | some names =>
    obtain ⟨svcName, svcNs⟩ := names
    simp only [hn] at h ⊢
    cases hg : cf.serviceLister.Get svcNs svcName with
    | ok found => simp [hg] at h
    | error err =>
      simp only [hg] at h ⊢
      by_cases hnf : IsNotFound err = true
      · simp only [hnf, Bool.not_true, Bool.false_eq_true, if_false, hget, copyPorts_eq]
      · simp [hnf] at h

theorem serviceEntriesStep_preserves (deps : Deps) (cf : ConfigFactory)
    (P : ServiceEntry → Prop)
    (happend : ∀ entry added, P entry →
      P { entry with Spec := { entry.Spec with Endpoints := entry.Spec.Endpoints ++ added } })
    (remote : Remote) (resolution : Resolution) (svc : ImportedService)
    (hnew : probe cf svc.Hostname = Probe.notFound →
      P { ObjectMeta := {
            Name := svcEntryName svc remote
            Namespace := cf.cfg.MeshPeers.Local.ControlPlane.Namespace
            Labels := peerLabels }
          Spec := {
            Hosts := [svc.Hostname]
            Ports := svc.Ports
            Endpoints := importedEndpoints deps remote svc
            Location := Location.MESH_INTERNAL
            Resolution := resolution } })
    (byName byName' : List (String × ServiceEntry))
    (hinv : ∀ kv ∈ byName, P kv.2)
    (hstep : serviceEntriesStep deps cf remote resolution byName svc = .ok byName') :
    ∀ kv ∈ byName', P kv.2 := by
  have hc : (probe cf svc.Hostname).completes = true := by
    by_contra hc
    have hs := serviceEntriesStep_stop deps cf remote resolution byName svc (by simpa using hc)
    simp [hstep, stopOf] at hs
  rcases (Probe.completes_iff _).mp hc with hf | hnf
  · rw [serviceEntriesStep_found deps cf remote _ byName svc hf] at hstep
    simp only [Outcome.ok.injEq] at hstep
    exact hstep ▸ hinv
  · cases hget : mapGet byName (svcEntryName svc remote) with
    | none =>
      rw [serviceEntriesStep_notFound_created deps cf remote resolution byName svc hnf hget]
        at hstep
      simp only [Outcome.ok.injEq] at hstep
      subst hstep
      intro kv hkv
      rcases mem_mapSet _ _ _ _ hkv with hold | hnew'
      · exact hinv kv hold
      · subst hnew'
        exact hnew hnf
    | some entry =>
      rcases serviceEntriesStep_notFound deps cf remote resolution byName svc hnf with
        ⟨entry', hget', hs⟩ | ⟨hnone, _⟩
      · rw [hs] at hstep
        simp only [Outcome.ok.injEq] at hstep
        subst hstep
        intro kv hkv
        rcases mem_mapSet _ _ _ _ hkv with hold | hnew'
        · exact hinv kv hold
        · subst hnew'
          exact happend _ _ (hinv _ (mem_of_mapGet _ _ _ hget'))
      · rw [hget] at hnone
        exact absurd hnone (by simp)

theorem serviceEntriesForImported_preserves (deps : Deps) (cf : ConfigFactory)
    (P : ServiceEntry → Prop)
    (happend : ∀ entry added, P entry →
      P { entry with Spec := { entry.Spec with Endpoints := entry.Spec.Endpoints ++ added } })
    (remote : Remote) (resolution : Resolution) (svcs : List ImportedService)
    (hnew : ∀ svc ∈ svcs, probe cf svc.Hostname = Probe.notFound →
      P { ObjectMeta := {
            Name := svcEntryName svc remote
            Namespace := cf.cfg.MeshPeers.Local.ControlPlane.Namespace
            Labels := peerLabels }
          Spec := {
            Hosts := [svc.Hostname]
            Ports := svc.Ports
            Endpoints := importedEndpoints deps remote svc
            Location := Location.MESH_INTERNAL
            Resolution := resolution } })
    (byName byName' : List (String × ServiceEntry))
    (hinv : ∀ kv ∈ byName, P kv.2)
    (hloop : serviceEntriesForImported deps cf remote resolution svcs byName = .ok byName') :
    ∀ kv ∈ byName', P kv.2 := by
  induction svcs generalizing byName with
  | nil =>
    simp only [serviceEntriesForImported, Outcome.ok.injEq] at hloop
    exact hloop ▸ hinv
  | cons svc rest ih =>
    simp only [serviceEntriesForImported] at hloop
    cases hstep : serviceEntriesStep deps cf remote resolution byName svc with
    | error err => simp [hstep] at hloop
    | panic site => simp [hstep] at hloop
    | ok mid =>
      simp only [hstep] at hloop
      exact ih (fun s hs => hnew s (List.mem_cons_of_mem _ hs)) mid
        (serviceEntriesStep_preserves deps cf P happend remote resolution svc
          (hnew svc (List.mem_cons_self _ _)) byName mid hinv hstep) hloop

theorem serviceEntriesLoop_preserves (deps : Deps) (cf : ConfigFactory)
    (P : ServiceEntry → Prop)
    (happend : ∀ entry added, P entry →
      P { entry with Spec := { entry.Spec with Endpoints := entry.Spec.Endpoints ++ added } })
    (remotes : List Remote)
    (hnew : ∀ remote ∈ remotes, ∀ firstAddress others,
      remote.Addresses = firstAddress :: others →
      ∀ svc ∈ cf.importedServiceStore remote, probe cf svc.Hostname = Probe.notFound →
      P { ObjectMeta := {
            Name := svcEntryName svc remote
            Namespace := cf.cfg.MeshPeers.Local.ControlPlane.Namespace
            Labels := peerLabels }
          Spec := {
            Hosts := [svc.Hostname]
            Ports := svc.Ports
            Endpoints := importedEndpoints deps remote svc
            Location := Location.MESH_INTERNAL
            Resolution := resolutionFor deps firstAddress } })
    (serviceEntries serviceEntries' : List ServiceEntry)
    (byName byName' : List (String × ServiceEntry))
    (hinv : ∀ kv ∈ byName, P kv.2)
    (hloop : serviceEntriesLoop deps cf remotes (serviceEntries, byName) =
      .ok (serviceEntries', byName')) :
    ∀ kv ∈ byName', P kv.2 := by
  induction remotes generalizing serviceEntries byName with
  | nil =>
    simp only [serviceEntriesLoop, Outcome.ok.injEq, Prod.mk.injEq] at hloop
    exact hloop.2 ▸ hinv
  | cons remote rest ih =>
    have hrest := fun r hr => hnew r (List.mem_cons_of_mem remote hr)
    simp only [serviceEntriesLoop] at hloop
    cases haddr : remote.Addresses with
    | nil =>
      simp only [haddr, List.length_nil, if_true] at hloop
      exact ih hrest serviceEntries byName hinv hloop
    | cons firstAddress others =>
      simp only [haddr, List.length_cons, Nat.add_one_ne_zero, if_false,
        serviceEntryForRemoteFederationController] at hloop
      cases hi : serviceEntriesForImported deps cf remote (resolutionFor deps firstAddress)
          (cf.importedServiceStore remote) byName with
      | error err => simp [hi] at hloop
      | panic site => simp [hi] at hloop
      | ok mid =>
        simp only [hi] at hloop
        exact ih hrest _ mid
          (serviceEntriesForImported_preserves deps cf P happend remote _ _
            (hnew remote (List.mem_cons_self _ _) firstAddress others haddr) byName mid hinv hi)
          hloop

theorem ServiceEntries_imported_all (deps : Deps) (cf : ConfigFactory)
    (valuesOrder : List ServiceEntry → List ServiceEntry)
    (hperm : ∀ entries, (valuesOrder entries).Perm entries)
    (P : ServiceEntry → Prop)
    (happend : ∀ entry added, P entry →
      P { entry with Spec := { entry.Spec with Endpoints := entry.Spec.Endpoints ++ added } })
    (hnew : ∀ remote ∈ cf.cfg.MeshPeers.Remotes, ∀ firstAddress others,
      remote.Addresses = firstAddress :: others →
      ∀ svc ∈ cf.importedServiceStore remote, probe cf svc.Hostname = Probe.notFound →
      P { ObjectMeta := {
            Name := svcEntryName svc remote
            Namespace := cf.cfg.MeshPeers.Local.ControlPlane.Namespace
            Labels := peerLabels }
          Spec := {
            Hosts := [svc.Hostname]
            Ports := svc.Ports
            Endpoints := importedEndpoints deps remote svc
            Location := Location.MESH_INTERNAL
            Resolution := resolutionFor deps firstAddress } })
    (out : List ServiceEntry) (h : ServiceEntries deps cf valuesOrder = .ok out) :
    ∃ imported, out = discoveryEntries deps cf cf.cfg.MeshPeers.Remotes ++ imported ∧
      ∀ entry ∈ imported, P entry := by
  unfold ServiceEntries at h
  cases hl : serviceEntriesLoop deps cf cf.cfg.MeshPeers.Remotes ([], []) with
  | error err => simp [hl] at h
  | panic site => simp [hl] at h
  | ok state =>
    obtain ⟨serviceEntries, byName⟩ := state
    simp only [hl, Outcome.ok.injEq] at h
    obtain ⟨hses, _, _, _⟩ := serviceEntriesLoop_spec deps cf cf.cfg.MeshPeers.Remotes
      [] serviceEntries [] byName (fun _ hr => hr) (by simp) hl
    have hall := serviceEntriesLoop_preserves deps cf P happend cf.cfg.MeshPeers.Remotes hnew
      [] serviceEntries [] byName (by simp) hl
    refine ⟨valuesOrder (mapValues byName), ?_, ?_⟩
    · rw [← h, hses]
      simp
    · intro entry hentry
      obtain ⟨kv, hkv, rfl⟩ := List.mem_map.mp ((hperm _).mem_iff.mp hentry)
      exact hall kv hkv

/-! ## Facts about the receive loop -/

theorem handleRecv_ok_cons (cfg : ADSCConfig) (msg : DiscoveryResponse)
    (rest : List (Except String DiscoveryResponse)) :
    invocations (handleRecv cfg (.ok msg :: rest)) =
      (if (mapGet cfg.Handlers msg.TypeUrl).isSome then [(msg.TypeUrl, msg.Resources)] else []) ++
        invocations (handleRecv cfg rest) ∧
    received (handleRecv cfg (.ok msg :: rest)) =
      msg.TypeUrl :: received (handleRecv cfg rest) := by
  simp only [handleRecv, invocations, received, List.filterMap_append]
  cases hh : mapGet cfg.Handlers msg.TypeUrl with
  | none => simp [List.filterMap_cons]
  | some handler =>
    cases hr : handler.Handle msg.Resources <;> simp [List.filterMap_cons, hr]

theorem handleRecv_failing_handler_trace :
    handleRecv adscFailingHandler
        (sampleMessages.map Except.ok ++ [Except.error "EOF", Except.ok
          { TypeUrl := "exported-services", Resources := ["late"] }]) =
      [RecvEvent.logReceived "exported-services", RecvEvent.logBody ["billing"],
        RecvEvent.logHandlerFound "exported-services",
        RecvEvent.handle "exported-services" ["billing"],
        RecvEvent.logHandleError "exported-services" "cannot store",
        RecvEvent.logReceived "unknown", RecvEvent.logBody ["x"],
        RecvEvent.logNoHandler "unknown", RecvEvent.logClosed "EOF"] := by
  decide

theorem getServiceNameAndNs_eq_some (hostname svcName svcNs : String) :
    getServiceNameAndNs hostname = some (svcName, svcNs) ↔
      ∃ rest, stringsSplit hostname '.' = svcName :: svcNs :: rest := by
  unfold getServiceNameAndNs
  cases hs : stringsSplit hostname '.' with
  | nil => simp
  | cons a tail =>
    cases tail with
    | nil => simp
    | cons b rest => simp

theorem mem_routerRemotes (remotes : List Remote) (remote : Remote) :
    remote ∈ routerRemotes remotes ↔
      remote ∈ remotes ∧ remote.IngressType = IngressType.OpenShiftRouter := by
  simp [routerRemotes]

theorem destinationRulesForImported_ok_labels (cf : ConfigFactory)
    (svcs : List ImportedService) (destinationRules out : List DestinationRule)
    (h : destinationRulesForImported cf [] svcs destinationRules = .ok out) :
    ∀ svc ∈ svcs, svc.Ports ≠ [] → getServiceNameAndNs svc.Hostname ≠ none := by
  induction svcs generalizing destinationRules with
  | nil => simp
  | cons svc rest ih =>
    simp only [destinationRulesForImported, mapGet, Option.getD_none, Bool.not_false,
      if_true] at h
    cases hp : portLevelSettings svc.Hostname svc.Ports [] with
    | panic site => simp [hp] at h
    | error err => simp [hp] at h
    | ok settings =>
      simp only [hp] at h
      intro s hs hports hn
      rcases List.mem_cons.mp hs with rfl | hs
      · rw [portLevelSettings_none _ hn, if_neg hports] at hp
        simp at hp
      · exact ih _ h s hs hports hn

theorem destinationRulesLoop_ok_labels (deps : Deps) (cf : ConfigFactory)
    (remotes : List Remote) (destinationRules out : List DestinationRule)
    (h : destinationRulesLoop deps cf [] remotes destinationRules = .ok out) :
    ∀ remote ∈ remotes, remote.IngressType = IngressType.OpenShiftRouter →
      ∀ svc ∈ cf.importedServiceStore remote, svc.Ports ≠ [] →
        getServiceNameAndNs svc.Hostname ≠ none := by
  induction remotes generalizing destinationRules with
  | nil => simp
  | cons remote rest ih =>
    simp only [destinationRulesLoop] at h
    by_cases hr : remote.IngressType = IngressType.OpenShiftRouter
    · simp only [hr, ne_eq, not_true_eq_false, if_false] at h
      cases hi : destinationRulesForImported cf [] (cf.importedServiceStore remote)
          (destinationRules ++ [discoveryDestinationRule deps cf remote]) with
      | panic site => simp [hi] at h
      | error err => simp [hi] at h
      | ok mid =>
        simp only [hi] at h
        intro r hmem hrouter svc hsvc hports
        rcases List.mem_cons.mp hmem with rfl | hmem
        · exact destinationRulesForImported_ok_labels cf _ _ _ hi svc hsvc hports
        · exact ih _ h r hmem hrouter svc hsvc hports
    · simp only [hr, ne_eq, not_false_eq_true, if_true] at h
      intro r hmem hrouter svc hsvc hports
      rcases List.mem_cons.mp hmem with rfl | hmem
      · exact absurd hrouter hr
      · exact ih _ h r hmem hrouter svc hsvc hports

/-! ## Label maps and port maps -/

theorem dotsToDashes_injective_of_no_dash (xs ys : List Char)
    (hx : '-' ∉ xs) (hy : '-' ∉ ys)
    (h : (xs.map fun c => if c = '.' then '-' else c) =
      ys.map fun c => if c = '.' then '-' else c) : xs = ys := by
  induction xs generalizing ys with
  | nil =>
    cases ys with
    | nil => rfl
    | cons y rest => simp at h
  | cons x rest ih =>
    cases ys with
    | nil => simp at h
    | cons y rest' =>
      simp only [List.map_cons, List.cons.injEq] at h
      simp only [List.mem_cons, not_or] at hx hy
      have hhead : x = y := by
        by_cases hxd : x = '.'
        · by_cases hyd : y = '.'
          · rw [hxd, hyd]
          · simp only [hxd, hyd, if_true, if_false] at h
            exact absurd h.1 hy.1
        · by_cases hyd : y = '.'
          · simp only [hxd, hyd, if_true, if_false] at h
            exact absurd h.1.symm hx.1
          · simpa only [hxd, hyd, if_false] using h.1
      rw [hhead, ih rest' hx.2 hy.2 h.2]

theorem string_append_left_cancel (p a b : String) (h : p ++ a = p ++ b) : a = b := by
  apply String.ext
  have hd := congrArg String.data h
  simp only [String.data_append] at hd
  exact List.append_cancel_left hd

theorem string_append_right_cancel (a b s : String) (h : a ++ s = b ++ s) : a = b := by
  apply String.ext
  have hd := congrArg String.data h
  simp only [String.data_append] at hd
  exact List.append_cancel_right hd

/-! ## Where the loops of ServiceEntries can fail at run time -/

theorem serviceEntriesStep_panic_site (deps : Deps) (cf : ConfigFactory) (remote : Remote)
    (resolution : Resolution) (byName : List (String × ServiceEntry)) (svc : ImportedService)
    (site : String)
    (h : serviceEntriesStep deps cf remote resolution byName svc = .panic site) :
    site = siteDomainLabels := by
  unfold serviceEntriesStep at h
  cases hn : getServiceNameAndNs svc.Hostname with
  | none =>
    simp only [hn, Outcome.panic.injEq] at h
    exact h.symm
  | some names =>
    obtain ⟨svcName, svcNs⟩ := names
    simp only [hn] at h
    cases hg : cf.serviceLister.Get svcNs svcName with
    | ok found => simp [hg] at h
    | error err =>
      simp only [hg] at h
      by_cases hnf : IsNotFound err = true
      · simp only [hnf, Bool.not_true, Bool.false_eq_true, if_false] at h
        cases hm : mapGet byName (svcEntryName svc remote) <;> simp [hm] at h
      · simp [hnf] at h

theorem serviceEntriesForImported_panic_site (deps : Deps) (cf : ConfigFactory)
    (remote : Remote) (resolution : Resolution) (svcs : List ImportedService)
    (byName : List (String × ServiceEntry)) (site : String)
    (h : serviceEntriesForImported deps cf remote resolution svcs byName = .panic site) :
    site = siteDomainLabels := by
  induction svcs generalizing byName with
  | nil => simp [serviceEntriesForImported] at h
  | cons svc rest ih =>
    simp only [serviceEntriesForImported] at h
    cases hstep : serviceEntriesStep deps cf remote resolution byName svc with
    | error err => simp [hstep] at h
    | panic site' =>
      simp only [hstep, Outcome.panic.injEq] at h
      exact h ▸ serviceEntriesStep_panic_site deps cf remote resolution byName svc site' hstep
    | ok mid =>
      simp only [hstep] at h
      exact ih mid h

theorem serviceEntriesLoop_panic_site (deps : Deps) (cf : ConfigFactory) (remotes : List Remote)
    (state : List ServiceEntry × List (String × ServiceEntry)) (site : String)
    (h : serviceEntriesLoop deps cf remotes state = .panic site) :
    site = siteDomainLabels := by
  induction remotes generalizing state with
  | nil => simp [serviceEntriesLoop] at h
  | cons remote rest ih =>
    obtain ⟨serviceEntries, byName⟩ := state
    simp only [serviceEntriesLoop] at h
    cases haddr : remote.Addresses with
    | nil =>
      simp only [haddr, List.length_nil, if_true] at h
      exact ih _ h
    | cons firstAddress others =>
      simp only [haddr, List.length_cons, Nat.add_one_ne_zero, if_false,
        serviceEntryForRemoteFederationController] at h
      cases hi : serviceEntriesForImported deps cf remote (resolutionFor deps firstAddress)
          (cf.importedServiceStore remote) byName with
      | error err => simp [hi] at h
      | panic site' =>
        simp only [hi, Outcome.panic.injEq] at h
        exact h ▸ serviceEntriesForImported_panic_site deps cf remote _ _ byName site' hi
      | ok mid =>
        simp only [hi] at h
        exact ih _ h

/-! ## The labels of a hostname -/

theorem splitChars_of_no_dot (cs : List Char) (h : '.' ∉ cs) : splitChars '.' cs = [cs] := by
  induction cs with
  | nil => rfl
  | cons c rest ih =>
    simp only [List.mem_cons, not_or] at h
    have hc : ¬ c = '.' := fun heq => h.1 heq.symm
    simp [splitChars, hc, ih h.2]

theorem splitChars_of_dot (cs : List Char) (h : '.' ∈ cs) :
    splitChars '.' cs = beforeDot cs :: splitChars '.' (afterDot cs) := by
  induction cs with
  | nil => simp at h
  | cons c rest ih =>
    by_cases hc : c = '.'
    · subst hc
      simp [splitChars, beforeDot, afterDot]
    · have hrest : '.' ∈ rest := by
        rcases List.mem_cons.mp h with heq | hmem
        · exact absurd heq.symm hc
        · exact hmem
      have hb : beforeDot (c :: rest) = c :: beforeDot rest := by
        simp [beforeDot, List.takeWhile_cons, hc]
      have ha : afterDot (c :: rest) = afterDot rest := by
        simp [afterDot, List.dropWhile_cons, hc]
      simp only [splitChars, hc, if_false, ih hrest, hb, ha]

theorem beforeDot_of_no_dot (cs : List Char) (h : '.' ∉ cs) : beforeDot cs = cs := by
  unfold beforeDot
  rw [List.takeWhile_eq_self_iff]
  intro c hc
  simp only [ne_eq, decide_eq_true_eq]
  rintro rfl
  exact h hc

theorem splitChars_head (cs : List Char) : ∃ ws, splitChars '.' cs = beforeDot cs :: ws := by
  by_cases h : '.' ∈ cs
  · exact ⟨_, splitChars_of_dot cs h⟩
  · exact ⟨[], by rw [splitChars_of_no_dot cs h, beforeDot_of_no_dot cs h]⟩

theorem getServiceNameAndNs_of_dot (hostname : String) (h : '.' ∈ hostname.data) :
    getServiceNameAndNs hostname =
      some (String.mk (beforeDot hostname.data), String.mk (beforeDot (afterDot hostname.data))) := by
  obtain ⟨ws, hws⟩ := splitChars_head (afterDot hostname.data)
  unfold getServiceNameAndNs stringsSplit
  rw [splitChars_of_dot _ h, hws]
  rfl

theorem getServiceNameAndNs_of_no_dot (hostname : String) (h : '.' ∉ hostname.data) :
    getServiceNameAndNs hostname = none := by
  unfold getServiceNameAndNs stringsSplit
  rw [splitChars_of_no_dot _ h]
  rfl

theorem probe_outOfRange_iff (cf : ConfigFactory) (hostname : String) :
    probe cf hostname = Probe.outOfRange ↔ '.' ∉ hostname.data := by
  unfold probe
  by_cases h : '.' ∈ hostname.data
  · rw [getServiceNameAndNs_of_dot _ h]
    simp only [h, not_true_eq_false, iff_false]
    cases cf.serviceLister.Get (String.mk (beforeDot (afterDot hostname.data)))
        (String.mk (beforeDot hostname.data)) with
    | ok found => simp
    | error err => by_cases hnf : IsNotFound err = true <;> simp [hnf]
  · rw [getServiceNameAndNs_of_no_dot _ h]
    simp [h]

theorem firstStop_outOfRange_iff (cf : ConfigFactory) (hs : List String) :
    firstStop cf hs = some Probe.outOfRange ↔
      ∃ h ∈ probedHostnames cf hs, '.' ∉ h.data := by
  induction hs with
  | nil => simp [firstStop, probedHostnames]
  | cons x rest ih =>
    simp only [firstStop, probedHostnames]
    by_cases hc : (probe cf x).completes = true
    · have hx : '.' ∈ x.data := by
        by_contra hno
        rw [(probe_outOfRange_iff cf x).mpr hno] at hc
        simp [Probe.completes] at hc
      simp only [hc, if_true, ih, List.mem_cons, exists_eq_or_imp, hx, not_true_eq_false,
        false_or]
    · simp only [hc, if_false, Option.some.injEq, List.mem_singleton, exists_eq_left,
        Bool.false_eq_true]
      exact probe_outOfRange_iff cf x

theorem stopOf_eq_outOfRange {α : Type} (outcome : Outcome α) :
    stopOf outcome = some Probe.outOfRange ↔ ∃ site, outcome = .panic site := by
  cases outcome <;> simp [stopOf]

/-! ## The SNI a filter matches and the hosts of the gateway -/

theorem listedHosts_eq_map (lister : ServiceLister) (sels : List LabelSelectors) :
    listedHosts lister sels = (listedServices lister sels).map serviceHost := by
  induction sels with
  | nil => rfl
  | cons sel rest ih =>
    simp only [listedHosts, listedServices, ih, List.map_append]
    cases lister.List sel.MatchLabels <;> rfl

theorem mem_gatewayHosts (cf : ConfigFactory) (gateway : Gateway)
    (hg : IngressGateway cf = .ok gateway) (host : String) :
    host ∈ gatewayHosts gateway ↔
      host = localDiscoveryHost cf ∨
        ∃ svc ∈ listedServices cf.serviceLister cf.cfg.ExportedServiceSet.GetLabelSelectors,
          host = serviceHost svc := by
  rw [IngressGateway_ok_hosts cf gateway hg, (sortStrings_perm _).mem_iff, List.mem_cons,
    listedHosts_eq_map, List.mem_map]
  constructor
  · rintro (h | ⟨svc, hsvc, rfl⟩)
    · exact Or.inl h
    · exact Or.inr ⟨svc, hsvc, rfl⟩
  · rintro (h | ⟨svc, hsvc, rfl⟩)
    · exact Or.inl h
    · exact Or.inr ⟨svc, hsvc, rfl⟩

/-- The filters of the exported services match an SNI of the form `outbound_.<port>_._.<host>`
for a host of the gateway; the filter of the discovery endpoint does so when the controller
runs in `istio-system`. -/
theorem EnvoyFilters_sni_hosts (cf : ConfigFactory)
    (hrouter : cf.cfg.MeshPeers.Local.IngressType = IngressType.OpenShiftRouter)
    (gateway : Gateway) (hg : IngressGateway cf = .ok gateway) :
    (∀ filter ∈ EnvoyFilters cf,
      filter = createEnvoyFilter cf
          ("federation-discovery-service-" ++ cf.cfg.MeshPeers.Local.Name) "istio-system" 15080 ∨
        ∃ port : Nat, ∃ host ∈ gatewayHosts gateway,
          filter.Spec.ConfigPatches.map (fun patch => patch.Match.Sni) =
            ["outbound_." ++ toString port ++ "_._." ++ host]) ∧
    (cf.namespace_ = "istio-system" →
      ∃ host ∈ gatewayHosts gateway,
        (createEnvoyFilter cf ("federation-discovery-service-" ++ cf.cfg.MeshPeers.Local.Name)
            "istio-system" 15080).Spec.ConfigPatches.map (fun patch => patch.Match.Sni) =
          ["outbound_." ++ toString (15080 : Nat) ++ "_._." ++ host]) := by
  refine ⟨?_, ?_⟩
  · intro filter hfilter
    rw [EnvoyFilters_router cf hrouter] at hfilter
    rcases List.mem_cons.mp hfilter with h | h
    · exact Or.inl h
    · obtain ⟨svc, hsvc, hmem⟩ := List.mem_flatMap.mp h
      obtain ⟨port, _, rfl⟩ := List.mem_map.mp hmem
      refine Or.inr ⟨port, serviceHost svc,
        (mem_gatewayHosts cf gateway hg _).mpr (Or.inr ⟨svc, hsvc, rfl⟩), ?_⟩
      simp [createEnvoyFilter, serviceHost, String.append_assoc]
  · intro hns
    refine ⟨localDiscoveryHost cf, (mem_gatewayHosts cf gateway hg _).mpr (Or.inl rfl), ?_⟩
    simp [createEnvoyFilter, localDiscoveryHost, hns, String.append_assoc]

theorem ne_append_of_drop_ne (sni host : String)
    (h : sni.data.drop (sni.data.length - host.data.length) ≠ host.data) (pre : String) :
    sni ≠ pre ++ host := by
  intro heq
  apply h
  rw [heq, String.data_append, List.length_append, Nat.add_sub_cancel, List.drop_left]

/-! ## IngressGateway: properties -/

set_option maxRecDepth 100000

/-- C1: whenever `IngressGateway` returns a gateway, whatever the configuration, the export
selectors and the order in which the lister returns the services, the host list of the gateway
is sorted in ascending lexicographic order. -/
theorem IngressGateway_hosts_sorted (cf : ConfigFactory) (gateway : Gateway)
    (h : IngressGateway cf = .ok gateway) :
    List.Sorted (fun a b : String => a ≤ b) (gatewayHosts gateway) := by
  rw [IngressGateway_ok_hosts cf gateway h]
  exact (sortStrings_sorted _).imp (fun hab => (stringLE_iff _ _).mp hab)

theorem IngressGateway_hosts_sorted_witness :
    IngressGateway factoryCatalogFirst = .ok gatewayCatalogFirst ∧
      List.Sorted (fun a b : String => a ≤ b) (gatewayHosts gatewayCatalogFirst) :=
  ⟨by decide, IngressGateway_hosts_sorted factoryCatalogFirst gatewayCatalogFirst (by decide)⟩

/-- C2, as the code has it: the host list of the returned gateway holds every hostname as often
as it occurs among the local discovery hostname and the hostnames of the services listed over all
export selectors; so it is free of duplicates exactly when no listed hostname occurs twice over
all selectors and none is the local discovery hostname. -/
theorem IngressGateway_hosts_nodup_iff (cf : ConfigFactory) (gateway : Gateway)
    (h : IngressGateway cf = .ok gateway) :
    (gatewayHosts gateway).Perm (localDiscoveryHost cf ::
        listedHosts cf.serviceLister cf.cfg.ExportedServiceSet.GetLabelSelectors) ∧
      ((gatewayHosts gateway).Nodup ↔
        localDiscoveryHost cf ∉
            listedHosts cf.serviceLister cf.cfg.ExportedServiceSet.GetLabelSelectors ∧
          (listedHosts cf.serviceLister cf.cfg.ExportedServiceSet.GetLabelSelectors).Nodup) := by
  have hperm : (gatewayHosts gateway).Perm (localDiscoveryHost cf ::
      listedHosts cf.serviceLister cf.cfg.ExportedServiceSet.GetLabelSelectors) := by
    rw [IngressGateway_ok_hosts cf gateway h]
    exact sortStrings_perm _
  exact ⟨hperm, by rw [hperm.nodup_iff, List.nodup_cons]⟩

theorem IngressGateway_hosts_nodup_iff_witness :
    IngressGateway factoryCatalogFirst = .ok gatewayCatalogFirst ∧
      (gatewayHosts gatewayCatalogFirst).Nodup :=
  ⟨by decide,
    ((IngressGateway_hosts_nodup_iff factoryCatalogFirst gatewayCatalogFirst
      (by decide)).2).mpr (by decide)⟩

/-- C2, as stated, fails: a service matched by two export selectors is listed twice, and an
exported service with the hostname of the local discovery endpoint repeats that hostname. -/
theorem IngressGateway_hosts_duplicates :
    (Except.map gatewayHosts (IngressGateway factoryMatchedTwice) =
        .ok ["billing.ns1.svc.cluster.local", "billing.ns1.svc.cluster.local",
          "federation-discovery-service-west.istio-system.svc.cluster.local"] ∧
      ¬ ∀ gateway, IngressGateway factoryMatchedTwice = .ok gateway →
          (gatewayHosts gateway).Nodup) ∧
    (Except.map gatewayHosts (IngressGateway factoryDiscoveryExported) =
        .ok ["federation-discovery-service-west.istio-system.svc.cluster.local",
          "federation-discovery-service-west.istio-system.svc.cluster.local"] ∧
      ¬ ∀ gateway, IngressGateway factoryDiscoveryExported = .ok gateway →
          (gatewayHosts gateway).Nodup) := by
  refine ⟨⟨by decide, fun hall => ?_⟩, ⟨by decide, fun hall => ?_⟩⟩
  · cases hg : IngressGateway factoryMatchedTwice with
    | error err =>
      have hmap : Except.map gatewayHosts (IngressGateway factoryMatchedTwice) =
          .ok ["billing.ns1.svc.cluster.local", "billing.ns1.svc.cluster.local",
            "federation-discovery-service-west.istio-system.svc.cluster.local"] := by decide
      rw [hg] at hmap
      exact absurd hmap (by simp [Except.map])
    | ok gateway =>
      have hnd := hall gateway hg
      rw [IngressGateway_ok_hosts _ _ hg] at hnd
      exact absurd hnd (by decide)
  · cases hg : IngressGateway factoryDiscoveryExported with
    | error err =>
      have hmap : Except.map gatewayHosts (IngressGateway factoryDiscoveryExported) =
          .ok ["federation-discovery-service-west.istio-system.svc.cluster.local",
            "federation-discovery-service-west.istio-system.svc.cluster.local"] := by decide
      rw [hg] at hmap
      exact absurd hmap (by simp [Except.map])
    | ok gateway =>
      have hnd := hall gateway hg
      rw [IngressGateway_ok_hosts _ _ hg] at hnd
      exact absurd hnd (by decide)

/-- C3: two listers that, for every export selector of the configuration, return the same
services in a different order give equal results of `IngressGateway`, the gateway included. -/
theorem IngressGateway_order_independent (cf : ConfigFactory) (lister : ServiceLister)
    (h : ∀ sel ∈ cf.cfg.ExportedServiceSet.GetLabelSelectors,
      sameUpToOrder (cf.serviceLister.List sel.MatchLabels) (lister.List sel.MatchLabels)) :
    IngressGateway { cf with serviceLister := lister } = IngressGateway cf := by
  have hrel := collectExportedHosts_perm cf.serviceLister lister
    cf.cfg.ExportedServiceSet.GetLabelSelectors [localDiscoveryHost cf] [localDiscoveryHost cf]
    (List.Perm.refl _) h
  have hd : localDiscoveryHost { cf with serviceLister := lister } = localDiscoveryHost cf := rfl
  unfold IngressGateway
  simp only [hd]
  cases h₁ : collectExportedHosts cf.serviceLister cf.cfg.ExportedServiceSet.GetLabelSelectors
      [localDiscoveryHost cf] <;>
    cases h₂ : collectExportedHosts lister cf.cfg.ExportedServiceSet.GetLabelSelectors
      [localDiscoveryHost cf] <;>
    simp only [h₁, h₂, Except.error.injEq] at hrel ⊢
  · exact hrel.symm
  · rw [sortStrings_eq_of_perm hrel]

theorem IngressGateway_order_independent_witness :
    (∀ sel ∈ factoryCatalogFirst.cfg.ExportedServiceSet.GetLabelSelectors,
      sameUpToOrder (factoryCatalogFirst.serviceLister.List sel.MatchLabels)
        (listerBillingFirst.List sel.MatchLabels)) ∧
    [svcCatalog, svcBilling] ≠ [svcBilling, svcCatalog] ∧
    IngressGateway { factoryCatalogFirst with serviceLister := listerBillingFirst } =
      IngressGateway factoryCatalogFirst :=
  ⟨fun _ _ => List.Perm.swap _ _ _, by decide,
    IngressGateway_order_independent factoryCatalogFirst listerBillingFirst
      (fun _ _ => List.Perm.swap _ _ _)⟩

/-- C4: when no listing fails, `IngressGateway` returns a gateway with one server, on the local
ingress port with TLS passthrough, and a hostname is in its host list exactly when it is the
local discovery hostname `federation-discovery-service-<local name>.<namespace>.svc.cluster.local`
or the hostname `<name>.<namespace>.svc.cluster.local` of a service that the lister returns for
at least one export selector. -/
theorem IngressGateway_host_set (cf : ConfigFactory) (hok : noListingFails cf) :
    ∃ gateway, IngressGateway cf = .ok gateway ∧
      (∃ server, gateway.Spec.Servers = [server] ∧
        server.Port.Number = cf.cfg.MeshPeers.Local.Gateways.Ingress.Port.Number ∧
        server.Tls = ServerTLSMode.AUTO_PASSTHROUGH) ∧
      ∀ host, host ∈ gatewayHosts gateway ↔
        (host = "federation-discovery-service-" ++ cf.cfg.MeshPeers.Local.Name ++ "." ++
            cf.namespace_ ++ ".svc.cluster.local" ∨
          ∃ sel ∈ cf.cfg.ExportedServiceSet.GetLabelSelectors,
            ∃ services, cf.serviceLister.List sel.MatchLabels = .ok services ∧
              ∃ svc ∈ services,
                host = svc.Name ++ "." ++ svc.Namespace ++ ".svc.cluster.local") := by
  have hc := collectExportedHosts_of_ok cf.serviceLister
    cf.cfg.ExportedServiceSet.GetLabelSelectors [localDiscoveryHost cf] hok
  have hg : ∃ gateway, IngressGateway cf = .ok gateway := by
    unfold IngressGateway
    simp only [hc]
    exact ⟨_, rfl⟩
  obtain ⟨gateway, hg⟩ := hg
  refine ⟨gateway, hg, ?_, ?_⟩
  · unfold IngressGateway at hg
    simp only [hc, Except.ok.injEq] at hg
    rw [← hg]
    exact ⟨_, rfl, rfl, rfl⟩
  · intro host
    rw [IngressGateway_ok_hosts cf gateway hg, (sortStrings_perm _).mem_iff, List.mem_cons,
      mem_listedHosts]
    rfl

theorem IngressGateway_host_set_witness :
    noListingFails factoryCatalogFirst ∧
    ∃ gateway, IngressGateway factoryCatalogFirst = .ok gateway ∧
      (∃ server, gateway.Spec.Servers = [server] ∧
        server.Port.Number = factoryCatalogFirst.cfg.MeshPeers.Local.Gateways.Ingress.Port.Number ∧
        server.Tls = ServerTLSMode.AUTO_PASSTHROUGH) ∧
      ∀ host, host ∈ gatewayHosts gateway ↔
        (host = "federation-discovery-service-" ++ factoryCatalogFirst.cfg.MeshPeers.Local.Name ++
            "." ++ factoryCatalogFirst.namespace_ ++ ".svc.cluster.local" ∨
          ∃ sel ∈ factoryCatalogFirst.cfg.ExportedServiceSet.GetLabelSelectors,
            ∃ services, factoryCatalogFirst.serviceLister.List sel.MatchLabels = .ok services ∧
              ∃ svc ∈ services,
                host = svc.Name ++ "." ++ svc.Namespace ++ ".svc.cluster.local") :=
  ⟨fun _ _ => ⟨_, rfl⟩, IngressGateway_host_set factoryCatalogFirst (fun _ _ => ⟨_, rfl⟩)⟩

/-- C5: `IngressGateway` returns an error (and then no gateway) exactly when the lister fails
for at least one export selector; the error wraps the failure of the first selector, in selector
order, whose listing fails; and when no listing fails it returns a gateway. -/
theorem IngressGateway_error_iff (cf : ConfigFactory) :
    ((∃ err, IngressGateway cf = .error err) ↔
      ∃ sel ∈ cf.cfg.ExportedServiceSet.GetLabelSelectors,
        ∃ cause, cf.serviceLister.List sel.MatchLabels = .error cause) ∧
    (∀ before sel after cause,
      cf.cfg.ExportedServiceSet.GetLabelSelectors = before ++ sel :: after →
      (∀ s ∈ before, ∃ services, cf.serviceLister.List s.MatchLabels = .ok services) →
      cf.serviceLister.List sel.MatchLabels = .error cause →
      IngressGateway cf = .error (Error.listServices sel.MatchLabels cause)) ∧
    (noListingFails cf → ∃ gateway, IngressGateway cf = .ok gateway) := by
  refine ⟨?_, ?_, ?_⟩
  · rw [← collectExportedHosts_error_iff cf.serviceLister
      cf.cfg.ExportedServiceSet.GetLabelSelectors [localDiscoveryHost cf]]
    unfold IngressGateway
    cases hc : collectExportedHosts cf.serviceLister cf.cfg.ExportedServiceSet.GetLabelSelectors
        [localDiscoveryHost cf] with
    | error err => exact ⟨fun _ => ⟨err, rfl⟩, fun _ => ⟨err, rfl⟩⟩
    | ok hosts =>
      constructor
      · rintro ⟨err, herr⟩
        exact absurd herr (by simp)
      · rintro ⟨err, herr⟩
        exact absurd herr (by simp)
  · intro before sel after cause hsplit hbefore hfail
    unfold IngressGateway
    rw [hsplit, collectExportedHosts_first_failure _ _ _ _ _ _ hbefore hfail]
  · intro hok
    unfold IngressGateway
    rw [collectExportedHosts_of_ok _ _ _ hok]
    exact ⟨_, rfl⟩

theorem IngressGateway_error_iff_witness :
    IngressGateway factorySecondFails =
      .error (Error.listServices [("team", "payments")] errUnavailable) :=
  (IngressGateway_error_iff factorySecondFails).2.1 [selectorExport] selectorTeam [] errUnavailable
    rfl (fun _ _ => ⟨[svcBilling], by simp_all [factorySecondFails, factoryWith, selectorExport, selectorTeam]⟩) (by decide)

/-! ## DestinationRules -/

/-- C6 fails on the code: with two remotes behind an OpenShift router that import the same
hostname, `DestinationRules` returns the rule `mtls-sni-billing-ns1-svc-cluster-local` twice,
whatever the methods of the remotes return. The map that should record the emitted names is
never written to. -/
theorem DestinationRules_same_name_twice :
    ∀ deps : Deps, ∃ rules, DestinationRules deps factoryTwoRemotes = .ok rules ∧
      rules.map (fun rule => rule.ObjectMeta.Name) =
        ["mtls-sni-" ++
            separateWithDash (deps.ServiceName remoteA ++ "." ++ "istio-system" ++
              ".svc.cluster.local"),
          "mtls-sni-billing-ns1-svc-cluster-local",
          "mtls-sni-" ++
            separateWithDash (deps.ServiceName remoteB ++ "." ++ "istio-system" ++
              ".svc.cluster.local"),
          "mtls-sni-billing-ns1-svc-cluster-local"] ∧
      ¬ (rules.map (fun rule => rule.ObjectMeta.Name)).Nodup := by
  intro deps
  have hnames : ∃ rules, DestinationRules deps factoryTwoRemotes = .ok rules ∧
      rules.map (fun rule => rule.ObjectMeta.Name) =
        ["mtls-sni-" ++
            separateWithDash (deps.ServiceName remoteA ++ "." ++ "istio-system" ++
              ".svc.cluster.local"),
          "mtls-sni-billing-ns1-svc-cluster-local",
          "mtls-sni-" ++
            separateWithDash (deps.ServiceName remoteB ++ "." ++ "istio-system" ++
              ".svc.cluster.local"),
          "mtls-sni-billing-ns1-svc-cluster-local"] := ⟨_, rfl, rfl⟩
  obtain ⟨rules, hrules, hmap⟩ := hnames
  refine ⟨rules, hrules, hmap, ?_⟩
  rw [hmap]
  intro hnd
  simp [List.nodup_cons] at hnd

/-! ## ServiceEntries and WorkloadEntries -/

/-- C7 fails on the code: remotes `rA` and `rB`, one address each, import the same hostname and
no local service has it. Whatever the methods of the remotes return and in whatever order the map
is walked, `ServiceEntries` returns two imported-service entries with that host, named after the
two remotes, and every entry it returns has one endpoint; no entry has the two endpoints. -/
theorem ServiceEntries_same_host_not_merged :
    ∀ (deps : Deps) (valuesOrder : List ServiceEntry → List ServiceEntry),
      (∀ entries, (valuesOrder entries).Perm entries) →
      ∃ discovery byName out,
        serviceEntriesLoop deps factoryTwoRemotes [remoteA, remoteB] ([], []) =
          .ok (discovery, byName) ∧
        discovery.map (fun entry => (entry.ObjectMeta.Name, entry.Spec.Endpoints.map (·.Address))) =
          [(deps.ServiceName remoteA, ["10.0.0.1"]), (deps.ServiceName remoteB, ["10.0.0.2"])] ∧
        byName.map (fun kv => (kv.1, kv.2.Spec.Hosts, kv.2.Spec.Endpoints.map (·.Address))) =
          [("import-billing-ns1-svc-cluster-local-rA", ["billing.ns1.svc.cluster.local"],
              ["10.0.0.1"]),
            ("import-billing-ns1-svc-cluster-local-rB", ["billing.ns1.svc.cluster.local"],
              ["10.0.0.2"])] ∧
        ServiceEntries deps factoryTwoRemotes valuesOrder = .ok out ∧
        out = discovery ++ valuesOrder (mapValues byName) ∧
        2 ≤ out.countP (fun entry => entry.Spec.Hosts = ["billing.ns1.svc.cluster.local"]) ∧
        ∀ entry ∈ out, entry.Spec.Endpoints.length = 1 := by
  intro deps valuesOrder hperm
  have hloop : ∃ discovery byName,
      serviceEntriesLoop deps factoryTwoRemotes [remoteA, remoteB] ([], []) =
        .ok (discovery, byName) ∧
      discovery.map (fun entry => (entry.ObjectMeta.Name, entry.Spec.Endpoints.map (·.Address))) =
        [(deps.ServiceName remoteA, ["10.0.0.1"]), (deps.ServiceName remoteB, ["10.0.0.2"])] ∧
      byName.map (fun kv => (kv.1, kv.2.Spec.Hosts, kv.2.Spec.Endpoints.map (·.Address))) =
        [("import-billing-ns1-svc-cluster-local-rA", ["billing.ns1.svc.cluster.local"],
            ["10.0.0.1"]),
          ("import-billing-ns1-svc-cluster-local-rB", ["billing.ns1.svc.cluster.local"],
            ["10.0.0.2"])] :=
    ⟨_, _, rfl, rfl, rfl⟩
  obtain ⟨discovery, byName, hl, hdisc, hmap⟩ := hloop
  refine ⟨discovery, byName, discovery ++ valuesOrder (mapValues byName), hl, hdisc, hmap,
    ?_, rfl, ?_, ?_⟩
  · show (match serviceEntriesLoop deps factoryTwoRemotes [remoteA, remoteB] ([], []) with
      | .panic site => Outcome.panic site
      | .error err => Outcome.error err
      | .ok (serviceEntries, serviceEntriesByName) =>
        Outcome.ok (serviceEntries ++ valuesOrder (mapValues serviceEntriesByName))) = _
    rw [hl]
  · have hcount : (mapValues byName).countP
        (fun entry => entry.Spec.Hosts = ["billing.ns1.svc.cluster.local"]) = 2 := by
      have h := congrArg
        (List.countP (fun t : String × List String × List String =>
          decide (t.2.1 = ["billing.ns1.svc.cluster.local"]))) hmap
      rw [List.countP_map] at h
      rw [mapValues, List.countP_map]
      exact h.trans (by decide)
    rw [List.countP_append, (hperm _).countP_eq, hcount]
    exact Nat.le_add_left _ _
  · intro entry hentry
    rcases List.mem_append.mp hentry with h | h
    · have hm : (entry.ObjectMeta.Name, entry.Spec.Endpoints.map (·.Address)) ∈
          discovery.map (fun entry =>
            (entry.ObjectMeta.Name, entry.Spec.Endpoints.map (·.Address))) :=
        List.mem_map_of_mem _ h
      rw [hdisc] at hm
      simp only [List.mem_cons, Prod.mk.injEq, List.not_mem_nil, or_false] at hm
      rcases hm with ⟨_, he⟩ | ⟨_, he⟩ <;>
        simpa using congrArg List.length he
    · have hv := (hperm _).mem_iff.mp h
      obtain ⟨kv, hkv, rfl⟩ := List.mem_map.mp hv
      have hm : (kv.1, kv.2.Spec.Hosts, kv.2.Spec.Endpoints.map (·.Address)) ∈
          byName.map (fun kv => (kv.1, kv.2.Spec.Hosts, kv.2.Spec.Endpoints.map (·.Address))) :=
        List.mem_map_of_mem _ hkv
      rw [hmap] at hm
      simp only [List.mem_cons, Prod.mk.injEq, List.not_mem_nil, or_false] at hm
      rcases hm with ⟨_, _, he⟩ | ⟨_, _, he⟩ <;>
        simpa using congrArg List.length he

theorem ServiceEntries_same_host_not_merged_witness :
    ∃ discovery byName out,
      serviceEntriesLoop sampleDeps factoryTwoRemotes [remoteA, remoteB] ([], []) =
        .ok (discovery, byName) ∧
      discovery.map (fun entry => (entry.ObjectMeta.Name, entry.Spec.Endpoints.map (·.Address))) =
        [(sampleDeps.ServiceName remoteA, ["10.0.0.1"]),
          (sampleDeps.ServiceName remoteB, ["10.0.0.2"])] ∧
      byName.map (fun kv => (kv.1, kv.2.Spec.Hosts, kv.2.Spec.Endpoints.map (·.Address))) =
        [("import-billing-ns1-svc-cluster-local-rA", ["billing.ns1.svc.cluster.local"],
            ["10.0.0.1"]),
          ("import-billing-ns1-svc-cluster-local-rB", ["billing.ns1.svc.cluster.local"],
            ["10.0.0.2"])] ∧
      ServiceEntries sampleDeps factoryTwoRemotes id = .ok out ∧
      out = discovery ++ id (mapValues byName) ∧
      2 ≤ out.countP (fun entry => entry.Spec.Hosts = ["billing.ns1.svc.cluster.local"]) ∧
      ∀ entry ∈ out, entry.Spec.Endpoints.length = 1 :=
  ServiceEntries_same_host_not_merged sampleDeps id (fun _ => List.Perm.refl _)

/-- C8: when `ServiceEntries` returns, its result starts with exactly one discovery entry per
remote that has an address, in the order of the remotes, and each of them is resolved STATIC if
the first address of its remote is an IP literal and DNS otherwise; every other entry is an
imported-service entry created for a remote with an address and carries the mode decided by the
first address of that remote alone. A remote without address contributes nothing: the call gives
the same result as on the configuration without such remotes. -/
theorem ServiceEntries_discovery_and_resolution (deps : Deps) (cf : ConfigFactory)
    (valuesOrder : List ServiceEntry → List ServiceEntry)
    (hperm : ∀ entries, (valuesOrder entries).Perm entries) :
    ServiceEntries deps
        { cf with cfg := { cf.cfg with MeshPeers := { cf.cfg.MeshPeers with
          Remotes := cf.cfg.MeshPeers.Remotes.filter fun remote => remote.Addresses ≠ [] } } }
        valuesOrder = ServiceEntries deps cf valuesOrder ∧
    ∀ out, ServiceEntries deps cf valuesOrder = .ok out →
      ∃ discovery imported, out = discovery ++ imported ∧
        List.Forall₂
          (fun remote entry => ∃ firstAddress others,
            remote.Addresses = firstAddress :: others ∧
            serviceEntryForRemoteFederationController deps cf remote = some entry ∧
            entry.ObjectMeta.Name = deps.ServiceName remote ∧
            entry.Spec.Hosts = [deps.ServiceFQDN remote] ∧
            entry.Spec.Resolution =
              if deps.IsIP firstAddress then Resolution.STATIC else Resolution.DNS)
          (cf.cfg.MeshPeers.Remotes.filter fun remote => remote.Addresses ≠ []) discovery ∧
        ∀ entry ∈ imported, ∃ remote ∈ cf.cfg.MeshPeers.Remotes, ∃ firstAddress others,
          remote.Addresses = firstAddress :: others ∧
          ∃ svc ∈ cf.importedServiceStore remote,
            entry.ObjectMeta.Name =
              "import-" ++ separateWithDash svc.Hostname ++ "-" ++ remote.Name ∧
            entry.Spec.Hosts = [svc.Hostname] ∧
            entry.Spec.Resolution =
              if deps.IsIP firstAddress then Resolution.STATIC else Resolution.DNS := by
  refine ⟨?_, ?_⟩
  · exact ServiceEntries_withAddress deps _ cf valuesOrder rfl rfl rfl rfl
  · intro out hout
    obtain ⟨byName, rfl, hinv, _⟩ := ServiceEntries_eq_ok deps cf valuesOrder out hout
    refine ⟨_, _, rfl, discoveryEntries_forall₂ deps cf cf.cfg.MeshPeers.Remotes, ?_⟩
    intro entry hentry
    obtain ⟨kv, hkv, rfl⟩ := List.mem_map.mp ((hperm _).mem_iff.mp hentry)
    obtain ⟨remote, hr, firstAddress, others, ha, svc, hsvc, _, _, hn, hh, hres⟩ := hinv kv hkv
    exact ⟨remote, hr, firstAddress, others, ha, svc, hsvc, hn, hh, hres⟩

theorem ServiceEntries_discovery_and_resolution_witness :
    ∃ out, ServiceEntries sampleDeps factoryThreeRemotes id = .ok out ∧
      out.map (fun entry => (entry.ObjectMeta.Name, entry.Spec.Resolution)) =
        [("federation-discovery-service-rA", Resolution.STATIC),
          ("federation-discovery-service-rD", Resolution.DNS),
          ("import-billing-ns1-svc-cluster-local-rA", Resolution.STATIC),
          ("import-billing-ns1-svc-cluster-local-rD", Resolution.DNS)] ∧
      ∃ discovery imported, out = discovery ++ imported ∧
        List.Forall₂
          (fun remote entry => ∃ firstAddress others,
            remote.Addresses = firstAddress :: others ∧
            serviceEntryForRemoteFederationController sampleDeps factoryThreeRemotes remote =
              some entry ∧
            entry.ObjectMeta.Name = sampleDeps.ServiceName remote ∧
            entry.Spec.Hosts = [sampleDeps.ServiceFQDN remote] ∧
            entry.Spec.Resolution =
              if sampleDeps.IsIP firstAddress then Resolution.STATIC else Resolution.DNS)
          (factoryThreeRemotes.cfg.MeshPeers.Remotes.filter fun remote => remote.Addresses ≠ [])
          discovery ∧
        ∀ entry ∈ imported, ∃ remote ∈ factoryThreeRemotes.cfg.MeshPeers.Remotes,
          ∃ firstAddress others, remote.Addresses = firstAddress :: others ∧
          ∃ svc ∈ factoryThreeRemotes.importedServiceStore remote,
            entry.ObjectMeta.Name =
              "import-" ++ separateWithDash svc.Hostname ++ "-" ++ remote.Name ∧
            entry.Spec.Hosts = [svc.Hostname] ∧
            entry.Spec.Resolution =
              if sampleDeps.IsIP firstAddress then Resolution.STATIC else Resolution.DNS :=
  ⟨_, rfl, by decide,
    (ServiceEntries_discovery_and_resolution sampleDeps factoryThreeRemotes id
      (fun _ => List.Perm.refl _)).2 _ rfl⟩

/-- C10, as stated, fails: remote `x` imports three services whose entry name is the same,
`import-web-team-a-prod-svc-cluster-local-x`. The hostname `web.team-a-prod.svc.cluster.local`
has no local service and yet no returned entry has it as host: its endpoints went into the entry
created for `web-team.a-prod.svc.cluster.local`. The hostname `web-team-a.prod.svc.cluster.local`
has a local service and gets a workload entry, and yet `ServiceEntries` returns an entry under
the name derived from it. -/
theorem ServiceEntries_entry_name_clash :
    ∃ out workloadEntries,
      ServiceEntries sampleDeps factoryNameClash id = .ok out ∧
      WorkloadEntries sampleDeps factoryNameClash = .ok workloadEntries ∧
      out.map (fun entry =>
          (entry.ObjectMeta.Name, entry.Spec.Hosts, entry.Spec.Endpoints.map (·.Address))) =
        [("federation-discovery-service-x",
            ["federation-discovery-service-x.istio-system.svc.cluster.local"], ["10.0.0.1"]),
          ("import-web-team-a-prod-svc-cluster-local-x", ["web-team.a-prod.svc.cluster.local"],
            ["10.0.0.1", "10.0.0.1"])] ∧
      workloadEntries.map (fun entry => (entry.ObjectMeta.Name, entry.ObjectMeta.Namespace)) =
        [("import-x-web-team-a-0", "prod")] ∧
      probe factoryNameClash importedWeb.Hostname = Probe.notFound ∧
      (∀ entry ∈ out, entry.Spec.Hosts ≠ [importedWeb.Hostname]) ∧
      probe factoryNameClash importedWebTeamA.Hostname = Probe.found ∧
      (∃ entry ∈ out, entry.ObjectMeta.Name =
        "import-" ++ separateWithDash importedWebTeamA.Hostname ++ "-" ++ remoteX.Name) :=
  ⟨_, _, rfl, rfl, by decide, by decide, by decide, by decide, by decide, by decide⟩

/-- C10, as the code has it: when every probe ends with found or not-found, both calls return.
For every remote with an address and every service imported from it: an imported-service entry
with the hostname of the service as host is returned only if no local service with its name and
namespace exists; when none exists, such an entry is returned under the name
`import-<hostname dashed>-<remote name>`, provided no imported service with another hostname
has that same entry name; `WorkloadEntries` returns the entries built for the services that
exist locally and no others; and no service gets both an entry with its host and workload
entries. -/
theorem ServiceEntries_WorkloadEntries_complementary (deps : Deps) (cf : ConfigFactory)
    (valuesOrder : List ServiceEntry → List ServiceEntry)
    (hperm : ∀ entries, (valuesOrder entries).Perm entries)
    (hall : ∀ x ∈ importedHostnames cf cf.cfg.MeshPeers.Remotes,
      probe cf x = Probe.found ∨ probe cf x = Probe.notFound) :
    ∃ imported,
      ServiceEntries deps cf valuesOrder =
        .ok (discoveryEntries deps cf cf.cfg.MeshPeers.Remotes ++ imported) ∧
      WorkloadEntries deps cf = .ok (cf.cfg.MeshPeers.Remotes.flatMap fun remote =>
        (cf.importedServiceStore remote).flatMap (workloadEntriesOf deps cf remote)) ∧
      ∀ remote ∈ cf.cfg.MeshPeers.Remotes, remote.Addresses ≠ [] →
        ∀ svc ∈ cf.importedServiceStore remote,
          ((∃ entry ∈ imported, entry.Spec.Hosts = [svc.Hostname]) →
            probe cf svc.Hostname = Probe.notFound) ∧
          ((∀ remote' ∈ cf.cfg.MeshPeers.Remotes, ∀ svc' ∈ cf.importedServiceStore remote',
              svcEntryName svc' remote' = svcEntryName svc remote →
              svc'.Hostname = svc.Hostname) →
            probe cf svc.Hostname = Probe.notFound →
            ∃ entry ∈ imported,
              entry.ObjectMeta.Name =
                "import-" ++ separateWithDash svc.Hostname ++ "-" ++ remote.Name ∧
              entry.Spec.Hosts = [svc.Hostname]) ∧
          (workloadEntriesOf deps cf remote svc ≠ [] → probe cf svc.Hostname = Probe.found) ∧
          ¬ ((∃ entry ∈ imported, entry.Spec.Hosts = [svc.Hostname]) ∧
            workloadEntriesOf deps cf remote svc ≠ []) := by
  obtain ⟨out, hout⟩ := stopOf_eq_none _
    ((ServiceEntries_stop deps cf valuesOrder).trans
      (completes_of_cases cf _
        (fun x hx => hall x (importedHostnames_withAddress_subset cf _ x hx))))
  obtain ⟨wes, hwes⟩ := stopOf_eq_none (WorkloadEntries deps cf)
    ((workloadEntriesLoop_stop deps cf _ []).trans (completes_of_cases cf _ hall))
  obtain ⟨byName, rfl, hinv, hhas⟩ := ServiceEntries_eq_ok deps cf valuesOrder out hout
  have hhost : ∀ svc : ImportedService,
      (∃ entry ∈ valuesOrder (mapValues byName), entry.Spec.Hosts = [svc.Hostname]) →
      probe cf svc.Hostname = Probe.notFound := by
    rintro svc ⟨entry, hentry, hhosts⟩
    obtain ⟨kv, hkv, rfl⟩ := List.mem_map.mp ((hperm _).mem_iff.mp hentry)
    obtain ⟨r, _, _, _, _, s, _, hp, _, _, hh, _⟩ := hinv kv hkv
    rw [hh] at hhosts
    simp only [List.cons.injEq, and_true] at hhosts
    rw [← hhosts]
    exact hp
  refine ⟨valuesOrder (mapValues byName), hout, ?_, ?_⟩
  · rw [hwes, WorkloadEntries_eq_ok deps cf wes hwes]
  · intro remote hr hne svc hsvc
    refine ⟨hhost svc, ?_, workloadEntriesOf_ne_nil deps cf remote svc, ?_⟩
    · intro hclash hnf
      obtain ⟨entry, hget, _⟩ := hhas remote hr hne svc hsvc hnf
      have hmem := mem_of_mapGet _ _ _ hget
      obtain ⟨r, hr', _, _, _, s, hs', _, hk, hn, hh, _⟩ := hinv _ hmem
      refine ⟨entry, ?_, hn.trans hk.symm, ?_⟩
      · exact (hperm _).mem_iff.mpr (List.mem_map.mpr ⟨_, hmem, rfl⟩)
      · rw [hh, hclash r hr' s hs' hk.symm]
    · rintro ⟨hentry, hwe⟩
      have h₁ := hhost svc hentry
      have h₂ := workloadEntriesOf_ne_nil deps cf remote svc hwe
      rw [h₁] at h₂
      exact absurd h₂ (by simp)

theorem ServiceEntries_WorkloadEntries_complementary_witness :
    (∀ x ∈ importedHostnames factoryMixed factoryMixed.cfg.MeshPeers.Remotes,
      probe factoryMixed x = Probe.found ∨ probe factoryMixed x = Probe.notFound) ∧
    probe factoryMixed importedBilling.Hostname = Probe.found ∧
    probe factoryMixed importedCatalog.Hostname = Probe.notFound ∧
    ∃ imported,
      ServiceEntries sampleDeps factoryMixed id =
        .ok (discoveryEntries sampleDeps factoryMixed factoryMixed.cfg.MeshPeers.Remotes ++
          imported) ∧
      WorkloadEntries sampleDeps factoryMixed =
        .ok (factoryMixed.cfg.MeshPeers.Remotes.flatMap fun remote =>
          (factoryMixed.importedServiceStore remote).flatMap
            (workloadEntriesOf sampleDeps factoryMixed remote)) :=
  ⟨by decide, by decide, by decide,
    (ServiceEntries_WorkloadEntries_complementary sampleDeps factoryMixed id
      (fun _ => List.Perm.refl _) (by decide)).imp fun _ h => ⟨h.1, h.2.1⟩⟩

/-- C11: when `WorkloadEntries` returns, its result is, remote after remote and imported service
after imported service, the block of entries of each service; for a service whose name and
namespace, the first two labels of its hostname, are those of an existing local service, the
block has exactly one entry per address resolved from the addresses of the remote, in the order
of the resolution, and the entry at index `i` is named `import-<remote name>-<service>-<i>`, is
in the namespace of the matched service and has the `i`-th resolved address. -/
theorem WorkloadEntries_one_per_resolved_address (deps : Deps) (cf : ConfigFactory)
    (out : List WorkloadEntry) (h : WorkloadEntries deps cf = .ok out) :
    out = (cf.cfg.MeshPeers.Remotes.flatMap fun remote =>
      (cf.importedServiceStore remote).flatMap (workloadEntriesOf deps cf remote)) ∧
    ∀ remote svc svcName svcNs found,
      getServiceNameAndNs svc.Hostname = some (svcName, svcNs) →
      cf.serviceLister.Get svcNs svcName = .ok found →
      (workloadEntriesOf deps cf remote svc).map
          (fun entry => (entry.ObjectMeta.Name, entry.ObjectMeta.Namespace, entry.Spec.Address)) =
        (deps.Resolve remote.Addresses).enum.map fun indexed =>
          ("import-" ++ remote.Name ++ "-" ++ svcName ++ "-" ++ toString indexed.1, svcNs,
            indexed.2) := by
  refine ⟨WorkloadEntries_eq_ok deps cf out h, ?_⟩
  intro remote svc svcName svcNs found hn hg
  simp [workloadEntriesOf, hn, hg, workloadEntriesFor, List.map_map, Function.comp_def]

theorem WorkloadEntries_one_per_resolved_address_witness :
    ∃ out, WorkloadEntries sampleDeps factoryBillingLocal = .ok out ∧
      out.map (fun entry =>
          (entry.ObjectMeta.Name, entry.ObjectMeta.Namespace, entry.Spec.Address)) =
        [("import-rA-billing-0", "ns1", "10.0.0.1")] ∧
      out = (factoryBillingLocal.cfg.MeshPeers.Remotes.flatMap fun remote =>
        (factoryBillingLocal.importedServiceStore remote).flatMap
          (workloadEntriesOf sampleDeps factoryBillingLocal remote)) :=
  ⟨_, rfl, by decide,
    (WorkloadEntries_one_per_resolved_address sampleDeps factoryBillingLocal _ rfl).1⟩

/-- C12, as stated, fails: in Scenario A with the service absent no returned entry is named
`import-billing-ns1-rA`; the entry for the imported service carries the whole hostname in its
name. -/
theorem ServiceEntries_scenarioA_name :
    ∃ out, ServiceEntries sampleDeps factoryBillingAbsent id = .ok out ∧
      out.map (fun entry => entry.ObjectMeta.Name) =
        ["federation-discovery-service-rA", "import-billing-ns1-svc-cluster-local-rA"] ∧
      ∀ entry ∈ out, entry.ObjectMeta.Name ≠ "import-billing-ns1-rA" :=
  ⟨_, rfl, by decide, by decide⟩

/-- C12, as the code has it: in Scenario A with the service absent, whatever the methods of the
remote return and in whatever order the map is walked, `ServiceEntries` returns the discovery
entry of `rA` followed by one imported-service entry; that entry is named
`import-billing-ns1-svc-cluster-local-rA`, has the imported hostname as host, the port
`grpc/7070`, and exactly one endpoint, whose address is `10.0.0.1`. -/
theorem ServiceEntries_scenarioA_absent (deps : Deps)
    (valuesOrder : List ServiceEntry → List ServiceEntry)
    (hperm : ∀ entries, (valuesOrder entries).Perm entries) :
    ∃ discovery imported,
      ServiceEntries deps factoryBillingAbsent valuesOrder = .ok [discovery, imported] ∧
      serviceEntryForRemoteFederationController deps factoryBillingAbsent remoteA =
        some discovery ∧
      imported.ObjectMeta.Name = "import-billing-ns1-svc-cluster-local-rA" ∧
      imported.Spec.Hosts = ["billing.ns1.svc.cluster.local"] ∧
      imported.Spec.Ports =
        [{ Name := "grpc", Number := 7070, Protocol := "GRPC", TargetPort := 7070 }] ∧
      imported.Spec.Endpoints.map (·.Address) = ["10.0.0.1"] := by
  have hloop : ∃ discovery imported,
      serviceEntriesLoop deps factoryBillingAbsent
          factoryBillingAbsent.cfg.MeshPeers.Remotes ([], []) =
        .ok ([discovery], [("import-billing-ns1-svc-cluster-local-rA", imported)]) ∧
      serviceEntryForRemoteFederationController deps factoryBillingAbsent remoteA =
        some discovery ∧
      imported.ObjectMeta.Name = "import-billing-ns1-svc-cluster-local-rA" ∧
      imported.Spec.Hosts = ["billing.ns1.svc.cluster.local"] ∧
      imported.Spec.Ports =
        [{ Name := "grpc", Number := 7070, Protocol := "GRPC", TargetPort := 7070 }] ∧
      imported.Spec.Endpoints.map (·.Address) = ["10.0.0.1"] :=
    ⟨_, _, rfl, rfl, rfl, rfl, rfl, rfl⟩
  obtain ⟨discovery, imported, hl, hd, hn, hh, hp, he⟩ := hloop
  refine ⟨discovery, imported, ?_, hd, hn, hh, hp, he⟩
  unfold ServiceEntries
  rw [hl]
  simp only [mapValues, List.map_cons, List.map_nil, List.singleton_append]
  rw [List.perm_singleton.mp (hperm [imported])]

theorem ServiceEntries_scenarioA_absent_witness :
    ∃ discovery imported,
      ServiceEntries sampleDeps factoryBillingAbsent id = .ok [discovery, imported] ∧
      serviceEntryForRemoteFederationController sampleDeps factoryBillingAbsent remoteA =
        some discovery ∧
      imported.ObjectMeta.Name = "import-billing-ns1-svc-cluster-local-rA" ∧
      imported.Spec.Hosts = ["billing.ns1.svc.cluster.local"] ∧
      imported.Spec.Ports =
        [{ Name := "grpc", Number := 7070, Protocol := "GRPC", TargetPort := 7070 }] ∧
      imported.Spec.Endpoints.map (·.Address) = ["10.0.0.1"] :=
  ServiceEntries_scenarioA_absent sampleDeps id (fun _ => List.Perm.refl _)

/-- C13, as stated, fails: Go does not fix the order in which a map is walked, so two calls of
`ServiceEntries` on the same inputs may take the values of `serviceEntriesByName` in different
orders. With remotes `rA` and `rB` importing the same hostname, walking the map in one order and
in the reverse order gives two results that are not equal. -/
theorem ServiceEntries_order_differs :
    (∀ entries : List ServiceEntry, (id entries).Perm entries) ∧
    (∀ entries : List ServiceEntry, (List.reverse entries).Perm entries) ∧
    (∃ out, ServiceEntries sampleDeps factoryTwoRemotes id = .ok out ∧
      out.map (fun entry => entry.ObjectMeta.Name) =
        ["federation-discovery-service-rA", "federation-discovery-service-rB",
          "import-billing-ns1-svc-cluster-local-rA",
          "import-billing-ns1-svc-cluster-local-rB"]) ∧
    (∃ out, ServiceEntries sampleDeps factoryTwoRemotes List.reverse = .ok out ∧
      out.map (fun entry => entry.ObjectMeta.Name) =
        ["federation-discovery-service-rA", "federation-discovery-service-rB",
          "import-billing-ns1-svc-cluster-local-rB",
          "import-billing-ns1-svc-cluster-local-rA"]) ∧
    ServiceEntries sampleDeps factoryTwoRemotes id ≠
      ServiceEntries sampleDeps factoryTwoRemotes List.reverse :=
  ⟨fun _ => List.Perm.refl _, fun entries => List.reverse_perm entries,
    ⟨_, rfl, by decide⟩, ⟨_, rfl, by decide⟩, by decide⟩

/-- C13, as the code has it: two calls of `ServiceEntries` on the same inputs, each walking the
map in an order of its own, end alike: with the same error, at the same failing index, or with
results that hold the same discovery entries in the same order, followed by the same
imported-service entries in possibly different orders; the results are equal when at most one
imported-service entry is returned. -/
theorem ServiceEntries_equal_up_to_map_order (deps : Deps) (cf : ConfigFactory)
    (order₁ order₂ : List ServiceEntry → List ServiceEntry)
    (h₁ : ∀ entries, (order₁ entries).Perm entries)
    (h₂ : ∀ entries, (order₂ entries).Perm entries) :
    (∀ err, ServiceEntries deps cf order₁ = .error err ↔
      ServiceEntries deps cf order₂ = .error err) ∧
    (∀ site, ServiceEntries deps cf order₁ = .panic site ↔
      ServiceEntries deps cf order₂ = .panic site) ∧
    ∀ out₁, ServiceEntries deps cf order₁ = .ok out₁ →
      ∃ imported₁ imported₂,
        out₁ = discoveryEntries deps cf cf.cfg.MeshPeers.Remotes ++ imported₁ ∧
        ServiceEntries deps cf order₂ =
          .ok (discoveryEntries deps cf cf.cfg.MeshPeers.Remotes ++ imported₂) ∧
        imported₁.Perm imported₂ ∧
        (imported₁.length ≤ 1 → imported₁ = imported₂) := by
  unfold ServiceEntries
  cases hl : serviceEntriesLoop deps cf cf.cfg.MeshPeers.Remotes ([], []) with
  | error err => simp
  | panic site => simp
  | ok state =>
    obtain ⟨serviceEntries, byName⟩ := state
    obtain ⟨hses, _, _, _⟩ := serviceEntriesLoop_spec deps cf cf.cfg.MeshPeers.Remotes
      [] serviceEntries [] byName (fun _ hr => hr) (by simp) hl
    simp only [List.nil_append] at hses
    subst hses
    refine ⟨by simp, by simp, ?_⟩
    intro out₁ hout
    simp only [Outcome.ok.injEq] at hout
    have hp : (order₁ (mapValues byName)).Perm (order₂ (mapValues byName)) :=
      (h₁ _).trans (h₂ _).symm
    refine ⟨order₁ (mapValues byName), order₂ (mapValues byName), hout.symm, rfl, hp, ?_⟩
    intro hlen
    cases hv : order₁ (mapValues byName) with
    | nil =>
      rw [hv] at hp
      exact (List.nil_perm.mp hp).symm
    | cons entry rest =>
      cases rest with
      | nil =>
        rw [hv] at hp
        exact List.singleton_perm.mp hp
      | cons entry' rest' =>
        rw [hv] at hlen
        simp at hlen

theorem ServiceEntries_equal_up_to_map_order_witness :
    ∃ imported₁ imported₂,
      ServiceEntries sampleDeps factoryTwoRemotes id =
        .ok (discoveryEntries sampleDeps factoryTwoRemotes
          factoryTwoRemotes.cfg.MeshPeers.Remotes ++ imported₁) ∧
      ServiceEntries sampleDeps factoryTwoRemotes List.reverse =
        .ok (discoveryEntries sampleDeps factoryTwoRemotes
          factoryTwoRemotes.cfg.MeshPeers.Remotes ++ imported₂) ∧
      imported₁.Perm imported₂ := by
  obtain ⟨imported₁, imported₂, hout, hrev, hp, _⟩ :=
    (ServiceEntries_equal_up_to_map_order sampleDeps factoryTwoRemotes id List.reverse
      (fun _ => List.Perm.refl _) (fun entries => List.reverse_perm entries)).2.2 _ rfl
  exact ⟨imported₁, imported₂, congrArg Outcome.ok hout, hrev, hp⟩

/-! ## EnvoyFilters -/

/-- C15: `EnvoyFilters` returns no filter when the local ingress is not an OpenShift router,
whatever the lister returns; when it is one and no listing fails, it returns one filter for the
discovery endpoint and one for every port of every service that the lister returns, selector
after selector, so that their number is one plus the total number of those ports. -/
theorem EnvoyFilters_count (cf : ConfigFactory) :
    (cf.cfg.MeshPeers.Local.IngressType ≠ IngressType.OpenShiftRouter → EnvoyFilters cf = []) ∧
    (cf.cfg.MeshPeers.Local.IngressType = IngressType.OpenShiftRouter → noListingFails cf →
      (EnvoyFilters cf).length =
        1 + (cf.cfg.ExportedServiceSet.GetLabelSelectors.map fun sel =>
          match cf.serviceLister.List sel.MatchLabels with
          | .ok services => (services.map fun svc => svc.Ports.length).sum
          | .error _ => 0).sum) := by
  refine ⟨?_, ?_⟩
  · intro h
    unfold EnvoyFilters
    rw [if_pos h]
  · intro h _
    rw [EnvoyFilters_router cf h, List.length_cons, length_flatMap_envoyFiltersOf,
      sum_ports_listedServices, Nat.add_comm]

theorem EnvoyFilters_count_witness :
    EnvoyFilters factoryCatalogFirst = [] ∧ (EnvoyFilters factoryScenarioB).length = 1 + 1 :=
  ⟨(EnvoyFilters_count factoryCatalogFirst).1 (by decide),
    (EnvoyFilters_count factoryScenarioB).2 rfl (fun _ _ => ⟨_, rfl⟩)⟩

/-- C16 fails on the code: with an OpenShift router as local ingress and two export selectors,
of which the first cannot be listed, `EnvoyFilters` returns the filter of the discovery endpoint
and the filter of the service matched by the second selector, as on a success; the function has
no error result. On the same input `IngressGateway` returns the wrapped error. -/
theorem EnvoyFilters_listing_failure_dropped :
    routerFactoryFirstFails.serviceLister.List selectorTeam.MatchLabels =
      .error errUnavailable ∧
    (EnvoyFilters routerFactoryFirstFails).map (fun filter => filter.ObjectMeta.Name) =
      ["sni-federation-discovery-service-west-istio-system-15080", "sni-catalog-ns2-8080"] ∧
    IngressGateway routerFactoryFirstFails =
      .error (Error.listServices selectorTeam.MatchLabels errUnavailable) := by
  decide

/-! ## The peer label -/

/-- C17, as stated, fails: for the local peer `west` and the remote `rA`, every object of the
five operations carries the label `federation.openshift-service-mesh.io/peer` with the value
`todo`, which is the name of neither peer. -/
theorem peer_label_is_placeholder :
    factoryAllObjects.cfg.MeshPeers.Local.Name = "west" ∧
    factoryAllObjects.cfg.MeshPeers.Remotes.map (·.Name) = ["rA"] ∧
    "todo" ∉ factoryAllObjects.cfg.MeshPeers.Local.Name ::
      factoryAllObjects.cfg.MeshPeers.Remotes.map (·.Name) ∧
    (∃ rules, DestinationRules sampleDeps factoryAllObjects = .ok rules ∧
      rules.map (·.ObjectMeta.Labels) =
        List.replicate 3 [("federation.openshift-service-mesh.io/peer", "todo")]) ∧
    (∃ gateway, IngressGateway factoryAllObjects = .ok gateway ∧
      gateway.ObjectMeta.Labels = [("federation.openshift-service-mesh.io/peer", "todo")]) ∧
    (EnvoyFilters factoryAllObjects).map (·.ObjectMeta.Labels) =
      List.replicate 2 [("federation.openshift-service-mesh.io/peer", "todo")] ∧
    (∃ entries, ServiceEntries sampleDeps factoryAllObjects id = .ok entries ∧
      entries.map (·.ObjectMeta.Labels) =
        List.replicate 2 [("federation.openshift-service-mesh.io/peer", "todo")]) ∧
    (∃ entries, WorkloadEntries sampleDeps factoryAllObjects = .ok entries ∧
      entries.map (·.ObjectMeta.Labels) =
        List.replicate 1 [("federation.openshift-service-mesh.io/peer", "todo")]) :=
  ⟨rfl, rfl, by decide, ⟨_, rfl, by decide⟩, ⟨_, rfl, by decide⟩, by decide,
    ⟨_, rfl, by decide⟩, ⟨_, rfl, by decide⟩⟩

/-- C17, as the code has it: every object returned by `DestinationRules`, `IngressGateway`,
`EnvoyFilters`, `ServiceEntries` and `WorkloadEntries` carries exactly one label,
`federation.openshift-service-mesh.io/peer`, and its value is the constant `todo`, whatever the
peers of the configuration are. -/
theorem peer_label_constant (deps : Deps) (cf : ConfigFactory)
    (valuesOrder : List ServiceEntry → List ServiceEntry)
    (hperm : ∀ entries, (valuesOrder entries).Perm entries) :
    (∀ rules, DestinationRules deps cf = .ok rules → ∀ rule ∈ rules,
      rule.ObjectMeta.Labels = [("federation.openshift-service-mesh.io/peer", "todo")]) ∧
    (∀ gateway, IngressGateway cf = .ok gateway →
      gateway.ObjectMeta.Labels = [("federation.openshift-service-mesh.io/peer", "todo")]) ∧
    (∀ filter ∈ EnvoyFilters cf,
      filter.ObjectMeta.Labels = [("federation.openshift-service-mesh.io/peer", "todo")]) ∧
    (∀ entries, ServiceEntries deps cf valuesOrder = .ok entries → ∀ entry ∈ entries,
      entry.ObjectMeta.Labels = [("federation.openshift-service-mesh.io/peer", "todo")]) ∧
    (∀ entries, WorkloadEntries deps cf = .ok entries → ∀ entry ∈ entries,
      entry.ObjectMeta.Labels = [("federation.openshift-service-mesh.io/peer", "todo")]) := by
  refine ⟨?_, ?_, ?_, ?_, ?_⟩
  · intro rules hrules rule hrule
    unfold DestinationRules at hrules
    rw [destinationRulesLoop_ok deps cf _ _ _ hrules] at hrule
    simp only [List.nil_append, List.mem_flatMap, List.mem_cons, List.mem_map] at hrule
    obtain ⟨remote, _, rfl | ⟨svc, _, rfl⟩⟩ := hrule <;> rfl
  · intro gateway hg
    unfold IngressGateway at hg
    cases hc : collectExportedHosts cf.serviceLister cf.cfg.ExportedServiceSet.GetLabelSelectors
        [localDiscoveryHost cf] with
    | error err => simp [hc] at hg
    | ok hosts =>
      simp only [hc, Except.ok.injEq] at hg
      rw [← hg]
      rfl
  · intro filter hfilter
    by_cases hr : cf.cfg.MeshPeers.Local.IngressType = IngressType.OpenShiftRouter
    · rw [EnvoyFilters_router cf hr] at hfilter
      simp only [List.mem_cons, List.mem_flatMap, envoyFiltersOf, List.mem_map] at hfilter
      obtain rfl | ⟨svc, _, port, _, rfl⟩ := hfilter <;> rfl
    · unfold EnvoyFilters at hfilter
      rw [if_pos hr] at hfilter
      exact absurd hfilter (List.not_mem_nil _)
  · intro entries hentries entry hentry
    obtain ⟨imported, rfl, himported⟩ := ServiceEntries_imported_all deps cf valuesOrder hperm
      (fun e => e.ObjectMeta.Labels = [("federation.openshift-service-mesh.io/peer", "todo")])
      (fun _ _ h => h) (fun _ _ _ _ _ _ _ _ => rfl) entries hentries
    rcases List.mem_append.mp hentry with hd | hi
    · obtain ⟨remote, _, hsome⟩ := List.mem_filterMap.mp hd
      unfold serviceEntryForRemoteFederationController at hsome
      cases haddr : remote.Addresses with
      | nil => simp [haddr] at hsome
      | cons firstAddress others =>
        simp only [haddr, Option.some.injEq] at hsome
        rw [← hsome]
        rfl
    · exact himported entry hi
  · intro entries hentries entry hentry
    rw [WorkloadEntries_eq_ok deps cf entries hentries] at hentry
    simp only [List.mem_flatMap] at hentry
    obtain ⟨remote, _, svc, _, hmem⟩ := hentry
    unfold workloadEntriesOf at hmem
    cases hn : getServiceNameAndNs svc.Hostname with
    | none => simp [hn] at hmem
    | some names =>
      obtain ⟨svcName, svcNs⟩ := names
      simp only [hn] at hmem
      cases hg : cf.serviceLister.Get svcNs svcName with
      | error err => simp [hg] at hmem
      | ok found =>
        simp only [hg, workloadEntriesFor, List.mem_map] at hmem
        obtain ⟨indexed, _, rfl⟩ := hmem
        rfl

theorem peer_label_constant_witness :
    ∃ entries, ServiceEntries sampleDeps factoryAllObjects id = .ok entries ∧
      ∀ entry ∈ entries,
        entry.ObjectMeta.Labels = [("federation.openshift-service-mesh.io/peer", "todo")] :=
  ⟨_, rfl,
    (peer_label_constant sampleDeps factoryAllObjects id (fun _ => List.Perm.refl _)).2.2.2.1
      _ rfl⟩

/-! ## The receive loop of the discovery client -/

/-- C18: on messages `msgs` followed by a receive error, the receive loop takes up every message
of `msgs` in receive order, whatever the handlers return; it calls, in that order, for each
message whose type identifier has a registered handler, that handler once with the resources of
the message, and calls no handler for the other messages; it ends with the line that logs the
receive error, and nothing that arrives after the error changes what it does. -/
theorem handleRecv_dispatch (cfg : ADSCConfig) (msgs : List DiscoveryResponse) (err : String)
    (later : List (Except String DiscoveryResponse)) :
    invocations (handleRecv cfg (msgs.map Except.ok ++ Except.error err :: later)) =
      (msgs.filter fun msg => (mapGet cfg.Handlers msg.TypeUrl).isSome).map
        (fun msg => (msg.TypeUrl, msg.Resources)) ∧
    received (handleRecv cfg (msgs.map Except.ok ++ Except.error err :: later)) =
      msgs.map (·.TypeUrl) ∧
    (handleRecv cfg (msgs.map Except.ok ++ Except.error err :: later)).getLast? =
      some (RecvEvent.logClosed err) ∧
    handleRecv cfg (msgs.map Except.ok ++ Except.error err :: later) =
      handleRecv cfg (msgs.map Except.ok ++ [Except.error err]) := by
  induction msgs with
  | nil => simp [handleRecv, invocations, received]
  | cons msg rest ih =>
    obtain ⟨hinv, hrec, hlast, hsame⟩ := ih
    obtain ⟨h₁, h₂⟩ := handleRecv_ok_cons cfg msg
      (rest.map Except.ok ++ Except.error err :: later)
    simp only [List.map_cons, List.cons_append]
    refine ⟨?_, ?_, ?_, ?_⟩
    · rw [h₁, hinv, List.filter_cons]
      cases (mapGet cfg.Handlers msg.TypeUrl).isSome <;> simp
    · rw [h₂, hrec]
    · have hne : handleRecv cfg (rest.map Except.ok ++ Except.error err :: later) ≠ [] := by
        intro hnil
        rw [hnil] at hlast
        simp at hlast
      simp only [handleRecv]
      rw [List.getLast?_append_of_ne_nil _ hne]
      exact hlast
    · simp only [handleRecv, hsame]

/-! ## DestinationRules: the rules of the imported services -/

/-- C19: `DestinationRules` returns whenever every service with a port that is imported from a
remote behind an OpenShift router has a hostname of at least two labels. Its result holds, for
the remotes behind an OpenShift router in their order and for no other remote, the rule of the
discovery endpoint followed by one rule per imported service. The rule of an imported service is
named `mtls-sni-` followed by the hostname with every dot replaced by a dash, its host is the
hostname, and it has one port-level policy per port of the service, in port order, each for the
number of that port, with mode ISTIO_MUTUAL and SNI `<service>-<port>.<namespace>.svc.cluster.local`
made of the first two labels of the hostname. -/
theorem DestinationRules_imported_rules (deps : Deps) (cf : ConfigFactory) :
    ((∀ remote ∈ cf.cfg.MeshPeers.Remotes,
        remote.IngressType = IngressType.OpenShiftRouter →
        ∀ svc ∈ cf.importedServiceStore remote, svc.Ports ≠ [] →
          ∃ svcName svcNs rest, stringsSplit svc.Hostname '.' = svcName :: svcNs :: rest) →
      ∃ rules, DestinationRules deps cf = .ok rules) ∧
    ∀ rules, DestinationRules deps cf = .ok rules →
      rules = ((cf.cfg.MeshPeers.Remotes.filter
          fun remote => remote.IngressType = IngressType.OpenShiftRouter).flatMap
        fun remote => discoveryDestinationRule deps cf remote ::
          (cf.importedServiceStore remote).map (importedDestinationRule cf)) ∧
      ∀ remote ∈ cf.cfg.MeshPeers.Remotes,
        remote.IngressType = IngressType.OpenShiftRouter →
        ∀ svc ∈ cf.importedServiceStore remote,
          ∃ rule ∈ rules,
            rule.ObjectMeta.Name =
              "mtls-sni-" ++ String.mk (svc.Hostname.data.map fun c => if c = '.' then '-' else c) ∧
            rule.Spec.Host = svc.Hostname ∧
            ((svc.Ports = [] ∧ rule.Spec.TrafficPolicy.PortLevelSettings = []) ∨
              ∃ svcName svcNs rest,
                stringsSplit svc.Hostname '.' = svcName :: svcNs :: rest ∧
                rule.Spec.TrafficPolicy.PortLevelSettings =
                  svc.Ports.map fun port =>
                    { Port := port.Number
                      Tls := {
                        Mode := ClientTLSMode.ISTIO_MUTUAL
                        Sni := svcName ++ "-" ++ toString port.Number ++ "." ++ svcNs ++
                          ".svc.cluster.local" } }) := by
  refine ⟨?_, ?_⟩
  · intro hlabels
    unfold DestinationRules
    refine destinationRulesLoop_of_labels deps cf _ [] ?_
    intro remote hr hrouter svc hsvc hports
    obtain ⟨svcName, svcNs, rest, hsplit⟩ := hlabels remote hr hrouter svc hsvc hports
    exact ⟨(svcName, svcNs), (getServiceNameAndNs_eq_some _ _ _).mpr ⟨rest, hsplit⟩⟩
  · intro rules hrules
    unfold DestinationRules at hrules
    have heq := destinationRulesLoop_ok deps cf _ _ _ hrules
    simp only [List.nil_append] at heq
    refine ⟨heq, ?_⟩
    intro remote hr hrouter svc hsvc
    refine ⟨importedDestinationRule cf svc, ?_, ?_, rfl, ?_⟩
    · rw [heq]
      exact List.mem_flatMap.mpr ⟨remote, (mem_routerRemotes _ _).mpr ⟨hr, hrouter⟩,
        List.mem_cons_of_mem _ (List.mem_map_of_mem _ hsvc)⟩
    · show "mtls-sni-" ++ separateWithDash svc.Hostname = _
      rw [separateWithDash_eq]
      rfl
    · unfold importedDestinationRule
      cases hn : getServiceNameAndNs svc.Hostname with
      | none =>
        by_cases hp : svc.Ports = []
        · exact Or.inl ⟨hp, rfl⟩
        · exact absurd hn
            (destinationRulesLoop_ok_labels deps cf _ _ _ hrules remote hr hrouter svc hsvc hp)
      | some names =>
        obtain ⟨svcName, svcNs⟩ := names
        obtain ⟨rest, hsplit⟩ := (getServiceNameAndNs_eq_some _ _ _).mp hn
        exact Or.inr ⟨svcName, svcNs, rest, hsplit, rfl⟩

theorem DestinationRules_imported_rules_witness :
    ∃ rules, DestinationRules sampleDeps factoryTwoRemotes = .ok rules ∧
      ∃ rule ∈ rules,
        rule.ObjectMeta.Name = "mtls-sni-billing-ns1-svc-cluster-local" ∧
        rule.Spec.Host = "billing.ns1.svc.cluster.local" ∧
        rule.Spec.TrafficPolicy.PortLevelSettings =
          [{ Port := 7070
             Tls := {
               Mode := ClientTLSMode.ISTIO_MUTUAL
               Sni := "billing-7070.ns1.svc.cluster.local" } }] := by
  obtain ⟨rule, hmem, hname, hhost, hsettings⟩ :=
    ((DestinationRules_imported_rules sampleDeps factoryTwoRemotes).2 _ rfl).2
      remoteA (by decide) rfl importedBilling (by decide)
  refine ⟨_, rfl, rule, hmem, hname, hhost, ?_⟩
  rcases hsettings with ⟨hports, _⟩ | ⟨svcName, svcNs, rest, hsplit, hsettings⟩
  · exact absurd hports (by decide)
  · have hlabels : stringsSplit importedBilling.Hostname '.' =
        ["billing", "ns1", "svc", "cluster", "local"] := by decide
    rw [hlabels] at hsplit
    simp only [List.cons.injEq] at hsplit
    obtain ⟨rfl, rfl, _⟩ := hsplit
    exact hsettings

/-! ## ServiceEntries: the shape of an imported-service entry -/

/-- C24, as stated, fails: the hostnames `web-team.a-prod.svc.cluster.local` and
`web.team-a-prod.svc.cluster.local` are different and have the same dashed form, so two imported
services with these hostnames get the same destination-rule name and, for the remote `x`, the
same service-entry name. -/
theorem separateWithDash_not_injective :
    importedWebTeam.Hostname ≠ importedWeb.Hostname ∧
    separateWithDash importedWebTeam.Hostname = "web-team-a-prod-svc-cluster-local" ∧
    separateWithDash importedWeb.Hostname = "web-team-a-prod-svc-cluster-local" ∧
    (createObjectMeta factoryNameClash importedWebTeam.Hostname).Name =
      (createObjectMeta factoryNameClash importedWeb.Hostname).Name ∧
    svcEntryName importedWebTeam remoteX = svcEntryName importedWeb remoteX := by
  decide

/-- C24, as the code has it: among hostnames that contain no dash, the dashed form identifies
the hostname, and so do the destination-rule name `mtls-sni-<hostname dashed>` and, for a fixed
remote name, the service-entry name `import-<hostname dashed>-<remote name>`. -/
theorem separateWithDash_injective_of_no_dash (h₁ h₂ : String)
    (hd₁ : '-' ∉ h₁.data) (hd₂ : '-' ∉ h₂.data) :
    (separateWithDash h₁ = separateWithDash h₂ → h₁ = h₂) ∧
    ("mtls-sni-" ++ separateWithDash h₁ = "mtls-sni-" ++ separateWithDash h₂ → h₁ = h₂) ∧
    (∀ remoteName : String,
      "import-" ++ separateWithDash h₁ ++ "-" ++ remoteName =
        "import-" ++ separateWithDash h₂ ++ "-" ++ remoteName → h₁ = h₂) := by
  have hinj : separateWithDash h₁ = separateWithDash h₂ → h₁ = h₂ := by
    intro h
    rw [separateWithDash_eq, separateWithDash_eq] at h
    have hdata := congrArg String.data h
    exact String.ext (dotsToDashes_injective_of_no_dash _ _ hd₁ hd₂ hdata)
  refine ⟨hinj, fun h => hinj (string_append_left_cancel _ _ _ h), ?_⟩
  intro remoteName h
  have h' : "import-" ++ separateWithDash h₁ = "import-" ++ separateWithDash h₂ :=
    string_append_right_cancel _ _ "-" (string_append_right_cancel _ _ remoteName h)
  exact hinj (string_append_left_cancel _ _ _ h')

theorem separateWithDash_injective_of_no_dash_witness :
    '-' ∉ "billing.ns1.svc.cluster.local".data ∧ '-' ∉ "catalog.ns2.svc.cluster.local".data ∧
    (separateWithDash "billing.ns1.svc.cluster.local" =
      separateWithDash "catalog.ns2.svc.cluster.local" →
      "billing.ns1.svc.cluster.local" = "catalog.ns2.svc.cluster.local") :=
  ⟨by decide, by decide,
    (separateWithDash_injective_of_no_dash "billing.ns1.svc.cluster.local"
      "catalog.ns2.svc.cluster.local" (by decide) (by decide)).1⟩

/-! ## Reads of the first address -/

/-- C23: `serviceEntryForRemoteFederationController` reads `Addresses[0]` and fails exactly for
a remote without address; inside `ServiceEntries` neither that read nor the read of
`Addresses[0]` in the loop is ever out of range, whatever the remotes are: the loop over the
remotes never fails at `remote.Addresses[0]`, and the only index at which `ServiceEntries` can
fail is the second label of an imported hostname. -/
theorem ServiceEntries_first_address_in_range (deps : Deps) (cf : ConfigFactory)
    (valuesOrder : List ServiceEntry → List ServiceEntry) :
    (∀ remote, serviceEntryForRemoteFederationController deps cf remote = none ↔
      remote.Addresses = []) ∧
    (∀ remotes state, serviceEntriesLoop deps cf remotes state ≠ .panic siteAddresses) ∧
    ServiceEntries deps cf valuesOrder ≠ .panic siteAddresses ∧
    (∀ site, ServiceEntries deps cf valuesOrder = .panic site → site = siteDomainLabels) := by
  have hsites : siteAddresses ≠ siteDomainLabels := by decide
  have hloop : ∀ remotes state site,
      serviceEntriesLoop deps cf remotes state = .panic site → site = siteDomainLabels :=
    fun remotes state site h => serviceEntriesLoop_panic_site deps cf remotes state site h
  have hall : ∀ site, ServiceEntries deps cf valuesOrder = .panic site →
      site = siteDomainLabels := by
    intro site h
    unfold ServiceEntries at h
    cases hl : serviceEntriesLoop deps cf cf.cfg.MeshPeers.Remotes ([], []) with
    | ok state => simp [hl] at h
    | error err => simp [hl] at h
    | panic site' =>
      simp only [hl, Outcome.panic.injEq] at h
      exact h ▸ hloop _ _ _ hl
  refine ⟨?_, fun remotes state h => hsites (hloop remotes state _ h),
    fun h => hsites (hall _ h), hall⟩
  intro remote
  unfold serviceEntryForRemoteFederationController
  cases remote.Addresses <;> simp

/-! ## Hostnames without a second label -/

/-- C22: `getServiceNameAndNs` returns a result exactly for the hostnames that contain a dot;
for such a hostname the service name is the text before the first dot and the namespace is the
text after it up to the second dot, or up to the end when there is no second dot; for a hostname
without dot the index of the second label is out of range. `ServiceEntries` and `WorkloadEntries`
end without a runtime failure exactly when every imported hostname they probe contains a dot. -/
theorem getServiceNameAndNs_defined_iff_dot (deps : Deps) (cf : ConfigFactory)
    (valuesOrder : List ServiceEntry → List ServiceEntry) :
    (∀ hostname : String,
      (∃ names, getServiceNameAndNs hostname = some names) ↔ '.' ∈ hostname.data) ∧
    (∀ hostname : String, '.' ∈ hostname.data →
      getServiceNameAndNs hostname =
        some (String.mk (hostname.data.takeWhile fun c => decide (c ≠ '.')),
          String.mk
            (((hostname.data.dropWhile fun c => decide (c ≠ '.')).drop 1).takeWhile
              fun c => decide (c ≠ '.')))) ∧
    (∀ hostname : String, '.' ∉ hostname.data → getServiceNameAndNs hostname = none) ∧
    ((∀ site, ServiceEntries deps cf valuesOrder ≠ .panic site) ↔
      ∀ hostname ∈ probedHostnames cf
          (importedHostnames cf (remotesWithAddress cf.cfg.MeshPeers.Remotes)),
        '.' ∈ hostname.data) ∧
    ((∀ site, WorkloadEntries deps cf ≠ .panic site) ↔
      ∀ hostname ∈ probedHostnames cf (importedHostnames cf cf.cfg.MeshPeers.Remotes),
        '.' ∈ hostname.data) := by
  refine ⟨?_, getServiceNameAndNs_of_dot, getServiceNameAndNs_of_no_dot, ?_, ?_⟩
  · intro hostname
    by_cases h : '.' ∈ hostname.data
    · simp [h, getServiceNameAndNs_of_dot hostname h]
    · simp [h, getServiceNameAndNs_of_no_dot hostname h]
  · have hstop := ServiceEntries_stop deps cf valuesOrder
    have hiff := stopOf_eq_outOfRange (ServiceEntries deps cf valuesOrder)
    rw [hstop, firstStop_outOfRange_iff] at hiff
    constructor
    · intro hno hostname hmem
      by_contra hdot
      obtain ⟨site, hsite⟩ := hiff.mp ⟨hostname, hmem, hdot⟩
      exact hno site hsite
    · intro hall site hsite
      obtain ⟨hostname, hmem, hdot⟩ := hiff.mpr ⟨site, hsite⟩
      exact hdot (hall hostname hmem)
  · have hstop := workloadEntriesLoop_stop deps cf cf.cfg.MeshPeers.Remotes []
    have hiff := stopOf_eq_outOfRange (WorkloadEntries deps cf)
    unfold WorkloadEntries at hiff
    rw [hstop, firstStop_outOfRange_iff] at hiff
    unfold WorkloadEntries
    constructor
    · intro hno hostname hmem
      by_contra hdot
      obtain ⟨site, hsite⟩ := hiff.mp ⟨hostname, hmem, hdot⟩
      exact hno site hsite
    · intro hall site hsite
      obtain ⟨hostname, hmem, hdot⟩ := hiff.mpr ⟨site, hsite⟩
      exact hdot (hall hostname hmem)

theorem getServiceNameAndNs_defined_iff_dot_witness :
    getServiceNameAndNs "billing.ns1.svc.cluster.local" = some ("billing", "ns1") ∧
    getServiceNameAndNs "billing.ns1" = some ("billing", "ns1") ∧
    getServiceNameAndNs "localhost" = none ∧
    ServiceEntries sampleDeps factoryDotless id = .panic siteDomainLabels ∧
    WorkloadEntries sampleDeps factoryDotless = .panic siteDomainLabels :=
  ⟨(getServiceNameAndNs_defined_iff_dot sampleDeps factoryDotless id).2.1
      "billing.ns1.svc.cluster.local" (by decide),
    (getServiceNameAndNs_defined_iff_dot sampleDeps factoryDotless id).2.1 "billing.ns1"
      (by decide),
    (getServiceNameAndNs_defined_iff_dot sampleDeps factoryDotless id).2.2.1 "localhost"
      (by decide),
    by decide, by decide⟩

/-! ## The SNI matched by the filter of the discovery endpoint -/

/-- C21 fails on the code: with an OpenShift router as local ingress and the controller in the
namespace `federation`, the filter of the discovery endpoint matches the SNI of
`federation-discovery-service-west.istio-system.svc.cluster.local`, while the gateway returned
by `IngressGateway` on the same inputs lists the discovery endpoint as
`federation-discovery-service-west.federation.svc.cluster.local`: the matched SNI ends in no
host of the gateway. The filter of the exported service `catalog` does match a host of it. -/
theorem EnvoyFilters_discovery_sni_not_a_gateway_host :
    routerFactoryOtherNamespace.cfg.MeshPeers.Local.IngressType = IngressType.OpenShiftRouter ∧
    (EnvoyFilters routerFactoryOtherNamespace).map
        (fun filter => filter.Spec.ConfigPatches.map (fun patch => patch.Match.Sni)) =
      [["outbound_.15080_._.federation-discovery-service-west.istio-system.svc.cluster.local"],
        ["outbound_.8080_._.catalog.ns2.svc.cluster.local"]] ∧
    Except.map gatewayHosts (IngressGateway routerFactoryOtherNamespace) =
      .ok ["catalog.ns2.svc.cluster.local",
        "federation-discovery-service-west.federation.svc.cluster.local"] ∧
    ∀ host ∈ ["catalog.ns2.svc.cluster.local",
        "federation-discovery-service-west.federation.svc.cluster.local"],
      ∀ pre : String,
        "outbound_.15080_._.federation-discovery-service-west.istio-system.svc.cluster.local" ≠
          pre ++ host := by
  refine ⟨rfl, by decide, by decide, ?_⟩
  intro host hhost pre
  simp only [List.mem_cons, List.mem_singleton, List.not_mem_nil, or_false] at hhost
  rcases hhost with rfl | rfl
  · exact ne_append_of_drop_ne _ _ (by decide) pre
  · exact ne_append_of_drop_ne _ _ (by decide) pre

end Federation
